import Mathlib

/-!
# Dataflow dependency analyzer (`dflow_calc.c`)

A shallow embedding of `analyzeProg` and of the query functions
`getInstDepth`, `getInstDeps`, `getProgDepth`, followed by the properties
established about them.

Conventions of the embedding.

* A C array argument is a bare pointer, so `opsLatency` and `progTrace` are
  modelled as maps from an index to the value a read at that index yields.
  A null pointer is `none`.
* `unsigned int` values are natural numbers; `int` values are integers.  The
  cast `(int)u` and the `int` addition are written `castInt` and `addInt`:
  both reduce modulo `2^32` into the range `[-2^31, 2^31)`.
* The heap arrays of the context are lists of length `num_insts`; a store
  is `List.set`.  A read `ctx->depth[dep]` or `ctx->latency[dep]` whose index
  lies outside the array yields what the memory holds there; this content is
  a parameter of the analysis (`Outside`).  The general statements about the
  analysis hold for all such contents; the concrete runs fix one
  (`quietOutside`, `noisyOutside`).
* A handle (`ProgCtx`) is `Option ProgCtxImpl`, with `PROG_CTX_NULL = none`.
-/

namespace DflowCalc

/-! ## Constants and helpers of the source -/

/-- Number of architectural registers tracked (`#define REG_COUNT 32`). -/
def REG_COUNT : Nat := 32

/-- The "no dependency" marker (`#define INVALID_DEP (-1)`). -/
def INVALID_DEP : Int := -1

/-- The macro `MAX(a,b)`, namely `((a) > (b)) ? (a) : (b)`, at type `int`. -/
def MAX (a b : Int) : Int := if a > b then a else b

/-- Reduction of an integer into the range of a 32-bit `int`,
two's complement. -/
def wrapInt (x : Int) : Int := (x + 2147483648) % 4294967296 - 2147483648

/-- The cast `(int)u` of an `unsigned int` value. -/
def castInt (u : Nat) : Int := wrapInt (u : Int)

/-- The `int` addition `a + b`.  Signed overflow is undefined in C; the
embedding wraps, as two's-complement hardware does. -/
def addInt (a b : Int) : Int := wrapInt (a + b)

/-- The content of the memory around the arrays `depth` and `latency` of
the context, as the loop of `analyzeProg` finds it: `depthAt i k` is what the
read `ctx->depth[k]` yields during iteration `i` when `k` is not an index of
the array, and `latencyAt i k` likewise for `ctx->latency[k]`.  Such a read
is undefined in C; when it returns, it returns some content of the memory,
and the content is left arbitrary here. -/
structure Outside where
  depthAt : Nat → Int → Int
  latencyAt : Nat → Int → Nat

/-- The read `a[k]` of an `int` array at an `int` index: the cell `k` of the
array when `k` is one of its indices, and otherwise the content `outside k`
of the memory at that place. -/
def loadInt (outside : Int → Int) (a : List Int) (k : Int) : Int :=
  if 0 ≤ k then (a[k.toNat]?).getD (outside k) else outside k

/-- The read `a[k]` of an `unsigned int` array at an `int` index, as
`loadInt`. -/
def loadNat (outside : Int → Nat) (a : List Nat) (k : Int) : Nat :=
  if 0 ≤ k then (a[k.toNat]?).getD (outside k) else outside k

/-- Outcome of `safe_calloc(n, sz)`: `NULL` when `n == 0` or `sz == 0`,
otherwise what `calloc` gives, a zero-filled block of `n` cells when the heap
can serve the request (`heapOk`) and `NULL` when it cannot. -/
def safe_calloc {α : Type} (heapOk : Bool) (n sz : Nat) (zero : α) : Option (List α) :=
  if n = 0 ∨ sz = 0 then none
  else if heapOk then some (List.replicate n zero) else none

/-! ## Data model -/

/-- Modelled from the spec: the record `InstInfo` is declared in the header
`dflow_calc.h`, which is not part of the sources at hand.  Its four fields
are the ones `analyzeProg` reads; following the data model of the
specification each is a non-negative (unsigned) integer, register indices at
or above `REG_COUNT` meaning "no register". -/
structure InstInfo where
  opcode : Nat
  dstIdx : Nat
  src1Idx : Nat
  src2Idx : Nat
deriving DecidableEq

/-- The context `ProgCtxImpl` built by `analyzeProg`. -/
structure ProgCtxImpl where
  num_insts : Nat
  latency : List Nat
  depth : List Int
  src1_dep : List Int
  src2_dep : List Int
  prog_depth : Int
deriving DecidableEq

/-- The variables live across iterations of the main loop of `analyzeProg`:
the context under construction and the locals `last_writer` and
`max_exit_depth`. -/
structure LoopState where
  ctx : ProgCtxImpl
  last_writer : List Int
  max_exit_depth : Int
deriving DecidableEq

/-! ## `analyzeProg` -/

/-- One iteration of the loop `for (i = 0; i < numOfInsts; ++i)` of
`analyzeProg`, statement by statement.  `outside` is the content of the
memory around the arrays, for the reads `ctx->depth[dep]` and
`ctx->latency[dep]` whose index is not one of the array. -/
def loopBody (outside : Outside) (opsLatency : Nat → Nat) (progTrace : Nat → InstInfo)
    (s : LoopState) (i : Nat) : LoopState :=
  let inst := progTrace i
  let latency := s.ctx.latency.set i (opsLatency inst.opcode)
  let dep1 := if inst.src1Idx < REG_COUNT then s.last_writer.getD inst.src1Idx 0 else INVALID_DEP
  let dep2 := if inst.src2Idx < REG_COUNT then s.last_writer.getD inst.src2Idx 0 else INVALID_DEP
  let src1_dep := s.ctx.src1_dep.set i dep1
  let src2_dep := s.ctx.src2_dep.set i dep2
  let depth1 :=
    if dep1 = INVALID_DEP then 0
    else addInt (loadInt (outside.depthAt i) s.ctx.depth dep1)
      (castInt (loadNat (outside.latencyAt i) latency dep1))
  let depth2 :=
    if dep2 = INVALID_DEP then 0
    else addInt (loadInt (outside.depthAt i) s.ctx.depth dep2)
      (castInt (loadNat (outside.latencyAt i) latency dep2))
  let depth := s.ctx.depth.set i (MAX depth1 depth2)
  let last_writer :=
    if inst.dstIdx < REG_COUNT then s.last_writer.set inst.dstIdx (castInt i)
    else s.last_writer
  let inst_exit := addInt (depth.getD i 0) (castInt (latency.getD i 0))
  let max_exit_depth := if inst_exit > s.max_exit_depth then inst_exit else s.max_exit_depth
  { ctx := { s.ctx with latency := latency, depth := depth,
                        src1_dep := src1_dep, src2_dep := src2_dep },
    last_writer := last_writer,
    max_exit_depth := max_exit_depth }

/-- The function `analyzeProg`.  `heapOk` tells whether the heap serves the
allocation requests (`malloc` of the context and the four `calloc`s); the
cell size passed to `safe_calloc` is `sizeof(unsigned int) = sizeof(int) = 4`.
The field `prog_depth` is not initialised before the final store. -/
def analyzeProg (outside : Outside) (heapOk : Bool) (opsLatency : Option (Nat → Nat))
    (progTrace : Option (Nat → InstInfo)) (numOfInsts : Nat) : Option ProgCtxImpl :=
  match progTrace, opsLatency with
  | some trace, some table =>
    if numOfInsts = 0 then none
    else if heapOk = false then none
    else
      match safe_calloc heapOk numOfInsts 4 (0 : Nat),
            safe_calloc heapOk numOfInsts 4 (0 : Int),
            safe_calloc heapOk numOfInsts 4 (0 : Int),
            safe_calloc heapOk numOfInsts 4 (0 : Int) with
      | some latency, some depth, some src1_dep, some src2_dep =>
        let s := (List.range numOfInsts).foldl (loopBody outside table trace)
          { ctx := { num_insts := numOfInsts, latency := latency, depth := depth,
                     src1_dep := src1_dep, src2_dep := src2_dep, prog_depth := 0 },
            last_writer := List.replicate REG_COUNT INVALID_DEP,
            max_exit_depth := 0 }
        some { s.ctx with prog_depth := s.max_exit_depth }
      | _, _, _, _ => none
  | _, _ => none

/-! ## Queries -/

/-- The function `getInstDepth`. -/
def getInstDepth (ctx : Option ProgCtxImpl) (theInst : Nat) : Int :=
  match ctx with
  | none => -1
  | some p => if theInst ≥ p.num_insts then -1 else p.depth.getD theInst 0

/-- The function `getInstDeps`.  An out-parameter is `none` for a null
pointer and `some v` for a pointer to a cell holding `v`; the result is the
returned status with the two cells as the call leaves them. -/
def getInstDeps (ctx : Option ProgCtxImpl) (theInst : Nat)
    (src1DepInst src2DepInst : Option Int) : Int × Option Int × Option Int :=
  match ctx with
  | none => (-1, src1DepInst, src2DepInst)
  | some p =>
    if theInst ≥ p.num_insts then (-1, src1DepInst, src2DepInst)
    else
      (0,
       src1DepInst.map (fun _ => p.src1_dep.getD theInst 0),
       src2DepInst.map (fun _ => p.src2_dep.getD theInst 0))

/-- The function `getProgDepth`. -/
def getProgDepth (ctx : Option ProgCtxImpl) : Int :=
  match ctx with
  | none => -1
  | some p => p.prog_depth

/-! ## Query calls on a memory -/

/-- The memory a query call works on: the context behind a non-null handle
and the `int` cells of the caller, to which out-parameters point.  The type
`ProgCtxImpl` is private to `dflow_calc.c`, so that a caller holds no pointer
to a cell of the context. -/
structure QueryMem where
  ctx : ProgCtxImpl
  caller : Nat → Int

/-- The store `*p = v` through an out-parameter, guarded by `if (p)`:
nothing for the null pointer `none`, and for the address `a` of a caller
cell the memory with that cell set to `v`. -/
def storeOut (m : QueryMem) (p : Option Nat) (v : Int) : QueryMem :=
  match p with
  | none => m
  | some a => { m with caller := fun b => if b = a then v else m.caller b }

/-- The function `getInstDepth` on a memory: the returned value and the
memory after the call.  `valid` is `false` for the null handle. -/
def getInstDepthMem (m : QueryMem) (valid : Bool) (theInst : Nat) : Int × QueryMem :=
  if valid = false ∨ theInst ≥ m.ctx.num_insts then (-1, m)
  else (m.ctx.depth.getD theInst 0, m)

/-- The function `getInstDeps` on a memory: the returned status and the
memory after the two guarded stores, in the order of the source. -/
def getInstDepsMem (m : QueryMem) (valid : Bool) (theInst : Nat)
    (src1DepInst src2DepInst : Option Nat) : Int × QueryMem :=
  if valid = false ∨ theInst ≥ m.ctx.num_insts then (-1, m)
  else
    let m1 := storeOut m src1DepInst (m.ctx.src1_dep.getD theInst 0)
    let m2 := storeOut m1 src2DepInst (m1.ctx.src2_dep.getD theInst 0)
    (0, m2)

/-- The function `getProgDepth` on a memory. -/
def getProgDepthMem (m : QueryMem) (valid : Bool) : Int × QueryMem :=
  if valid = true then (m.ctx.prog_depth, m) else (-1, m)

/-- A call of one of the three query functions, with its arguments. -/
inductive Query where
  | instDepth (theInst : Nat)
  | instDeps (theInst : Nat) (src1DepInst src2DepInst : Option Nat)
  | progDepth
deriving DecidableEq

/-- One query call on a memory: the function called, on its arguments. -/
def runQuery (m : QueryMem) (valid : Bool) : Query → Int × QueryMem
  | .instDepth theInst => getInstDepthMem m valid theInst
  | .instDeps theInst src1DepInst src2DepInst =>
    getInstDepsMem m valid theInst src1DepInst src2DepInst
  | .progDepth => getProgDepthMem m valid

/-- A sequence of query calls on one handle, each call running on the memory
the previous one left: the returned values in order and the memory after the
last call. -/
def runQueries (m : QueryMem) (valid : Bool) : List Query → List Int × QueryMem
  | [] => ([], m)
  | q :: qs =>
    ((runQuery m valid q).1 :: (runQueries (runQuery m valid q).2 valid qs).1,
     (runQueries (runQuery m valid q).2 valid qs).2)

/-! ## Concrete inputs used below -/

/-- A memory holding 0 in every cell around the arrays. -/
def quietOutside : Outside :=
  { depthAt := fun _ _ => 0, latencyAt := fun _ _ => 0 }

/-- A memory holding 7 in every `int` cell around the array `depth`, and 0
around `latency`. -/
def noisyOutside : Outside :=
  { depthAt := fun _ _ => 7, latencyAt := fun _ _ => 0 }

/-- A table pointer over the entries `entries`, every read past them
yielding `beyond`. -/
def tableOf (entries : List Nat) (beyond : Nat) : Nat → Nat :=
  fun k => entries.getD k beyond

/-- A trace pointer over the instructions `insts`. -/
def traceOf (insts : List InstInfo) : Nat → InstInfo :=
  fun i => insts.getD i ⟨0, 0, 0, 0⟩

/-- The trace of scenario A: one instruction without valid registers. -/
def scenarioA : Nat → InstInfo :=
  traceOf [⟨0, 40, 40, 40⟩]

/-- The trace of scenario B: instruction 0 writes register 3, instruction 1
(opcode 1) reads it as its first source. -/
def scenarioB : Nat → InstInfo :=
  traceOf [⟨0, 3, 40, 40⟩, ⟨1, 40, 3, 40⟩]

/-- A trace whose instruction 0 writes register 3 and whose instruction 1
reads register 3 through both of its sources. -/
def bothSourcesTrace : Nat → InstInfo :=
  traceOf [⟨0, 3, 40, 40⟩, ⟨0, 40, 3, 3⟩]

/-- A trace of one instruction whose opcode is 1. -/
def opcodeOneTrace : Nat → InstInfo :=
  traceOf [⟨1, 40, 40, 40⟩]

/-- The trace of scenario C: instructions 0 and 1 write register 3,
instruction 2 reads it as its first source. -/
def scenarioC : Nat → InstInfo :=
  traceOf [⟨0, 3, 40, 40⟩, ⟨0, 3, 40, 40⟩, ⟨0, 40, 3, 40⟩]

/-- The trace of scenario D: instruction 0 writes register 3, instruction 1
names the register indices 40 and 3 as its sources. -/
def scenarioD : Nat → InstInfo :=
  traceOf [⟨0, 3, 40, 40⟩, ⟨0, 40, 40, 3⟩]

/-- A trace whose instruction 0 names the register index 40 as its
destination, whose instruction 1 writes register 3 and whose instruction 2
reads register 3. -/
def invisibleWriteTrace : Nat → InstInfo :=
  traceOf [⟨0, 40, 40, 40⟩, ⟨0, 3, 40, 40⟩, ⟨0, 40, 3, 40⟩]

/-- A trace pointer in which instruction `2^31` alone writes register 0 and
every other instruction reads register 0 as its first source. -/
def lateWriterTrace : Nat → InstInfo :=
  fun i => if i = 2147483648 then ⟨0, 0, 40, 40⟩ else ⟨0, 40, 0, 40⟩

/-- A trace pointer in which instruction `2^31`, of opcode 1, alone writes
register 0 and every other instruction, of opcode 0, reads register 0 as its
first source. -/
def lateProducerTrace : Nat → InstInfo :=
  fun i => if i = 2147483648 then ⟨1, 0, 40, 40⟩ else ⟨0, 40, 0, 40⟩

/-- A trace pointer in which every instruction reads register 5 as its first
source and writes register 5. -/
def selfChainTrace : Nat → InstInfo :=
  fun _ => ⟨0, 5, 5, 40⟩

/-! ## The loop, iteration by iteration -/

/-- The loop state on entry to the loop of `analyzeProg`, once the four
arrays of `numOfInsts` cells have been obtained. -/
def initState (numOfInsts : Nat) : LoopState :=
  { ctx := { num_insts := numOfInsts,
             latency := List.replicate numOfInsts 0,
             depth := List.replicate numOfInsts 0,
             src1_dep := List.replicate numOfInsts 0,
             src2_dep := List.replicate numOfInsts 0,
             prog_depth := 0 },
    last_writer := List.replicate REG_COUNT INVALID_DEP,
    max_exit_depth := 0 }

/-- The loop state after the first `k` iterations. -/
def loopState (outside : Outside) (opsLatency : Nat → Nat) (progTrace : Nat → InstInfo)
    (numOfInsts k : Nat) : LoopState :=
  (List.range k).foldl (loopBody outside opsLatency progTrace) (initState numOfInsts)

/-- The value `dep1`/`dep2` that iteration `i` computes for the source
register `src`, read off the state `s` the iteration starts from. -/
def depOf (s : LoopState) (src : Nat) : Int :=
  if src < REG_COUNT then s.last_writer.getD src 0 else INVALID_DEP

/-- The value `depth1`/`depth2` of iteration `i` of the loop body: the cycle
at which the operand produced by `dep` is ready, from arrays `depth` and
`latency` in the memory `outside`. -/
def readyOf (outside : Outside) (i : Nat) (depth : List Int) (latency : List Nat)
    (dep : Int) : Int :=
  if dep = INVALID_DEP then 0
  else addInt (loadInt (outside.depthAt i) depth dep)
    (castInt (loadNat (outside.latencyAt i) latency dep))

/-- The context `analyzeProg` returns for a trace of `numOfInsts`
instructions: the context of the loop state after all iterations, with
`prog_depth` set to the final `max_exit_depth`. -/
def finalCtx (outside : Outside) (opsLatency : Nat → Nat) (progTrace : Nat → InstInfo)
    (numOfInsts : Nat) : ProgCtxImpl :=
  { (loopState outside opsLatency progTrace numOfInsts numOfInsts).ctx with
      prog_depth := (loopState outside opsLatency progTrace numOfInsts numOfInsts).max_exit_depth }

/-- The value `inst_exit` of instruction `j`, namely
`ctx->depth[j] + (int)ctx->latency[j]`, read from the arrays of `ctx`. -/
def exitOf (ctx : ProgCtxImpl) (j : Nat) : Int :=
  addInt (ctx.depth.getD j 0) (castInt (ctx.latency.getD j 0))

/-- The value `v` names the most recent writer of register `r` among the
first `k` instructions: `INVALID_DEP` when none of them writes `r`, and
otherwise the cast `(int)m` of the greatest `m < k` with `dstIdx = r`. -/
def IsLastWriter (progTrace : Nat → InstInfo) (r k : Nat) (v : Int) : Prop :=
  ((∀ m, m < k → (progTrace m).dstIdx ≠ r) ∧ v = INVALID_DEP)
  ∨ ∃ m, m < k ∧ (progTrace m).dstIdx = r
      ∧ (∀ m2, m < m2 → m2 < k → (progTrace m2).dstIdx ≠ r) ∧ v = castInt m

/-! ## Conditions for a run without overflow -/

/-- Every cast `(int)i` performed by the first `k` iterations keeps the
value of the index: the cast is the one of the store
`last_writer[inst->dstIdx] = (int)i`, which an iteration runs when its
instruction writes a register, and it keeps the value when `i < 2^31`. -/
def CastsExact (progTrace : Nat → InstInfo) (k : Nat) : Prop :=
  ∀ j, j < k → (progTrace j).dstIdx < REG_COUNT → j < 2147483648

/-- No cast and no addition of the first `k` iterations on the way to the
context `ctx` left the range of `int`: the index casts keep their values,
every latency recorded by these iterations is below `2^31`, so that
`(int)latency[j]` keeps its value, and every sum `depth[j] + latency[j]` they
form (as the exit value of `j` and as the readiness of its consumers) is
below `2^31`. -/
def NoOverflowBefore (progTrace : Nat → InstInfo) (ctx : ProgCtxImpl) (k : Nat) : Prop :=
  CastsExact progTrace k
  ∧ ∀ j, j < k →
      ctx.latency.getD j 0 < 2147483648
      ∧ ctx.depth.getD j 0 + (ctx.latency.getD j 0 : Int) < 2147483648

/-- No cast and no addition of the run on `progTrace` that produced `ctx`
left the range of `int`. -/
def NoOverflow (progTrace : Nat → InstInfo) (ctx : ProgCtxImpl) : Prop :=
  NoOverflowBefore progTrace ctx ctx.num_insts

/-- The list `js = [j1, ..., jk]` is a dependency chain from instruction
`i` in `ctx`: `j1` is recorded as a dependency of `i`, `j2` as one of `j1`,
and so on. -/
def IsDepChain (ctx : ProgCtxImpl) : Nat → List Nat → Prop
  | _, [] => True
  | i, j :: rest =>
    (ctx.src1_dep[i]? = some (j : Int) ∨ ctx.src2_dep[i]? = some (j : Int))
      ∧ IsDepChain ctx j rest

/-- The sum of the recorded latencies of the instructions of a chain. -/
def chainLatency (ctx : ProgCtxImpl) (js : List Nat) : Nat :=
  (js.map (fun j => ctx.latency.getD j 0)).sum

/-! ## The analysis of the specification, in unbounded integers -/

/-- The state of the single pass the specification describes, with every
quantity an unbounded natural number and "none" a value of its own:
per-instruction latencies and depths, the recorded dependencies, the
"last writer" table and the running maximum `max_program_exit`. -/
structure SpecState where
  latency : List Nat
  depth : List Nat
  dep1 : List (Option Nat)
  dep2 : List (Option Nat)
  last_writer : List (Option Nat)
  max_program_exit : Nat
deriving DecidableEq

/-- Steps 1 and 2 of the pass: the "last writer" table of `REG_COUNT`
entries, all "none", and `max_program_exit = 0`, with room for the results
of `numOfInsts` instructions. -/
def specInit (numOfInsts : Nat) : SpecState :=
  { latency := List.replicate numOfInsts 0,
    depth := List.replicate numOfInsts 0,
    dep1 := List.replicate numOfInsts none,
    dep2 := List.replicate numOfInsts none,
    last_writer := List.replicate REG_COUNT none,
    max_program_exit := 0 }

/-- Step 3b: the dependency for the source register `src` is
`last_writer[src]` if `src` is a valid register index, else "none". -/
def specDep (s : SpecState) (src : Nat) : Option Nat :=
  if src < REG_COUNT then s.last_writer.getD src none else none

/-- Step 3c: `ready := 0` if the dependency is "none", else
`depth[dep] + latency[dep]`. -/
def specReady (depth latency : List Nat) : Option Nat → Nat
  | none => 0
  | some j => depth.getD j 0 + latency.getD j 0

/-- Step 3 of the pass for instruction `i`, sub-steps a to f in order.  The
latency table is the one the code reads, `opsLatency[opcode]`. -/
def specStep (opsLatency : Nat → Nat) (progTrace : Nat → InstInfo)
    (s : SpecState) (i : Nat) : SpecState :=
  let inst := progTrace i
  let latency := s.latency.set i (opsLatency inst.opcode)
  let dep1 := specDep s inst.src1Idx
  let dep2 := specDep s inst.src2Idx
  let ready1 := specReady s.depth latency dep1
  let ready2 := specReady s.depth latency dep2
  let depth := s.depth.set i (max ready1 ready2)
  let last_writer :=
    if inst.dstIdx < REG_COUNT then s.last_writer.set inst.dstIdx (some i)
    else s.last_writer
  let exit_i := depth.getD i 0 + latency.getD i 0
  { latency := latency,
    depth := depth,
    dep1 := s.dep1.set i dep1,
    dep2 := s.dep2.set i dep2,
    last_writer := last_writer,
    max_program_exit := max s.max_program_exit exit_i }

/-- The state of the pass after the first `k` instructions. -/
def specState (opsLatency : Nat → Nat) (progTrace : Nat → InstInfo)
    (numOfInsts k : Nat) : SpecState :=
  (List.range k).foldl (specStep opsLatency progTrace) (specInit numOfInsts)

/-- Step 4: the result of the pass over `numOfInsts` instructions, whose
`program_depth` is the final `max_program_exit`. -/
def specResult (opsLatency : Nat → Nat) (progTrace : Nat → InstInfo)
    (numOfInsts : Nat) : SpecState :=
  specState opsLatency progTrace numOfInsts numOfInsts

/-- The `int` by which the code records a dependency: `INVALID_DEP` for
"none", the index itself for an instruction. -/
def depCode : Option Nat → Int
  | none => INVALID_DEP
  | some j => (j : Int)

/-- The loop state `s` of the code holds, after `k` iterations, the values of
the state `t` of the pass in unbounded integers: the same latencies, the
same depths, the same dependencies for the instructions before `k`, the same
running maximum. -/
def Encodes (k : Nat) (s : LoopState) (t : SpecState) : Prop :=
  s.ctx.latency = t.latency
  ∧ (∀ j, s.ctx.depth.getD j 0 = (t.depth.getD j 0 : Int))
  ∧ (∀ j, j < k → s.ctx.src1_dep.getD j 0 = depCode (t.dep1.getD j none))
  ∧ (∀ j, j < k → s.ctx.src2_dep.getD j 0 = depCode (t.dep2.getD j none))
  ∧ s.max_exit_depth = (t.max_program_exit : Int)

/-- The table `last_writer` of the loop state `s` of the code holds the
"last writer" table of the state `t` of the pass in unbounded integers. -/
def EncodesWriters (s : LoopState) (t : SpecState) : Prop :=
  ∀ r, r < REG_COUNT → s.last_writer.getD r 0 = depCode (t.last_writer.getD r none)

/-! ## Basic facts about the loop -/

section Loop

variable (outside : Outside) (opsLatency : Nat → Nat) (progTrace : Nat → InstInfo)
    (numOfInsts : Nat)

theorem loopState_zero : loopState outside opsLatency progTrace numOfInsts 0 = initState
    numOfInsts := rfl

theorem loopState_succ (k : Nat) :
    loopState outside opsLatency progTrace numOfInsts (k + 1)
      = loopBody outside opsLatency progTrace (loopState outside opsLatency progTrace numOfInsts
          k) k := by
  simp [loopState, List.range_succ, List.foldl_append]

theorem loopBody_latency (s : LoopState) (i : Nat) :
    (loopBody outside opsLatency progTrace s i).ctx.latency
      = s.ctx.latency.set i (opsLatency (progTrace i).opcode) := rfl

theorem loopBody_src1_dep (s : LoopState) (i : Nat) :
    (loopBody outside opsLatency progTrace s i).ctx.src1_dep
      = s.ctx.src1_dep.set i (depOf s (progTrace i).src1Idx) := rfl

theorem loopBody_src2_dep (s : LoopState) (i : Nat) :
    (loopBody outside opsLatency progTrace s i).ctx.src2_dep
      = s.ctx.src2_dep.set i (depOf s (progTrace i).src2Idx) := rfl

theorem loopBody_depth (s : LoopState) (i : Nat) :
    (loopBody outside opsLatency progTrace s i).ctx.depth
      = s.ctx.depth.set i
          (MAX (readyOf outside i s.ctx.depth (loopBody outside opsLatency progTrace s
              i).ctx.latency
                  (depOf s (progTrace i).src1Idx))
               (readyOf outside i s.ctx.depth (loopBody outside opsLatency progTrace s
                   i).ctx.latency
                  (depOf s (progTrace i).src2Idx))) := rfl

theorem loopBody_num_insts (s : LoopState) (i : Nat) :
    (loopBody outside opsLatency progTrace s i).ctx.num_insts = s.ctx.num_insts := rfl

theorem loopBody_last_writer (s : LoopState) (i : Nat) :
    (loopBody outside opsLatency progTrace s i).last_writer
      = if (progTrace i).dstIdx < REG_COUNT
          then s.last_writer.set (progTrace i).dstIdx (castInt i)
          else s.last_writer := rfl

theorem loopBody_max_exit_depth (s : LoopState) (i : Nat) :
    (loopBody outside opsLatency progTrace s i).max_exit_depth
      = if addInt ((loopBody outside opsLatency progTrace s i).ctx.depth.getD i 0)
              (castInt ((loopBody outside opsLatency progTrace s i).ctx.latency.getD i 0))
            > s.max_exit_depth
          then addInt ((loopBody outside opsLatency progTrace s i).ctx.depth.getD i 0)
              (castInt ((loopBody outside opsLatency progTrace s i).ctx.latency.getD i 0))
          else s.max_exit_depth := rfl

/-- The arrays keep their lengths throughout the loop. -/
theorem loopState_lengths (k : Nat) :
    (loopState outside opsLatency progTrace numOfInsts k).ctx.num_insts = numOfInsts
    ∧ (loopState outside opsLatency progTrace numOfInsts k).ctx.latency.length = numOfInsts
    ∧ (loopState outside opsLatency progTrace numOfInsts k).ctx.depth.length = numOfInsts
    ∧ (loopState outside opsLatency progTrace numOfInsts k).ctx.src1_dep.length = numOfInsts
    ∧ (loopState outside opsLatency progTrace numOfInsts k).ctx.src2_dep.length = numOfInsts
    ∧ (loopState outside opsLatency progTrace numOfInsts k).last_writer.length = REG_COUNT := by
  induction k with
  | zero => simp [loopState_zero, initState]
  | succ k ih =>
    obtain ⟨h0, h1, h2, h3, h4, h5⟩ := ih
    rw [loopState_succ]
    refine ⟨?_, ?_, ?_, ?_, ?_, ?_⟩
    · rw [loopBody_num_insts]; exact h0
    · rw [loopBody_latency, List.length_set]; exact h1
    · rw [loopBody_depth, List.length_set]; exact h2
    · rw [loopBody_src1_dep, List.length_set]; exact h3
    · rw [loopBody_src2_dep, List.length_set]; exact h4
    · rw [loopBody_last_writer]
      split
      · rw [List.length_set]; exact h5
      · exact h5

/-- Iterations after `j` leave cell `j` of the four arrays alone. -/
theorem loopState_frame (j k : Nat) (hjk : j < k) :
    (loopState outside opsLatency progTrace numOfInsts k).ctx.latency[j]?
        = (loopState outside opsLatency progTrace numOfInsts (j + 1)).ctx.latency[j]?
    ∧ (loopState outside opsLatency progTrace numOfInsts k).ctx.depth[j]?
        = (loopState outside opsLatency progTrace numOfInsts (j + 1)).ctx.depth[j]?
    ∧ (loopState outside opsLatency progTrace numOfInsts k).ctx.src1_dep[j]?
        = (loopState outside opsLatency progTrace numOfInsts (j + 1)).ctx.src1_dep[j]?
    ∧ (loopState outside opsLatency progTrace numOfInsts k).ctx.src2_dep[j]?
        = (loopState outside opsLatency progTrace numOfInsts (j + 1)).ctx.src2_dep[j]? := by
  induction k with
  | zero => omega
  | succ k ih =>
    rcases Nat.lt_succ_iff_lt_or_eq.mp hjk with h | h
    · obtain ⟨h1, h2, h3, h4⟩ := ih h
      have hne : k ≠ j := by omega
      rw [loopState_succ]
      refine ⟨?_, ?_, ?_, ?_⟩
      · rw [loopBody_latency, List.getElem?_set_ne hne]; exact h1
      · rw [loopBody_depth, List.getElem?_set_ne hne]; exact h2
      · rw [loopBody_src1_dep, List.getElem?_set_ne hne]; exact h3
      · rw [loopBody_src2_dep, List.getElem?_set_ne hne]; exact h4
    · subst h
      exact ⟨rfl, rfl, rfl, rfl⟩

theorem getElem?_set_self_of_lt {α : Type} (l : List α) (i : Nat) (a : α)
    (h : i < l.length) : (l.set i a)[i]? = some a := by
  simp [List.getElem?_set, h]

/-- What iteration `j` stores in cell `j` of the four arrays, as found in
the state after `k > j` iterations. -/
theorem loopState_cell (j k : Nat) (hjk : j < k) (hj : j < numOfInsts) :
    (loopState outside opsLatency progTrace numOfInsts k).ctx.latency[j]?
        = some (opsLatency (progTrace j).opcode)
    ∧ (loopState outside opsLatency progTrace numOfInsts k).ctx.src1_dep[j]?
        = some (depOf (loopState outside opsLatency progTrace numOfInsts j) (progTrace j).src1Idx)
    ∧ (loopState outside opsLatency progTrace numOfInsts k).ctx.src2_dep[j]?
        = some (depOf (loopState outside opsLatency progTrace numOfInsts j) (progTrace j).src2Idx)
    ∧ (loopState outside opsLatency progTrace numOfInsts k).ctx.depth[j]?
        = some (MAX
            (readyOf outside j (loopState outside opsLatency progTrace numOfInsts j).ctx.depth
              (loopState outside opsLatency progTrace numOfInsts (j + 1)).ctx.latency
              (depOf (loopState outside opsLatency progTrace numOfInsts j) (progTrace j).src1Idx))
            (readyOf outside j (loopState outside opsLatency progTrace numOfInsts j).ctx.depth
              (loopState outside opsLatency progTrace numOfInsts (j + 1)).ctx.latency
              (depOf (loopState outside opsLatency progTrace numOfInsts j)
                  (progTrace j).src2Idx))) := by
  obtain ⟨f1, f2, f3, f4⟩ := loopState_frame outside opsLatency progTrace numOfInsts j k hjk
  obtain ⟨-, l1, l2, l3, l4, -⟩ := loopState_lengths outside opsLatency progTrace numOfInsts j
  rw [f1, f2, f3, f4]
  refine ⟨?_, ?_, ?_, ?_⟩
  · rw [loopState_succ, loopBody_latency]
    exact getElem?_set_self_of_lt _ _ _ (by omega)
  · rw [loopState_succ, loopBody_src1_dep]
    exact getElem?_set_self_of_lt _ _ _ (by omega)
  · rw [loopState_succ, loopBody_src2_dep]
    exact getElem?_set_self_of_lt _ _ _ (by omega)
  · rw [loopState_succ, loopBody_depth, ← loopState_succ]
    exact getElem?_set_self_of_lt _ _ _ (by omega)

/-- The result of `analyzeProg` on present arguments, a non-empty trace and a
heap that serves the allocations, in terms of the loop. -/
theorem analyzeProg_eq (h : 0 < numOfInsts) :
    analyzeProg outside true (some opsLatency) (some progTrace) numOfInsts
      = some (finalCtx outside opsLatency progTrace numOfInsts) := by
  have h0 : numOfInsts ≠ 0 := by omega
  simp [analyzeProg, safe_calloc, h0, finalCtx, loopState, initState]

/-- The table `last_writer` after `k` iterations: cell `r` names the most
recent writer of `r` among the first `k` instructions. -/
theorem loopState_last_writer (k r : Nat) (hr : r < REG_COUNT) :
    IsLastWriter progTrace r k
      ((loopState outside opsLatency progTrace numOfInsts k).last_writer.getD r 0) := by
  induction k with
  | zero =>
    left
    refine ⟨fun m hm => by omega, ?_⟩
    rw [loopState_zero]
    simp only [initState, List.getD_eq_getElem?_getD, List.getElem?_replicate, if_pos hr]
    rfl
  | succ k ih =>
    obtain ⟨-, -, -, -, -, hlen⟩ := loopState_lengths outside opsLatency progTrace numOfInsts k
    rw [loopState_succ, loopBody_last_writer]
    by_cases hd : (progTrace k).dstIdx = r
    · right
      refine ⟨k, by omega, hd, fun m2 h1 h2 => by omega, ?_⟩
      rw [hd, if_pos hr, List.getD_eq_getElem?_getD,
        getElem?_set_self_of_lt _ _ _ (by omega), Option.getD_some]
    · have hval : (if (progTrace k).dstIdx < REG_COUNT
            then (loopState outside opsLatency progTrace numOfInsts k).last_writer.set
              (progTrace k).dstIdx (castInt k)
            else (loopState outside opsLatency progTrace numOfInsts k).last_writer).getD r 0
          = (loopState outside opsLatency progTrace numOfInsts k).last_writer.getD r 0 := by
        split
        · rw [List.getD_eq_getElem?_getD, List.getD_eq_getElem?_getD,
            List.getElem?_set_ne hd]
        · rfl
      rw [hval]
      rcases ih with ⟨h1, h2⟩ | ⟨m, hm, hdm, hlater, hv⟩
      · left
        refine ⟨fun m hm => ?_, h2⟩
        rcases Nat.lt_succ_iff_lt_or_eq.mp hm with h | h
        · exact h1 m h
        · rw [h]; exact hd
      · right
        refine ⟨m, by omega, hdm, fun m2 h1 h2 => ?_, hv⟩
        rcases Nat.lt_succ_iff_lt_or_eq.mp h2 with h | h
        · exact hlater m2 h1 h
        · rw [h]; exact hd

/-- A cell written by an earlier iteration reads the same in every later
state. -/
theorem loopState_cell_stable (t i k : Nat) (hti : t < i) (hik : i ≤ k) :
    (loopState outside opsLatency progTrace numOfInsts i).ctx.latency[t]?
        = (loopState outside opsLatency progTrace numOfInsts k).ctx.latency[t]?
    ∧ (loopState outside opsLatency progTrace numOfInsts i).ctx.depth[t]?
        = (loopState outside opsLatency progTrace numOfInsts k).ctx.depth[t]? := by
  obtain ⟨a1, a2, -, -⟩ := loopState_frame outside opsLatency progTrace numOfInsts t i hti
  obtain ⟨b1, b2, -, -⟩ := loopState_frame outside opsLatency progTrace numOfInsts t k (by omega)
  exact ⟨a1.trans b1.symm, a2.trans b2.symm⟩

theorem castInt_toNat_le (m : Nat) (h : 0 ≤ castInt m) : (castInt m).toNat ≤ m := by
  unfold castInt wrapInt at *
  omega

theorem castInt_of_lt (m : Nat) (h : m < 2147483648) : castInt m = (m : Int) := by
  unfold castInt wrapInt
  omega

theorem castInt_range (m : Nat) : -2147483648 ≤ castInt m ∧ castInt m < 2147483648 := by
  unfold castInt wrapInt
  omega

/-- The dependency iteration `i` finds for a source register is
`INVALID_DEP` or the cast of an earlier instruction index. -/
theorem depOf_range (i src : Nat) :
    depOf (loopState outside opsLatency progTrace numOfInsts i) src = INVALID_DEP
    ∨ ∃ m, m < i ∧ depOf (loopState outside opsLatency progTrace numOfInsts i) src = castInt m := by
  unfold depOf
  split
  · next hsrc =>
    rcases loopState_last_writer outside opsLatency progTrace numOfInsts i src hsrc with
      ⟨-, h⟩ | ⟨m, hm, -, -, hv⟩
    · exact Or.inl h
    · exact Or.inr ⟨m, hm, hv⟩
  · exact Or.inl rfl

/-- The readiness computed by iteration `i` for a dependency `d` it found
is the one the arrays of any later state give. -/
theorem readyOf_stable (i k : Nat) (hik : i < k) (d : Int)
    (hd : d = INVALID_DEP ∨ ∃ m, m < i ∧ d = castInt m) :
    readyOf outside i (loopState outside opsLatency progTrace numOfInsts i).ctx.depth
        (loopState outside opsLatency progTrace numOfInsts (i + 1)).ctx.latency d
      = readyOf outside i (loopState outside opsLatency progTrace numOfInsts k).ctx.depth
        (loopState outside opsLatency progTrace numOfInsts k).ctx.latency d := by
  unfold readyOf
  split
  · rfl
  · next hne =>
    rcases hd with h | ⟨m, hm, hv⟩
    · exact absurd h hne
    · unfold loadInt loadNat
      split
      · next hpos =>
        have h0 : 0 ≤ castInt m := by rw [← hv]; exact hpos
        have ht : d.toNat < i := by
          rw [hv]
          exact lt_of_le_of_lt (castInt_toNat_le m h0) hm
        obtain ⟨-, e2⟩ := loopState_cell_stable outside opsLatency progTrace numOfInsts
          d.toNat i k ht (by omega)
        obtain ⟨e1, -⟩ := loopState_cell_stable outside opsLatency progTrace numOfInsts
          d.toNat (i + 1) k (by omega) (by omega)
        rw [e1, e2]
      · rfl

/-- The lengths of the arrays of the returned context. -/
theorem finalCtx_lengths :
    (finalCtx outside opsLatency progTrace numOfInsts).num_insts = numOfInsts
    ∧ (finalCtx outside opsLatency progTrace numOfInsts).latency.length = numOfInsts
    ∧ (finalCtx outside opsLatency progTrace numOfInsts).depth.length = numOfInsts
    ∧ (finalCtx outside opsLatency progTrace numOfInsts).src1_dep.length = numOfInsts
    ∧ (finalCtx outside opsLatency progTrace numOfInsts).src2_dep.length = numOfInsts := by
  obtain ⟨h0, h1, h2, h3, h4, -⟩ :=
    loopState_lengths outside opsLatency progTrace numOfInsts numOfInsts
  exact ⟨h0, h1, h2, h3, h4⟩

/-- Cell `i` of the latency and dependency arrays of the returned
context. -/
theorem finalCtx_cells (i : Nat) (hi : i < numOfInsts) :
    (finalCtx outside opsLatency progTrace numOfInsts).latency[i]?
        = some (opsLatency (progTrace i).opcode)
    ∧ (finalCtx outside opsLatency progTrace numOfInsts).src1_dep[i]?
        = some (depOf (loopState outside opsLatency progTrace numOfInsts i) (progTrace i).src1Idx)
    ∧ (finalCtx outside opsLatency progTrace numOfInsts).src2_dep[i]?
        = some (depOf (loopState outside opsLatency progTrace numOfInsts i) (progTrace i).src2Idx)
            := by
  obtain ⟨h1, h2, h3, -⟩ := loopState_cell outside opsLatency progTrace numOfInsts i numOfInsts hi
      hi
  exact ⟨h1, h2, h3⟩

/-- The depth recurrence on the returned context: cell `i` of `depth` is
the `MAX` of the readiness of the two recorded dependencies, the readiness
being computed from the returned arrays themselves. -/
theorem finalCtx_depth (i : Nat) (hi : i < numOfInsts) :
    (finalCtx outside opsLatency progTrace numOfInsts).depth[i]?
      = some (MAX
          (readyOf outside i (finalCtx outside opsLatency progTrace numOfInsts).depth
            (finalCtx outside opsLatency progTrace numOfInsts).latency
            (depOf (loopState outside opsLatency progTrace numOfInsts i) (progTrace i).src1Idx))
          (readyOf outside i (finalCtx outside opsLatency progTrace numOfInsts).depth
            (finalCtx outside opsLatency progTrace numOfInsts).latency
            (depOf (loopState outside opsLatency progTrace numOfInsts i) (progTrace i).src2Idx)))
                := by
  obtain ⟨-, -, -, h4⟩ := loopState_cell outside opsLatency progTrace numOfInsts i numOfInsts hi hi
  have e1 := readyOf_stable outside opsLatency progTrace numOfInsts i numOfInsts hi _
    (depOf_range outside opsLatency progTrace numOfInsts i (progTrace i).src1Idx)
  have e2 := readyOf_stable outside opsLatency progTrace numOfInsts i numOfInsts hi _
    (depOf_range outside opsLatency progTrace numOfInsts i (progTrace i).src2Idx)
  rw [e1, e2] at h4
  exact h4

/-- The exit value iteration `j` computes is the one read from the
returned context. -/
theorem exitOf_stable (j k : Nat) (hjk : j < k) :
    exitOf (loopState outside opsLatency progTrace numOfInsts (j + 1)).ctx j
      = exitOf (loopState outside opsLatency progTrace numOfInsts k).ctx j := by
  obtain ⟨f1, f2, -, -⟩ := loopState_frame outside opsLatency progTrace numOfInsts j k hjk
  unfold exitOf
  rw [List.getD_eq_getElem?_getD, List.getD_eq_getElem?_getD,
    List.getD_eq_getElem?_getD, List.getD_eq_getElem?_getD, f1, f2]

/-- The running maximum `max_exit_depth` after `k` iterations: it is
non-negative, bounds the exit value of every instruction processed so far,
and is either 0 or one of these exit values. -/
theorem loopState_max_exit_depth (k : Nat) :
    0 ≤ (loopState outside opsLatency progTrace numOfInsts k).max_exit_depth
    ∧ (∀ j, j < k →
        exitOf (loopState outside opsLatency progTrace numOfInsts k).ctx j
          ≤ (loopState outside opsLatency progTrace numOfInsts k).max_exit_depth)
    ∧ ((loopState outside opsLatency progTrace numOfInsts k).max_exit_depth = 0
        ∨ ∃ j, j < k ∧ (loopState outside opsLatency progTrace numOfInsts k).max_exit_depth
            = exitOf (loopState outside opsLatency progTrace numOfInsts k).ctx j) := by
  induction k with
  | zero =>
    exact ⟨le_refl _, fun j hj => by omega, Or.inl rfl⟩
  | succ k ih =>
    obtain ⟨ih0, ihle, ihmax⟩ := ih
    have hM : (loopState outside opsLatency progTrace numOfInsts (k + 1)).max_exit_depth
        = if exitOf (loopState outside opsLatency progTrace numOfInsts (k + 1)).ctx k
              > (loopState outside opsLatency progTrace numOfInsts k).max_exit_depth
          then exitOf (loopState outside opsLatency progTrace numOfInsts (k + 1)).ctx k
          else (loopState outside opsLatency progTrace numOfInsts k).max_exit_depth := by
      rw [loopState_succ]; rfl
    have hold : ∀ j, j < k →
        exitOf (loopState outside opsLatency progTrace numOfInsts (k + 1)).ctx j
          = exitOf (loopState outside opsLatency progTrace numOfInsts k).ctx j := by
      intro j hj
      rw [← exitOf_stable outside opsLatency progTrace numOfInsts j (k + 1) (by omega),
        ← exitOf_stable outside opsLatency progTrace numOfInsts j k hj]
    rw [hM]
    refine ⟨?_, ?_, ?_⟩
    · split <;> omega
    · intro j hj
      rcases Nat.lt_succ_iff_lt_or_eq.mp hj with h | h
      · have := ihle j h
        rw [hold j h]
        split <;> omega
      · subst h
        split <;> omega
    · split
      · exact Or.inr ⟨k, by omega, rfl⟩
      · rcases ihmax with h | ⟨j, hj, h⟩
        · exact Or.inl h
        · exact Or.inr ⟨j, by omega, by rw [hold j hj]; exact h⟩

/-- When the instruction indices below `i` keep their value under the cast
to `int`, the dependency found for a valid source register is `INVALID_DEP`
exactly when no earlier instruction writes it, and is otherwise the index of
the latest earlier writer. -/
theorem depOf_spec (i src : Nat) (hsrc : src < REG_COUNT) (hi : i ≤ 2147483648) :
    (depOf (loopState outside opsLatency progTrace numOfInsts i) src = INVALID_DEP
        ↔ ∀ j, j < i → (progTrace j).dstIdx ≠ src)
    ∧ ∀ j, j < i → (progTrace j).dstIdx = src
        → (∀ m, j < m → m < i → (progTrace m).dstIdx ≠ src)
        → depOf (loopState outside opsLatency progTrace numOfInsts i) src = (j : Int) := by
  have hdep : depOf (loopState outside opsLatency progTrace numOfInsts i) src
      = (loopState outside opsLatency progTrace numOfInsts i).last_writer.getD src 0 := by
    unfold depOf; rw [if_pos hsrc]
  rw [hdep]
  rcases loopState_last_writer outside opsLatency progTrace numOfInsts i src hsrc with
    ⟨hnone, hv⟩ | ⟨m, hm, hdm, hlater, hv⟩
  · refine ⟨⟨fun _ => hnone, fun _ => hv⟩, ?_⟩
    intro j hj hdj _
    exact absurd hdj (hnone j hj)
  · have hcast : castInt m = (m : Int) := castInt_of_lt m (by omega)
    rw [hv, hcast]
    refine ⟨⟨fun h => ?_, fun h => absurd hdm (h m hm)⟩, ?_⟩
    · unfold INVALID_DEP at h; omega
    · intro j hj hdj hjlater
      have : j = m := by
        rcases Nat.lt_trichotomy j m with h | h | h
        · exact absurd hdm (hjlater m h hm)
        · exact h
        · exact absurd hdj (hlater j h hj)
      rw [this]

theorem MAX_eq_max (a b : Int) : MAX a b = max a b := by
  unfold MAX
  split <;> omega

/-- The `int` sum `a + (int)u` is the integer `a + u` whenever the latter
lies in the range of `int`. -/
theorem addInt_castInt_exact (a : Int) (u : Nat)
    (h1 : -2147483648 ≤ a + (u : Int)) (h2 : a + (u : Int) < 2147483648) :
    addInt a (castInt u) = a + (u : Int) := by
  unfold addInt castInt wrapInt
  omega

theorem addInt_zero_castInt_zero : addInt 0 (castInt 0) = 0 := by decide

/-- The sum of the latencies of the first `k` instructions grows with
`k`. -/
theorem latencySum_mono (a b : Nat) (hab : a ≤ b) :
    (∑ j ∈ Finset.range a, opsLatency (progTrace j).opcode)
      ≤ ∑ j ∈ Finset.range b, opsLatency (progTrace j).opcode :=
  Finset.sum_le_sum_of_subset (Finset.range_mono hab)

/-- The readiness of the marker `INVALID_DEP` is 0. -/
theorem readyOf_invalid (i : Nat) (depth : List Int) (latency : List Nat) :
    readyOf outside i depth latency INVALID_DEP = 0 := by
  unfold readyOf
  rw [if_pos rfl]

/-- A source register index at or above `REG_COUNT` yields no
dependency. -/
theorem depOf_of_ge (s : LoopState) (src : Nat) (h : REG_COUNT ≤ src) :
    depOf s src = INVALID_DEP := by
  unfold depOf
  rw [if_neg (by omega)]

/-- Before the first iteration no register has a writer. -/
theorem depOf_zero (src : Nat) :
    depOf (loopState outside opsLatency progTrace numOfInsts 0) src = INVALID_DEP := by
  rcases depOf_range outside opsLatency progTrace numOfInsts 0 src with h | ⟨m, hm, -⟩
  · exact h
  · omega

end Loop

/-! ## Two runs compared -/

/-- The table `last_writer` after `k` iterations depends on the destination
indices of the first `k` instructions only. -/
theorem loopState_last_writer_congr
    (outside outside2 : Outside) (opsLatency opsLatency2 : Nat → Nat)
    (progTrace progTrace2 : Nat → InstInfo)
    (numOfInsts numOfInsts2 k : Nat)
    (h : ∀ j, j < k → (progTrace j).dstIdx = (progTrace2 j).dstIdx) :
    (loopState outside opsLatency progTrace numOfInsts k).last_writer
      = (loopState outside2 opsLatency2 progTrace2 numOfInsts2 k).last_writer := by
  induction k with
  | zero => rfl
  | succ k ih =>
    rw [loopState_succ, loopState_succ, loopBody_last_writer, loopBody_last_writer,
      ih (fun j hj => h j (by omega)), h k (by omega)]

/-- The dependency iteration `i` finds for a source register depends on the
destination indices of the instructions before `i` only. -/
theorem depOf_congr
    (outside outside2 : Outside) (opsLatency opsLatency2 : Nat → Nat)
    (progTrace progTrace2 : Nat → InstInfo)
    (numOfInsts numOfInsts2 i src : Nat)
    (h : ∀ j, j < i → (progTrace j).dstIdx = (progTrace2 j).dstIdx) :
    depOf (loopState outside opsLatency progTrace numOfInsts i) src
      = depOf (loopState outside2 opsLatency2 progTrace2 numOfInsts2 i) src := by
  unfold depOf
  rw [loopState_last_writer_congr outside outside2 opsLatency opsLatency2 progTrace
    progTrace2 numOfInsts numOfInsts2 i h]

/-- A recorded dependency that is an instruction index `j` names an earlier
instruction whose destination is the source register read, a valid
register.  The instruction count is an `unsigned int`. -/
theorem depOf_eq_index
    (outside : Outside) (opsLatency : Nat → Nat) (progTrace : Nat → InstInfo)
    (numOfInsts i src j : Nat) (hi : i ≤ 4294967296)
    (h : depOf (loopState outside opsLatency progTrace numOfInsts i) src = (j : Int)) :
    j < i ∧ (progTrace j).dstIdx = src ∧ src < REG_COUNT := by
  unfold depOf at h
  split at h
  · next hsrc =>
    rcases loopState_last_writer outside opsLatency progTrace numOfInsts i src hsrc with
      ⟨-, hv⟩ | ⟨m, hm, hdm, -, hv⟩
    · rw [hv] at h
      unfold INVALID_DEP at h
      omega
    · rw [hv] at h
      have hmj : m = j := by
        unfold castInt wrapInt at h
        omega
      rw [← hmj]
      exact ⟨hm, hdm, hsrc⟩
  · unfold INVALID_DEP at h
    omega

/-! ## Reads inside the arrays -/

theorem castsExact_mono (progTrace : Nat → InstInfo) (a b : Nat) (hab : a ≤ b)
    (h : CastsExact progTrace b) : CastsExact progTrace a :=
  fun j hj hd => h j (lt_of_lt_of_le hj hab) hd

/-- The index casts of the first `2^31` iterations keep their values. -/
theorem castsExact_of_le (progTrace : Nat → InstInfo) (k : Nat) (hk : k ≤ 2147483648) :
    CastsExact progTrace k :=
  fun _ hj _ => lt_of_lt_of_le hj hk

theorem noOverflowBefore_mono (progTrace : Nat → InstInfo) (ctx : ProgCtxImpl) (a b : Nat)
    (hab : a ≤ b) (h : NoOverflowBefore progTrace ctx b) : NoOverflowBefore progTrace ctx a :=
  ⟨castsExact_mono progTrace a b hab h.1, fun j hj => h.2 j (lt_of_lt_of_le hj hab)⟩

/-- A read `a[u]` at an index of the array yields the cell, whatever the
memory around the array holds. -/
theorem loadInt_index (outside : Int → Int) (a : List Int) (u : Nat) (h : u < a.length) :
    loadInt outside a (u : Int) = a.getD u 0 := by
  unfold loadInt
  rw [if_pos (Int.ofNat_nonneg u), Int.toNat_ofNat, List.getD_eq_getElem?_getD,
    List.getElem?_eq_getElem h, Option.getD_some, Option.getD_some]

theorem loadNat_index (outside : Int → Nat) (a : List Nat) (u : Nat) (h : u < a.length) :
    loadNat outside a (u : Int) = a.getD u 0 := by
  unfold loadNat
  rw [if_pos (Int.ofNat_nonneg u), Int.toNat_ofNat, List.getD_eq_getElem?_getD,
    List.getElem?_eq_getElem h, Option.getD_some, Option.getD_some]

/-- The readiness of a dependency that is the instruction `u`, an index of
both arrays, is the `int` sum `depth[u] + (int)latency[u]`. -/
theorem readyOf_index_wrapped (outside : Outside) (i : Nat) (depth : List Int)
    (latency : List Nat) (u : Nat) (hd : u < depth.length) (hl : u < latency.length) :
    readyOf outside i depth latency (u : Int)
      = addInt (depth.getD u 0) (castInt (latency.getD u 0)) := by
  unfold readyOf
  have hne : ¬ ((u : Int) = INVALID_DEP) := by
    unfold INVALID_DEP
    omega
  rw [if_neg hne, loadInt_index _ _ _ hd, loadNat_index _ _ _ hl]

/-- The readiness of a dependency that is the instruction `u`, an index of
both arrays, is the integer `depth[u] + latency[u]` when neither the cast nor
the addition wraps. -/
theorem readyOf_index (outside : Outside) (i : Nat) (depth : List Int) (latency : List Nat)
    (u : Nat) (hd : u < depth.length) (hl : u < latency.length)
    (h0 : 0 ≤ depth.getD u 0) (h1 : depth.getD u 0 + (latency.getD u 0 : Int) < 2147483648) :
    readyOf outside i depth latency (u : Int) = depth.getD u 0 + (latency.getD u 0 : Int) := by
  rw [readyOf_index_wrapped outside i depth latency u hd hl]
  exact addInt_castInt_exact _ _ (by omega) h1

/-- A dependency found by iteration `i` is negative or an instruction index
below `i`. -/
theorem depOf_cases (outside : Outside) (opsLatency : Nat → Nat) (progTrace : Nat → InstInfo)
    (numOfInsts i src : Nat) :
    depOf (loopState outside opsLatency progTrace numOfInsts i) src < 0
    ∨ ∃ u : Nat, u < i ∧ depOf (loopState outside opsLatency progTrace numOfInsts i) src =
        (u : Int) := by
  rcases depOf_range outside opsLatency progTrace numOfInsts i src with h | ⟨m, hm, hv⟩
  · left
    rw [h]
    decide
  · rw [hv]
    by_cases hneg : castInt m < 0
    · exact Or.inl hneg
    · right
      have h0 : 0 ≤ castInt m := by omega
      exact ⟨(castInt m).toNat, lt_of_le_of_lt (castInt_toNat_le m h0) hm,
        (Int.toNat_of_nonneg h0).symm⟩

/-- When the index casts of the iterations before `i` keep their values, a
dependency found by iteration `i` is `INVALID_DEP` or an instruction index
below `i`. -/
theorem depOf_cases_exact (outside : Outside) (opsLatency : Nat → Nat)
    (progTrace : Nat → InstInfo) (numOfInsts i src : Nat) (hcast : CastsExact progTrace i) :
    depOf (loopState outside opsLatency progTrace numOfInsts i) src = INVALID_DEP
    ∨ ∃ u : Nat, u < i ∧ depOf (loopState outside opsLatency progTrace numOfInsts i) src =
        (u : Int) := by
  unfold depOf
  split
  · next hsrc =>
    rcases loopState_last_writer outside opsLatency progTrace numOfInsts i src hsrc with ⟨-, h⟩ |
        ⟨m, hm, hdm, -, hv⟩
    · exact Or.inl h
    · right
      have hm2 : m < 2147483648 := hcast m hm (by rw [hdm]; exact hsrc)
      exact ⟨m, hm, by rw [hv]; exact castInt_of_lt m hm2⟩
  · exact Or.inl rfl

/-- Cell `i` of `depth` in the returned context, as a value. -/
theorem finalCtx_depth_getD (outside : Outside) (opsLatency : Nat → Nat)
    (progTrace : Nat → InstInfo) (numOfInsts i : Nat) (hi : i < numOfInsts) :
    (finalCtx outside opsLatency progTrace numOfInsts).depth.getD i 0
      = max
          (readyOf outside i (finalCtx outside opsLatency progTrace numOfInsts).depth
              (finalCtx outside opsLatency progTrace numOfInsts).latency
            (depOf (loopState outside opsLatency progTrace numOfInsts i) (progTrace i).src1Idx))
          (readyOf outside i (finalCtx outside opsLatency progTrace numOfInsts).depth
              (finalCtx outside opsLatency progTrace numOfInsts).latency
            (depOf (loopState outside opsLatency progTrace numOfInsts i) (progTrace i).src2Idx))
                := by
  rw [List.getD_eq_getElem?_getD, finalCtx_depth outside opsLatency progTrace numOfInsts i hi,
      Option.getD_some, MAX_eq_max]

/-- Cell `i` of `latency` in the returned context, as a value. -/
theorem finalCtx_latency_getD (outside : Outside) (opsLatency : Nat → Nat)
    (progTrace : Nat → InstInfo) (numOfInsts i : Nat) (hi : i < numOfInsts) :
    (finalCtx outside opsLatency progTrace numOfInsts).latency.getD i 0 = opsLatency
        (progTrace i).opcode := by
  obtain ⟨c0, -, -⟩ := finalCtx_cells outside opsLatency progTrace numOfInsts i hi
  rw [List.getD_eq_getElem?_getD, c0, Option.getD_some]

/-- A cell of an array, read as an optional value and as a value. -/
theorem getElem?_eq_some_getD {α : Type} (l : List α) (i : Nat) (d : α) (h : i < l.length) :
    l[i]? = some (l.getD i d) := by
  rw [List.getD_eq_getElem?_getD, List.getElem?_eq_getElem h, Option.getD_some]

/-! ## Runs without overflow -/

/-- When no cast and no addition of the iterations before `i` overflowed,
`depth[i]` is non-negative. -/
theorem finalCtx_depth_nonneg_before
    (outside : Outside) (opsLatency : Nat → Nat) (progTrace : Nat → InstInfo)
    (numOfInsts : Nat) (i : Nat) (hi : i < numOfInsts)
    (hno : NoOverflowBefore progTrace (finalCtx outside opsLatency progTrace numOfInsts) i) :
    0 ≤ (finalCtx outside opsLatency progTrace numOfInsts).depth.getD i 0 := by
  induction i using Nat.strong_induction_on with
  | _ i ih =>
    obtain ⟨-, hl, hd, -, -⟩ := finalCtx_lengths outside opsLatency progTrace numOfInsts
    have hready : ∀ src, 0 ≤ readyOf outside i (finalCtx outside opsLatency progTrace
        numOfInsts).depth (finalCtx outside opsLatency progTrace numOfInsts).latency
        (depOf (loopState outside opsLatency progTrace numOfInsts i) src) := by
      intro src
      rcases depOf_cases_exact outside opsLatency progTrace numOfInsts i src hno.1 with h |
          ⟨u, hu, hv⟩
      · rw [h, readyOf_invalid]
      · have hu2 : u < numOfInsts := lt_trans hu hi
        have h0 := ih u hu hu2 (noOverflowBefore_mono _ _ u i (le_of_lt hu) hno)
        have h1 := (hno.2 u hu).2
        rw [hv, readyOf_index outside i _ _ u (by rw [hd]; exact hu2) (by rw [hl]; exact hu2)
          h0 h1]
        exact Int.add_nonneg h0 (Int.ofNat_nonneg _)
    rw [finalCtx_depth_getD outside opsLatency progTrace numOfInsts i hi]
    exact le_trans (hready (progTrace i).src1Idx) (le_max_left _ _)

/-- When no cast and no addition of the iterations before `i` overflowed,
the readiness iteration `i` computes for a source register is 0 for the
dependency `INVALID_DEP`, and for the dependency `u < i` it is the integer
`depth[u] + latency[u]`, with `depth[u] ≥ 0`. -/
theorem finalCtx_ready_before
    (outside : Outside) (opsLatency : Nat → Nat) (progTrace : Nat → InstInfo)
    (numOfInsts : Nat) (i : Nat) (hi : i < numOfInsts)
    (hno : NoOverflowBefore progTrace (finalCtx outside opsLatency progTrace numOfInsts) i)
        (src : Nat) :
    (depOf (loopState outside opsLatency progTrace numOfInsts i) src = INVALID_DEP
      ∧ readyOf outside i (finalCtx outside opsLatency progTrace numOfInsts).depth
          (finalCtx outside opsLatency progTrace numOfInsts).latency
          (depOf (loopState outside opsLatency progTrace numOfInsts i) src) = 0)
    ∨ ∃ u : Nat, u < i ∧ depOf (loopState outside opsLatency progTrace numOfInsts i) src = (u : Int)
        ∧ 0 ≤ (finalCtx outside opsLatency progTrace numOfInsts).depth.getD u 0
        ∧ readyOf outside i (finalCtx outside opsLatency progTrace numOfInsts).depth
            (finalCtx outside opsLatency progTrace numOfInsts).latency
            (depOf (loopState outside opsLatency progTrace numOfInsts i) src)
            = (finalCtx outside opsLatency progTrace numOfInsts).depth.getD u 0 +
                ((finalCtx outside opsLatency progTrace numOfInsts).latency.getD u 0 : Int) := by
  obtain ⟨-, hl, hd, -, -⟩ := finalCtx_lengths outside opsLatency progTrace numOfInsts
  rcases depOf_cases_exact outside opsLatency progTrace numOfInsts i src hno.1 with h | ⟨u, hu, hv⟩
  · left
    exact ⟨h, by rw [h, readyOf_invalid]⟩
  · right
    have hu2 : u < numOfInsts := lt_trans hu hi
    have h0 := finalCtx_depth_nonneg_before outside opsLatency progTrace numOfInsts u hu2
      (noOverflowBefore_mono _ _ u i (le_of_lt hu) hno)
    refine ⟨u, hu, hv, h0, ?_⟩
    rw [hv]
    exact readyOf_index outside i _ _ u (by rw [hd]; exact hu2) (by rw [hl]; exact hu2)
      h0 (hno.2 u hu).2

/-- A run without overflow has no overflow before any of its
instructions. -/
theorem noOverflow_before
    (outside : Outside) (opsLatency : Nat → Nat) (progTrace : Nat → InstInfo)
    (numOfInsts : Nat) (hno : NoOverflow progTrace (finalCtx outside opsLatency progTrace
        numOfInsts)) (i : Nat) (hi : i ≤ numOfInsts) :
    NoOverflowBefore progTrace (finalCtx outside opsLatency progTrace numOfInsts) i := by
  have hnum : (finalCtx outside opsLatency progTrace numOfInsts).num_insts = numOfInsts :=
      (finalCtx_lengths outside opsLatency progTrace numOfInsts).1
  unfold NoOverflow at hno
  rw [hnum] at hno
  exact noOverflowBefore_mono _ _ i numOfInsts hi hno

/-- In a run without overflow every depth is non-negative. -/
theorem finalCtx_depth_nonneg_of_noOverflow
    (outside : Outside) (opsLatency : Nat → Nat) (progTrace : Nat → InstInfo)
    (numOfInsts : Nat) (hno : NoOverflow progTrace (finalCtx outside opsLatency progTrace
        numOfInsts)) (i : Nat) (hi : i < numOfInsts) :
    0 ≤ (finalCtx outside opsLatency progTrace numOfInsts).depth.getD i 0 :=
  finalCtx_depth_nonneg_before outside opsLatency progTrace numOfInsts i hi
      (noOverflow_before outside opsLatency progTrace numOfInsts hno i (le_of_lt hi))

/-- In a run without overflow the exit value of an instruction is the
integer `depth[j] + latency[j]`. -/
theorem finalCtx_exit_of_noOverflow
    (outside : Outside) (opsLatency : Nat → Nat) (progTrace : Nat → InstInfo)
    (numOfInsts : Nat) (hno : NoOverflow progTrace (finalCtx outside opsLatency progTrace
        numOfInsts)) (j : Nat) (hj : j < numOfInsts) :
    exitOf (finalCtx outside opsLatency progTrace numOfInsts) j =
        (finalCtx outside opsLatency progTrace numOfInsts).depth.getD j 0 +
        ((finalCtx outside opsLatency progTrace numOfInsts).latency.getD j 0 : Int) := by
  have h0 := finalCtx_depth_nonneg_of_noOverflow outside opsLatency progTrace numOfInsts hno j hj
  have h1 := ((noOverflow_before outside opsLatency progTrace numOfInsts hno numOfInsts
      (le_refl _)).2 j hj).2
  unfold exitOf
  exact addInt_castInt_exact _ _ (by omega) h1

/-- In a run without overflow of a non-empty trace the program depth is the
exit value of some instruction. -/
theorem finalCtx_prog_depth_attained
    (outside : Outside) (opsLatency : Nat → Nat) (progTrace : Nat → InstInfo)
    (numOfInsts : Nat) (hn : 0 < numOfInsts) (hno : NoOverflow progTrace
        (finalCtx outside opsLatency progTrace numOfInsts)) :
    ∃ j, j < numOfInsts
      ∧ (finalCtx outside opsLatency progTrace numOfInsts).prog_depth =
          (finalCtx outside opsLatency progTrace numOfInsts).depth.getD j 0 +
          ((finalCtx outside opsLatency progTrace numOfInsts).latency.getD j 0 : Int) := by
  obtain ⟨-, hle, hmax⟩ := loopState_max_exit_depth outside opsLatency progTrace numOfInsts
      numOfInsts
  rcases hmax with hz | ⟨j, hj, he⟩
  · refine ⟨0, hn, ?_⟩
    have h1 := hle 0 hn
    have h2 := finalCtx_exit_of_noOverflow outside opsLatency progTrace numOfInsts hno 0 hn
    have h3 := finalCtx_depth_nonneg_of_noOverflow outside opsLatency progTrace numOfInsts hno 0 hn
    have h4 : exitOf (finalCtx outside opsLatency progTrace numOfInsts) 0 ≤ 0 := by
      rw [← hz]; exact h1
    have h5 : (finalCtx outside opsLatency progTrace numOfInsts).prog_depth = 0 := hz
    rw [h2] at h4
    rw [h5]
    omega
  · refine ⟨j, hj, ?_⟩
    rw [← finalCtx_exit_of_noOverflow outside opsLatency progTrace numOfInsts hno j hj]
    exact he

/-- In a run without overflow the program depth bounds every exit value
`depth[j] + latency[j]`. -/
theorem finalCtx_exit_le_prog_depth
    (outside : Outside) (opsLatency : Nat → Nat) (progTrace : Nat → InstInfo)
    (numOfInsts : Nat) (hno : NoOverflow progTrace (finalCtx outside opsLatency progTrace
        numOfInsts)) (j : Nat) (hj : j < numOfInsts) :
    (finalCtx outside opsLatency progTrace numOfInsts).depth.getD j 0 +
        ((finalCtx outside opsLatency progTrace numOfInsts).latency.getD j 0 : Int) ≤
        (finalCtx outside opsLatency progTrace numOfInsts).prog_depth := by
  obtain ⟨-, hle, -⟩ := loopState_max_exit_depth outside opsLatency progTrace numOfInsts numOfInsts
  rw [← finalCtx_exit_of_noOverflow outside opsLatency progTrace numOfInsts hno j hj]
  exact hle j hj

/-- In a run without overflow `depth[i]` is at most the sum of the recorded
latencies of the instructions before `i`. -/
theorem finalCtx_depth_le_serial
    (outside : Outside) (opsLatency : Nat → Nat) (progTrace : Nat → InstInfo)
    (numOfInsts : Nat) (hno : NoOverflow progTrace (finalCtx outside opsLatency progTrace
        numOfInsts)) (i : Nat) (hi : i < numOfInsts) :
    (finalCtx outside opsLatency progTrace numOfInsts).depth.getD i 0
      ≤ ((∑ j ∈ Finset.range i, (finalCtx outside opsLatency progTrace numOfInsts).latency.getD j
          0 : Nat) : Int) := by
  induction i using Nat.strong_induction_on with
  | _ i ih =>
    have hready : ∀ src, readyOf outside i (finalCtx outside opsLatency progTrace
        numOfInsts).depth (finalCtx outside opsLatency progTrace numOfInsts).latency
        (depOf (loopState outside opsLatency progTrace numOfInsts i) src)
        ≤ ((∑ j ∈ Finset.range i, (finalCtx outside opsLatency progTrace numOfInsts).latency.getD
            j 0 : Nat) : Int) := by
      intro src
      rcases finalCtx_ready_before outside opsLatency progTrace numOfInsts i hi
          (noOverflow_before outside opsLatency progTrace numOfInsts hno i (le_of_lt hi)) src
        with ⟨-, h⟩ | ⟨u, hu, -, -, hr⟩
      · rw [h]
        exact Int.ofNat_nonneg _
      · have hu2 : u < numOfInsts := lt_trans hu hi
        have h0 := ih u hu hu2
        have hs : (∑ j ∈ Finset.range (u + 1), (finalCtx outside opsLatency progTrace
            numOfInsts).latency.getD j 0)
            ≤ ∑ j ∈ Finset.range i, (finalCtx outside opsLatency progTrace
                numOfInsts).latency.getD j 0 :=
          Finset.sum_le_sum_of_subset (Finset.range_mono hu)
        rw [Finset.sum_range_succ] at hs
        rw [hr]
        have hs2 : ((∑ j ∈ Finset.range u, (finalCtx outside opsLatency progTrace
            numOfInsts).latency.getD j 0 : Nat) : Int)
            + ((finalCtx outside opsLatency progTrace numOfInsts).latency.getD u 0 : Int)
            ≤ ((∑ j ∈ Finset.range i, (finalCtx outside opsLatency progTrace
                numOfInsts).latency.getD j 0 : Nat) : Int) := by
          exact_mod_cast hs
        exact le_trans (Int.add_le_add_right h0 _) hs2
    rw [finalCtx_depth_getD outside opsLatency progTrace numOfInsts i hi]
    exact max_le (hready _) (hready _)

/-- The dependency arrays of the returned context depend neither on the
latency table nor on the memory around the arrays. -/
theorem finalCtx_deps_table_free
    (outside outside2 : Outside) (opsLatency opsLatency2 : Nat → Nat)
    (progTrace : Nat → InstInfo) (numOfInsts : Nat) :
    (finalCtx outside opsLatency progTrace numOfInsts).src1_dep =
        (finalCtx outside2 opsLatency2 progTrace numOfInsts).src1_dep ∧
        (finalCtx outside opsLatency progTrace numOfInsts).src2_dep =
        (finalCtx outside2 opsLatency2 progTrace numOfInsts).src2_dep := by
  obtain ⟨-, -, -, l1, l2⟩ := finalCtx_lengths outside opsLatency progTrace numOfInsts
  obtain ⟨-, -, -, m1, m2⟩ := finalCtx_lengths outside2 opsLatency2 progTrace numOfInsts
  constructor
  · apply List.ext_getElem?
    intro i
    by_cases hi : i < numOfInsts
    · obtain ⟨-, c1, -⟩ := finalCtx_cells outside opsLatency progTrace numOfInsts i hi
      obtain ⟨-, d1, -⟩ := finalCtx_cells outside2 opsLatency2 progTrace numOfInsts i hi
      rw [c1, d1, depOf_congr outside outside2 opsLatency opsLatency2 progTrace progTrace
        numOfInsts numOfInsts i _ (fun _ _ => rfl)]
    · rw [List.getElem?_eq_none (by omega), List.getElem?_eq_none (by omega)]
  · apply List.ext_getElem?
    intro i
    by_cases hi : i < numOfInsts
    · obtain ⟨-, -, c2⟩ := finalCtx_cells outside opsLatency progTrace numOfInsts i hi
      obtain ⟨-, -, d2⟩ := finalCtx_cells outside2 opsLatency2 progTrace numOfInsts i hi
      rw [c2, d2, depOf_congr outside outside2 opsLatency opsLatency2 progTrace progTrace
        numOfInsts numOfInsts i _ (fun _ _ => rfl)]
    · rw [List.getElem?_eq_none (by omega), List.getElem?_eq_none (by omega)]

/-- With a pointwise larger latency table, and no overflow in either run,
every depth is at least as large. -/
theorem finalCtx_depth_mono
    (outside outside2 : Outside) (opsLatency opsLatency2 : Nat → Nat)
    (progTrace : Nat → InstInfo) (numOfInsts : Nat)
    (hle : ∀ op, opsLatency op ≤ opsLatency2 op)
    (hno : NoOverflow progTrace (finalCtx outside opsLatency progTrace numOfInsts))
        (hno2 : NoOverflow progTrace (finalCtx outside2 opsLatency2 progTrace numOfInsts))
    (i : Nat) (hi : i < numOfInsts) :
    (finalCtx outside opsLatency progTrace numOfInsts).depth.getD i 0 ≤
        (finalCtx outside2 opsLatency2 progTrace numOfInsts).depth.getD i 0 := by
  induction i using Nat.strong_induction_on with
  | _ i ih =>
    have hready : ∀ src, readyOf outside i (finalCtx outside opsLatency progTrace
        numOfInsts).depth (finalCtx outside opsLatency progTrace numOfInsts).latency
        (depOf (loopState outside opsLatency progTrace numOfInsts i) src)
        ≤ readyOf outside2 i (finalCtx outside2 opsLatency2 progTrace numOfInsts).depth
            (finalCtx outside2 opsLatency2 progTrace numOfInsts).latency
        (depOf (loopState outside2 opsLatency2 progTrace numOfInsts i) src) := by
      intro src
      have hdep := depOf_congr outside outside2 opsLatency opsLatency2 progTrace progTrace
        numOfInsts numOfInsts i src (fun _ _ => rfl)
      rcases finalCtx_ready_before outside opsLatency progTrace numOfInsts i hi
          (noOverflow_before outside opsLatency progTrace numOfInsts hno i (le_of_lt hi)) src
        with ⟨hv, h⟩ | ⟨u, hu, hv, -, hr⟩
      · rw [h, ← hdep, hv, readyOf_invalid]
      · have hu2 : u < numOfInsts := lt_trans hu hi
        have h0 := ih u hu hu2
        rcases finalCtx_ready_before outside2 opsLatency2 progTrace numOfInsts i hi
          (noOverflow_before outside2 opsLatency2 progTrace numOfInsts hno2 i (le_of_lt hi)) src
          with ⟨hv2, -⟩ | ⟨u2, -, hv2, -, hr2⟩
        · rw [← hdep, hv] at hv2
          unfold INVALID_DEP at hv2
          omega
        · have hu : u2 = u := by
            rw [← hdep, hv] at hv2
            omega
          subst hu
          rw [hr, hr2, finalCtx_latency_getD outside opsLatency progTrace numOfInsts u2 hu2,
              finalCtx_latency_getD outside2 opsLatency2 progTrace numOfInsts u2 hu2]
          have hl : ((opsLatency (progTrace u2).opcode : Nat) : Int)
              ≤ ((opsLatency2 (progTrace u2).opcode : Nat) : Int) :=
            Int.ofNat_le.mpr (hle _)
          exact Int.add_le_add h0 hl
    rw [finalCtx_depth_getD outside opsLatency progTrace numOfInsts i hi, finalCtx_depth_getD
        outside2 opsLatency2 progTrace numOfInsts i hi]
    exact max_le_max (hready _) (hready _)

theorem chainLatency_nil (ctx : ProgCtxImpl) : chainLatency ctx [] = 0 := rfl

theorem chainLatency_cons (ctx : ProgCtxImpl) (j : Nat) (rest : List Nat) :
    chainLatency ctx (j :: rest) = ctx.latency.getD j 0 + chainLatency ctx rest := by
  unfold chainLatency
  rw [List.map_cons, List.sum_cons]

/-- A recorded dependency of `i` that is the instruction `j` is among the
two dependencies iteration `i` found, and `j < i`. -/
theorem finalCtx_dep_link
    (outside : Outside) (opsLatency : Nat → Nat) (progTrace : Nat → InstInfo)
    (numOfInsts : Nat) (i j : Nat) (hi : i < numOfInsts)
    (h : (finalCtx outside opsLatency progTrace numOfInsts).src1_dep[i]? = some (j : Int) ∨
        (finalCtx outside opsLatency progTrace numOfInsts).src2_dep[i]? = some (j : Int)) :
    j < i
    ∧ (depOf (loopState outside opsLatency progTrace numOfInsts i) (progTrace i).src1Idx = (j : Int)
      ∨ depOf (loopState outside opsLatency progTrace numOfInsts i) (progTrace i).src2Idx =
          (j : Int)) := by
  obtain ⟨-, c1, c2⟩ := finalCtx_cells outside opsLatency progTrace numOfInsts i hi
  rw [c1, c2] at h
  have hlt : ∀ src, depOf (loopState outside opsLatency progTrace numOfInsts i) src = (j : Int) →
      j < i := by
    intro src hsrc
    rcases depOf_cases outside opsLatency progTrace numOfInsts i src with hneg | ⟨u, hu, hv⟩
    · rw [hsrc] at hneg
      omega
    · rw [hsrc] at hv
      have : j = u := by omega
      rw [this]
      exact hu
  rcases h with h | h
  · exact ⟨hlt _ (Option.some.inj h), Or.inl (Option.some.inj h)⟩
  · exact ⟨hlt _ (Option.some.inj h), Or.inr (Option.some.inj h)⟩

/-- In a run without overflow the readiness iteration `i` computes for a
dependency that is the instruction `j` is the integer
`depth[j] + latency[j]`. -/
theorem finalCtx_ready_of_noOverflow
    (outside : Outside) (opsLatency : Nat → Nat) (progTrace : Nat → InstInfo)
    (numOfInsts : Nat) (hno : NoOverflow progTrace (finalCtx outside opsLatency progTrace
        numOfInsts)) (i j : Nat) (hi : i < numOfInsts)
    (hj : j < i) :
    readyOf outside i (finalCtx outside opsLatency progTrace numOfInsts).depth
        (finalCtx outside opsLatency progTrace numOfInsts).latency (j : Int)
      = (finalCtx outside opsLatency progTrace numOfInsts).depth.getD j 0 +
          ((finalCtx outside opsLatency progTrace numOfInsts).latency.getD j 0 : Int) := by
  obtain ⟨-, hl, hd, -, -⟩ := finalCtx_lengths outside opsLatency progTrace numOfInsts
  have hj2 : j < numOfInsts := lt_trans hj hi
  exact readyOf_index outside i _ _ j (by rw [hd]; exact hj2) (by rw [hl]; exact hj2)
    (finalCtx_depth_nonneg_of_noOverflow outside opsLatency progTrace numOfInsts hno j hj2)
    ((noOverflow_before outside opsLatency progTrace numOfInsts hno numOfInsts (le_refl _)).2 j
        hj2).2

/-- In a run without overflow the latencies along a dependency chain from
`i` sum to at most `depth[i]`. -/
theorem finalCtx_chain_le_depth
    (outside : Outside) (opsLatency : Nat → Nat) (progTrace : Nat → InstInfo)
    (numOfInsts : Nat) (hno : NoOverflow progTrace (finalCtx outside opsLatency progTrace
        numOfInsts))
    (js : List Nat) (i : Nat) (hi : i < numOfInsts)
        (hc : IsDepChain (finalCtx outside opsLatency progTrace numOfInsts) i js) :
    (chainLatency (finalCtx outside opsLatency progTrace numOfInsts) js : Int) ≤
        (finalCtx outside opsLatency progTrace numOfInsts).depth.getD i 0 := by
  induction js generalizing i with
  | nil =>
    rw [chainLatency_nil]
    exact finalCtx_depth_nonneg_of_noOverflow outside opsLatency progTrace numOfInsts hno i hi
  | cons j rest ih =>
    obtain ⟨hlink, hrest⟩ := hc
    obtain ⟨hj, hdep⟩ := finalCtx_dep_link outside opsLatency progTrace numOfInsts i j hi hlink
    have hj2 : j < numOfInsts := lt_trans hj hi
    have h0 := ih j hj2 hrest
    have hr := finalCtx_ready_of_noOverflow outside opsLatency progTrace numOfInsts hno i j hi hj
    have hsum : (chainLatency (finalCtx outside opsLatency progTrace numOfInsts) (j :: rest) : Int)
        ≤ readyOf outside i (finalCtx outside opsLatency progTrace numOfInsts).depth
            (finalCtx outside opsLatency progTrace numOfInsts).latency (j : Int) := by
      rw [hr, chainLatency_cons]
      push_cast
      omega
    rw [finalCtx_depth_getD outside opsLatency progTrace numOfInsts i hi]
    rcases hdep with hd | hd
    · rw [hd]
      exact le_trans hsum (le_max_left _ _)
    · rw [hd]
      exact le_trans hsum (le_max_right _ _)

/-- In a run without overflow some dependency chain from `i` has latencies
summing to exactly `depth[i]`. -/
theorem finalCtx_chain_attains_depth
    (outside : Outside) (opsLatency : Nat → Nat) (progTrace : Nat → InstInfo)
    (numOfInsts : Nat) (hno : NoOverflow progTrace (finalCtx outside opsLatency progTrace
        numOfInsts)) (i : Nat) (hi : i < numOfInsts) :
    ∃ js, IsDepChain (finalCtx outside opsLatency progTrace numOfInsts) i js ∧
        (chainLatency (finalCtx outside opsLatency progTrace numOfInsts) js : Int) =
        (finalCtx outside opsLatency progTrace numOfInsts).depth.getD i 0 := by
  induction i using Nat.strong_induction_on with
  | _ i ih =>
    obtain ⟨-, c1, c2⟩ := finalCtx_cells outside opsLatency progTrace numOfInsts i hi
    have hside : ∀ src,
        ((finalCtx outside opsLatency progTrace numOfInsts).src1_dep[i]? = some
            (depOf (loopState outside opsLatency progTrace numOfInsts i) src)
          ∨ (finalCtx outside opsLatency progTrace numOfInsts).src2_dep[i]? = some
              (depOf (loopState outside opsLatency progTrace numOfInsts i) src)) →
        ∃ js, IsDepChain (finalCtx outside opsLatency progTrace numOfInsts) i js
          ∧ (chainLatency (finalCtx outside opsLatency progTrace numOfInsts) js : Int)
              = readyOf outside i (finalCtx outside opsLatency progTrace numOfInsts).depth
                  (finalCtx outside opsLatency progTrace numOfInsts).latency
                  (depOf (loopState outside opsLatency progTrace numOfInsts i) src) := by
      intro src hrec
      rcases finalCtx_ready_before outside opsLatency progTrace numOfInsts i hi
          (noOverflow_before outside opsLatency progTrace numOfInsts hno i (le_of_lt hi)) src
        with ⟨-, h⟩ | ⟨u, hu, hv, -, hr⟩
      · refine ⟨[], trivial, ?_⟩
        rw [h, chainLatency_nil]
        rfl
      · have hu2 : u < numOfInsts := lt_trans hu hi
        obtain ⟨js, hjs, hsum⟩ := ih u hu hu2
        rw [hr]
        rw [hv] at hrec
        refine ⟨u :: js, ⟨hrec, hjs⟩, ?_⟩
        rw [chainLatency_cons, ← hsum]
        push_cast
        omega
    rw [finalCtx_depth_getD outside opsLatency progTrace numOfInsts i hi]
    rcases max_choice
        (readyOf outside i (finalCtx outside opsLatency progTrace numOfInsts).depth
            (finalCtx outside opsLatency progTrace numOfInsts).latency
          (depOf (loopState outside opsLatency progTrace numOfInsts i) (progTrace i).src1Idx))
        (readyOf outside i (finalCtx outside opsLatency progTrace numOfInsts).depth
            (finalCtx outside opsLatency progTrace numOfInsts).latency
          (depOf (loopState outside opsLatency progTrace numOfInsts i) (progTrace i).src2Idx))
      with hm | hm
    · rw [hm]
      exact hside _ (Or.inl c1)
    · rw [hm]
      exact hside _ (Or.inr c2)

/-- When the index casts keep their values and the latencies of the trace
sum to less than `2^31`, every `depth[i]` of the returned context lies
between 0 and the sum of the latencies of the instructions before `i`. -/
theorem finalCtx_depth_bounds
    (outside : Outside) (opsLatency : Nat → Nat) (progTrace : Nat → InstInfo)
    (numOfInsts : Nat) (hcast : CastsExact progTrace numOfInsts)
    (hsum : (∑ j ∈ Finset.range numOfInsts, opsLatency (progTrace j).opcode) < 2147483648)
    (i : Nat) (hi : i < numOfInsts) :
    0 ≤ (finalCtx outside opsLatency progTrace numOfInsts).depth.getD i 0
    ∧ (finalCtx outside opsLatency progTrace numOfInsts).depth.getD i 0
        ≤ ((∑ j ∈ Finset.range i, opsLatency (progTrace j).opcode : Nat) : Int) := by
  induction i using Nat.strong_induction_on with
  | _ i ih =>
    obtain ⟨-, hl, hd, -, -⟩ := finalCtx_lengths outside opsLatency progTrace numOfInsts
    have hready : ∀ src,
        0 ≤ readyOf outside i (finalCtx outside opsLatency progTrace numOfInsts).depth
            (finalCtx outside opsLatency progTrace numOfInsts).latency
            (depOf (loopState outside opsLatency progTrace numOfInsts i) src)
        ∧ readyOf outside i (finalCtx outside opsLatency progTrace numOfInsts).depth
            (finalCtx outside opsLatency progTrace numOfInsts).latency
            (depOf (loopState outside opsLatency progTrace numOfInsts i) src)
            ≤ ((∑ j ∈ Finset.range i, opsLatency (progTrace j).opcode : Nat) : Int) := by
      intro src
      rcases depOf_cases_exact outside opsLatency progTrace numOfInsts i src
        (castsExact_mono progTrace i numOfInsts (le_of_lt hi) hcast) with h | ⟨u, hu, hv⟩
      · rw [h, readyOf_invalid]
        exact ⟨le_refl _, Int.ofNat_nonneg _⟩
      · have hu2 : u < numOfInsts := lt_trans hu hi
        obtain ⟨b0, b1⟩ := ih u hu hu2
        have hlat := finalCtx_latency_getD outside opsLatency progTrace numOfInsts u hu2
        have hs1 : (∑ j ∈ Finset.range (u + 1), opsLatency (progTrace j).opcode)
            ≤ ∑ j ∈ Finset.range i, opsLatency (progTrace j).opcode :=
          latencySum_mono opsLatency progTrace _ _ hu
        have hs2 : (∑ j ∈ Finset.range i, opsLatency (progTrace j).opcode)
            ≤ ∑ j ∈ Finset.range numOfInsts, opsLatency (progTrace j).opcode :=
          latencySum_mono opsLatency progTrace _ _ (le_of_lt hi)
        rw [Finset.sum_range_succ] at hs1
        rw [hv, readyOf_index outside i _ _ u (by rw [hd]; exact hu2) (by rw [hl]; exact hu2)
          b0 (by rw [hlat]; omega), hlat]
        constructor <;> omega
    obtain ⟨r1a, r1b⟩ := hready (progTrace i).src1Idx
    obtain ⟨r2a, r2b⟩ := hready (progTrace i).src2Idx
    rw [finalCtx_depth_getD outside opsLatency progTrace numOfInsts i hi]
    exact ⟨le_trans r1a (le_max_left _ _), max_le r1b r2b⟩

/-- When the index casts keep their values and the latencies of the trace
sum to less than `2^31`, the run has no overflow. -/
theorem noOverflow_of_latencySum
    (outside : Outside) (opsLatency : Nat → Nat) (progTrace : Nat → InstInfo)
    (numOfInsts : Nat) (hcast : CastsExact progTrace numOfInsts)
    (hsum : (∑ j ∈ Finset.range numOfInsts, opsLatency (progTrace j).opcode) < 2147483648) :
    NoOverflow progTrace (finalCtx outside opsLatency progTrace numOfInsts) := by
  have hnum : (finalCtx outside opsLatency progTrace numOfInsts).num_insts = numOfInsts :=
      (finalCtx_lengths outside opsLatency progTrace numOfInsts).1
  unfold NoOverflow
  rw [hnum]
  refine ⟨hcast, fun j hj => ?_⟩
  obtain ⟨-, b1⟩ := finalCtx_depth_bounds outside opsLatency progTrace numOfInsts hcast hsum j hj
  have hs := latencySum_mono opsLatency progTrace (j + 1) numOfInsts hj
  rw [Finset.sum_range_succ] at hs
  rw [finalCtx_latency_getD outside opsLatency progTrace numOfInsts j hj]
  constructor <;> omega

/-! ## Reads before the arrays -/

/-- The readiness computed for a negative dependency other than
`INVALID_DEP`: both reads go to the memory before the arrays, and the
readiness is the `int` sum of what this memory holds. -/
theorem readyOf_before_array (outside : Outside) (i : Nat) (depth : List Int)
    (latency : List Nat) (d : Int) (hneg : d < 0) (hne : d ≠ INVALID_DEP) :
    readyOf outside i depth latency d
      = addInt (outside.depthAt i d) (castInt (outside.latencyAt i d)) := by
  unfold readyOf
  rw [if_neg hne]
  unfold loadInt loadNat
  rw [if_neg (by omega), if_neg (by omega)]

/-- In a trace whose instruction `2^31` is the only writer of register 0,
the depth of an instruction `2^31 + 1` that reads register 0 and no other
register is the `int` sum of two cells of the memory before the arrays, or 0
if this sum is negative. -/
theorem finalCtx_depth_after_late_writer
    (outside : Outside) (opsLatency : Nat → Nat) (progTrace : Nat → InstInfo)
    (numOfInsts : Nat) (hn : 2147483649 < numOfInsts)
    (hsrc1 : (progTrace 2147483649).src1Idx = 0)
    (hsrc2 : REG_COUNT ≤ (progTrace 2147483649).src2Idx)
    (hw : ∀ m, (progTrace m).dstIdx = 0 ↔ m = 2147483648) :
    (finalCtx outside opsLatency progTrace numOfInsts).src1_dep[2147483649]? = some (-2147483648)
    ∧ (finalCtx outside opsLatency progTrace numOfInsts).depth[2147483649]?
      = some (max (addInt (outside.depthAt 2147483649 (-2147483648))
                    (castInt (outside.latencyAt 2147483649 (-2147483648)))) 0) := by
  have hdep : depOf (loopState outside opsLatency progTrace numOfInsts 2147483649)
      (progTrace 2147483649).src1Idx
      = -2147483648 := by
    rw [hsrc1]
    unfold depOf
    rw [if_pos (by decide)]
    rcases loopState_last_writer outside opsLatency progTrace numOfInsts 2147483649 0 (by decide)
        with
      ⟨hnone, -⟩ | ⟨m, -, hdm, -, hv⟩
    · exact absurd ((hw 2147483648).mpr rfl) (hnone 2147483648 (by decide))
    · rw [hv, (hw m).mp hdm]
      decide
  obtain ⟨-, c1, -⟩ := finalCtx_cells outside opsLatency progTrace numOfInsts 2147483649 hn
  refine ⟨by rw [c1, hdep], ?_⟩
  rw [finalCtx_depth outside opsLatency progTrace numOfInsts 2147483649 hn, hdep, depOf_of_ge _ _
      hsrc2, readyOf_invalid,
    readyOf_before_array outside _ _ _ _ (by decide) (by decide), MAX_eq_max]

/-! ## Two runs on a common prefix -/

theorem getD_set_self {α : Type} (l : List α) (i : Nat) (a d : α) (h : i < l.length) :
    (l.set i a).getD i d = a := by
  rw [List.getD_eq_getElem?_getD, getElem?_set_self_of_lt _ _ _ h, Option.getD_some]

theorem getD_set_ne {α : Type} (l : List α) (i j : Nat) (a d : α) (h : i ≠ j) :
    (l.set i a).getD j d = l.getD j d := by
  rw [List.getD_eq_getElem?_getD, List.getD_eq_getElem?_getD, List.getElem?_set_ne h]

theorem getD_replicate_of_lt {α : Type} (n j : Nat) (a d : α) (h : j < n) :
    (List.replicate n a).getD j d = a := by
  rw [List.getD_eq_getElem?_getD, List.getElem?_replicate, if_pos h, Option.getD_some]

theorem getD_replicate_self {α : Type} (n j : Nat) (a : α) :
    (List.replicate n a).getD j a = a := by
  rw [List.getD_eq_getElem?_getD, List.getElem?_replicate]
  split <;> rfl

theorem set_replicate_self {α : Type} (n i : Nat) (a : α) :
    (List.replicate n a).set i a = List.replicate n a := by
  apply List.ext_getElem?
  intro j
  by_cases h : i = j
  · subst h
    by_cases hi : i < n
    · rw [getElem?_set_self_of_lt _ _ _ (by rw [List.length_replicate]; exact hi),
        List.getElem?_replicate, if_pos hi]
    · rw [List.getElem?_eq_none (by rw [List.length_set, List.length_replicate]; omega),
        List.getElem?_eq_none (by rw [List.length_replicate]; omega)]
  · rw [List.getElem?_set_ne h]

theorem specState_zero (opsLatency : Nat → Nat) (progTrace : Nat → InstInfo)
    (numOfInsts : Nat) : (specState opsLatency progTrace numOfInsts 0) = specInit numOfInsts := rfl

theorem specState_succ (opsLatency : Nat → Nat) (progTrace : Nat → InstInfo)
    (numOfInsts k : Nat) :
    (specState opsLatency progTrace numOfInsts (k + 1)) = specStep opsLatency progTrace
        (specState opsLatency progTrace numOfInsts k) k := by
  simp [specState, List.range_succ, List.foldl_append]

theorem specStep_latency (opsLatency : Nat → Nat) (progTrace : Nat → InstInfo)
    (s : SpecState) (i : Nat) :
    (specStep opsLatency progTrace s i).latency
      = s.latency.set i (opsLatency (progTrace i).opcode) := rfl

theorem specStep_depth (opsLatency : Nat → Nat) (progTrace : Nat → InstInfo)
    (s : SpecState) (i : Nat) :
    (specStep opsLatency progTrace s i).depth
      = s.depth.set i
          (max (specReady s.depth (specStep opsLatency progTrace s i).latency
                  (specDep s (progTrace i).src1Idx))
               (specReady s.depth (specStep opsLatency progTrace s i).latency
                  (specDep s (progTrace i).src2Idx))) := rfl

theorem specStep_dep1 (opsLatency : Nat → Nat) (progTrace : Nat → InstInfo)
    (s : SpecState) (i : Nat) :
    (specStep opsLatency progTrace s i).dep1
      = s.dep1.set i (specDep s (progTrace i).src1Idx) := rfl

theorem specStep_dep2 (opsLatency : Nat → Nat) (progTrace : Nat → InstInfo)
    (s : SpecState) (i : Nat) :
    (specStep opsLatency progTrace s i).dep2
      = s.dep2.set i (specDep s (progTrace i).src2Idx) := rfl

theorem specStep_last_writer (opsLatency : Nat → Nat) (progTrace : Nat → InstInfo)
    (s : SpecState) (i : Nat) :
    (specStep opsLatency progTrace s i).last_writer
      = if (progTrace i).dstIdx < REG_COUNT
          then s.last_writer.set (progTrace i).dstIdx (some i)
          else s.last_writer := rfl

theorem specStep_max_program_exit (opsLatency : Nat → Nat) (progTrace : Nat → InstInfo)
    (s : SpecState) (i : Nat) :
    (specStep opsLatency progTrace s i).max_program_exit
      = max s.max_program_exit
          ((specStep opsLatency progTrace s i).depth.getD i 0
            + (specStep opsLatency progTrace s i).latency.getD i 0) := rfl

/-- A dependency found in the "last writer" table is one of its entries. -/
theorem specDep_some (s : SpecState) (src u : Nat) (h : specDep s src = some u) :
    s.last_writer.getD src none = some u := by
  unfold specDep at h
  split at h
  · exact h
  · exact absurd h (by simp)

/-- Invariants of the pass in unbounded integers after `k` instructions:
the lengths of the arrays, the "last writer" table naming earlier
instructions only, the recorded latencies, and the bound of every exit
value and of the running maximum by the sum of the latencies so far. -/
theorem specState_inv (opsLatency : Nat → Nat) (progTrace : Nat → InstInfo)
    (numOfInsts k : Nat) (hk : k ≤ numOfInsts) :
    ((specState opsLatency progTrace numOfInsts k).latency.length = numOfInsts ∧
        (specState opsLatency progTrace numOfInsts k).depth.length = numOfInsts
      ∧ (specState opsLatency progTrace numOfInsts k).dep1.length = numOfInsts ∧
          (specState opsLatency progTrace numOfInsts k).dep2.length = numOfInsts
      ∧ (specState opsLatency progTrace numOfInsts k).last_writer.length = REG_COUNT)
    ∧ (∀ r u, (specState opsLatency progTrace numOfInsts k).last_writer.getD r none = some u → u <
        k)
    ∧ (∀ j, j < k → (specState opsLatency progTrace numOfInsts k).latency.getD j 0 = opsLatency
        (progTrace j).opcode)
    ∧ (∀ j, j < k → (specState opsLatency progTrace numOfInsts k).depth.getD j 0 +
        (specState opsLatency progTrace numOfInsts k).latency.getD j 0
        ≤ ∑ t ∈ Finset.range (j + 1), opsLatency (progTrace t).opcode)
    ∧ (specState opsLatency progTrace numOfInsts k).max_program_exit ≤ ∑ t ∈ Finset.range k,
        opsLatency (progTrace t).opcode := by
  induction k with
  | zero =>
    rw [specState_zero]
    refine ⟨⟨?_, ?_, ?_, ?_, ?_⟩, ?_, fun j hj => by omega, fun j hj => by omega, ?_⟩
    · simp [specInit]
    · simp [specInit]
    · simp [specInit]
    · simp [specInit]
    · simp [specInit]
    · intro r u h
      have : (specInit numOfInsts).last_writer.getD r none = none :=
        getD_replicate_self _ _ _
      rw [this] at h
      exact absurd h (by simp)
    · exact Nat.zero_le _
  | succ k ih =>
    obtain ⟨⟨l1, l2, l3, l4, l5⟩, hE, hL, hF, hG⟩ := ih (by omega)
    have hk2 : k < numOfInsts := hk
    rw [specState_succ]
    have hlat : ∀ j, j ≠ k →
        (specStep opsLatency progTrace (specState opsLatency progTrace numOfInsts k)
            k).latency.getD j 0
          = (specState opsLatency progTrace numOfInsts k).latency.getD j 0 := by
      intro j hj
      rw [specStep_latency, getD_set_ne _ _ _ _ _ (Ne.symm hj)]
    have hlatk : (specStep opsLatency progTrace (specState opsLatency progTrace numOfInsts k)
        k).latency.getD k 0
        = opsLatency (progTrace k).opcode := by
      rw [specStep_latency, getD_set_self _ _ _ _ (by rw [l1]; exact hk2)]
    have hready : ∀ src,
        specReady (specState opsLatency progTrace numOfInsts k).depth
            (specStep opsLatency progTrace (specState opsLatency progTrace numOfInsts k) k).latency
            (specDep (specState opsLatency progTrace numOfInsts k) src)
          ≤ ∑ t ∈ Finset.range k, opsLatency (progTrace t).opcode := by
      intro src
      cases hd : specDep (specState opsLatency progTrace numOfInsts k) src with
      | none => exact Nat.zero_le _
      | some u =>
        have hu : u < k := hE src u (specDep_some _ _ _ hd)
        show (specState opsLatency progTrace numOfInsts k).depth.getD u 0
          + (specStep opsLatency progTrace (specState opsLatency progTrace numOfInsts k)
              k).latency.getD u 0 ≤ _
        rw [hlat u (by omega)]
        exact le_trans (hF u hu) (latencySum_mono opsLatency progTrace (u + 1) k hu)
    have hdepk : (specStep opsLatency progTrace (specState opsLatency progTrace numOfInsts k)
        k).depth.getD k 0
        ≤ ∑ t ∈ Finset.range k, opsLatency (progTrace t).opcode := by
      rw [specStep_depth, getD_set_self _ _ _ _ (by rw [l2]; exact hk2)]
      exact max_le (hready _) (hready _)
    have hexit : (specStep opsLatency progTrace (specState opsLatency progTrace numOfInsts k)
        k).depth.getD k 0
        + (specStep opsLatency progTrace (specState opsLatency progTrace numOfInsts k)
            k).latency.getD k 0
        ≤ ∑ t ∈ Finset.range (k + 1), opsLatency (progTrace t).opcode := by
      rw [Finset.sum_range_succ, hlatk]
      exact Nat.add_le_add_right hdepk _
    refine ⟨⟨?_, ?_, ?_, ?_, ?_⟩, ?_, ?_, ?_, ?_⟩
    · rw [specStep_latency, List.length_set]; exact l1
    · rw [specStep_depth, List.length_set]; exact l2
    · rw [specStep_dep1, List.length_set]; exact l3
    · rw [specStep_dep2, List.length_set]; exact l4
    · rw [specStep_last_writer]
      split
      · rw [List.length_set]; exact l5
      · exact l5
    · intro r u h
      rw [specStep_last_writer] at h
      split at h
      · next hdst =>
        by_cases hr : (progTrace k).dstIdx = r
        · rw [hr, getD_set_self _ _ _ _ (by rw [l5, ← hr]; exact hdst)] at h
          have : k = u := Option.some.inj h
          omega
        · rw [getD_set_ne _ _ _ _ _ hr] at h
          exact lt_trans (hE r u h) (Nat.lt_succ_self k)
      · exact lt_trans (hE r u h) (Nat.lt_succ_self k)
    · intro j hj
      by_cases hjk : j = k
      · rw [hjk]; exact hlatk
      · rw [hlat j hjk]
        exact hL j (by omega)
    · intro j hj
      by_cases hjk : j = k
      · rw [hjk]; exact hexit
      · rw [hlat j hjk, specStep_depth, getD_set_ne _ _ _ _ _ (Ne.symm hjk)]
        exact hF j (by omega)
    · rw [specStep_max_program_exit]
      exact max_le
        (le_trans hG (latencySum_mono opsLatency progTrace k (k + 1) (Nat.le_succ k))) hexit

/-! ## The code against the pass in unbounded integers -/

/-- The dependency the code finds is the code of the dependency the pass in
unbounded integers finds. -/
theorem depOf_encodes (s : LoopState) (t : SpecState) (hw : EncodesWriters s t) (src : Nat) :
    depOf s src = depCode (specDep t src) := by
  unfold depOf specDep
  by_cases h : src < REG_COUNT
  · rw [if_pos h, if_pos h]
    exact hw src h
  · rw [if_neg h, if_neg h]
    rfl

/-- One iteration of the loop against one step of the pass in unbounded
integers: the code keeps holding the values of the pass when the sums the
iteration forms are below `2^31`, and it keeps holding the "last writer"
table when the index cast of the iteration keeps its value. -/
theorem loopBody_encodes
    (outside : Outside) (opsLatency : Nat → Nat) (progTrace : Nat → InstInfo)
    (numOfInsts k : Nat) (s : LoopState) (t : SpecState) (hk : k < numOfInsts)
    (henc : Encodes k s t) (hw : EncodesWriters s t)
    (hsl : s.ctx.latency.length = numOfInsts) (hsd : s.ctx.depth.length = numOfInsts)
    (hs1 : s.ctx.src1_dep.length = numOfInsts) (hs2 : s.ctx.src2_dep.length = numOfInsts)
    (hsw : s.last_writer.length = REG_COUNT)
    (htd : t.depth.length = numOfInsts) (ht1 : t.dep1.length = numOfInsts)
    (ht2 : t.dep2.length = numOfInsts) (htw : t.last_writer.length = REG_COUNT)
    (hE : ∀ r u, t.last_writer.getD r none = some u → u < k)
    (hF : ∀ u, u < k → t.depth.getD u 0 + t.latency.getD u 0 < 2147483648)
    (hexit : (specStep opsLatency progTrace t k).depth.getD k 0
        + (specStep opsLatency progTrace t k).latency.getD k 0 < 2147483648) :
    Encodes (k + 1) (loopBody outside opsLatency progTrace s k)
        (specStep opsLatency progTrace t k)
    ∧ (((progTrace k).dstIdx < REG_COUNT → k < 2147483648) →
        EncodesWriters (loopBody outside opsLatency progTrace s k)
          (specStep opsLatency progTrace t k)) := by
  obtain ⟨hA, hB, hH1, hH2, hD⟩ := henc
  have htl : t.latency.length = numOfInsts := by rw [← hA]; exact hsl
  have hA2 : (loopBody outside opsLatency progTrace s k).ctx.latency
      = (specStep opsLatency progTrace t k).latency := by
    rw [loopBody_latency, specStep_latency, hA]
  have hready : ∀ src,
      readyOf outside k s.ctx.depth (loopBody outside opsLatency progTrace s k).ctx.latency
          (depOf s src)
        = ((specReady t.depth (specStep opsLatency progTrace t k).latency
            (specDep t src) : Nat) : Int) := by
    intro src
    rw [depOf_encodes s t hw src]
    cases hd : specDep t src with
    | none =>
      show readyOf outside k _ _ INVALID_DEP = ((0 : Nat) : Int)
      rw [readyOf_invalid]
      rfl
    | some u =>
      have hu : u < k := hE src u (specDep_some _ _ _ hd)
      have hlu : (specStep opsLatency progTrace t k).latency.getD u 0 = t.latency.getD u 0 := by
        rw [specStep_latency, getD_set_ne _ _ _ _ _ (by omega)]
      show readyOf outside k _ _ (u : Int)
        = ((t.depth.getD u 0 + (specStep opsLatency progTrace t k).latency.getD u 0 : Nat) : Int)
      have hF2 := hF u hu
      rw [readyOf_index outside k _ _ u (by rw [hsd]; omega)
        (by rw [loopBody_latency, List.length_set, hsl]; omega)
        (by rw [hB u]; exact Int.ofNat_nonneg _)
        (by rw [hB u, hA2, hlu]; exact_mod_cast hF2), hB u, hA2]
      push_cast
      rfl
  have hB2 : ∀ j, (loopBody outside opsLatency progTrace s k).ctx.depth.getD j 0
      = ((specStep opsLatency progTrace t k).depth.getD j 0 : Int) := by
    intro j
    rw [loopBody_depth, specStep_depth]
    by_cases hj : k = j
    · subst hj
      rw [getD_set_self _ _ _ _ (by rw [hsd]; exact hk),
        getD_set_self _ _ _ _ (by rw [htd]; exact hk), MAX_eq_max, hready, hready]
      exact (Nat.cast_max _ _).symm
    · rw [getD_set_ne _ _ _ _ _ hj, getD_set_ne _ _ _ _ _ hj]
      exact hB j
  refine ⟨⟨hA2, hB2, ?_, ?_, ?_⟩, ?_⟩
  · intro j hj
    rw [loopBody_src1_dep, specStep_dep1]
    by_cases hjk : k = j
    · subst hjk
      rw [getD_set_self _ _ _ _ (by rw [hs1]; exact hk),
        getD_set_self _ _ _ _ (by rw [ht1]; exact hk)]
      exact depOf_encodes s t hw _
    · rw [getD_set_ne _ _ _ _ _ hjk, getD_set_ne _ _ _ _ _ hjk]
      exact hH1 j (by omega)
  · intro j hj
    rw [loopBody_src2_dep, specStep_dep2]
    by_cases hjk : k = j
    · subst hjk
      rw [getD_set_self _ _ _ _ (by rw [hs2]; exact hk),
        getD_set_self _ _ _ _ (by rw [ht2]; exact hk)]
      exact depOf_encodes s t hw _
    · rw [getD_set_ne _ _ _ _ _ hjk, getD_set_ne _ _ _ _ _ hjk]
      exact hH2 j (by omega)
  · rw [loopBody_max_exit_depth, specStep_max_program_exit, hB2 k, hA2, hD]
    have hx : addInt (((specStep opsLatency progTrace t k).depth.getD k 0 : Nat) : Int)
        (castInt ((specStep opsLatency progTrace t k).latency.getD k 0))
        = (((specStep opsLatency progTrace t k).depth.getD k 0
            + (specStep opsLatency progTrace t k).latency.getD k 0 : Nat) : Int) := by
      rw [addInt_castInt_exact _ _ (by omega) (by exact_mod_cast hexit)]
      push_cast
      rfl
    rw [hx]
    split
    · next h =>
      have h2 : t.max_program_exit
          < (specStep opsLatency progTrace t k).depth.getD k 0
            + (specStep opsLatency progTrace t k).latency.getD k 0 := by
        exact_mod_cast h
      rw [max_eq_right (le_of_lt h2)]
    · next h =>
      have h2 : ¬ t.max_program_exit
          < (specStep opsLatency progTrace t k).depth.getD k 0
            + (specStep opsLatency progTrace t k).latency.getD k 0 := by
        intro h3
        apply h
        exact_mod_cast h3
      rw [max_eq_left (not_lt.mp h2)]
  · intro hcast r hr
    rw [loopBody_last_writer, specStep_last_writer]
    by_cases hdst : (progTrace k).dstIdx < REG_COUNT
    · rw [if_pos hdst, if_pos hdst]
      by_cases hrd : (progTrace k).dstIdx = r
      · rw [hrd, getD_set_self _ _ _ _ (by rw [hsw]; exact hr),
          getD_set_self _ _ _ _ (by rw [htw]; exact hr)]
        exact castInt_of_lt k (hcast hdst)
      · rw [getD_set_ne _ _ _ _ _ hrd, getD_set_ne _ _ _ _ _ hrd]
        exact hw r hr
    · rw [if_neg hdst, if_neg hdst]
      exact hw r hr

/-- The loop against the pass in unbounded integers: after `k` iterations
the code holds the values of the pass when the index casts of the first
`k - 1` iterations keep their values and the latencies of the first `k`
instructions sum to less than `2^31`; it holds the "last writer" table too
when the index cast of iteration `k - 1` keeps its value as well. -/
theorem loopState_encodes
    (outside : Outside) (opsLatency : Nat → Nat) (progTrace : Nat → InstInfo)
    (numOfInsts k : Nat) (hk : k ≤ numOfInsts)
    (hcast : CastsExact progTrace (k - 1))
    (hsum : (∑ j ∈ Finset.range k, opsLatency (progTrace j).opcode) < 2147483648) :
    Encodes k (loopState outside opsLatency progTrace numOfInsts k)
        (specState opsLatency progTrace numOfInsts k)
    ∧ (CastsExact progTrace k → EncodesWriters (loopState outside opsLatency progTrace numOfInsts
        k) (specState opsLatency progTrace numOfInsts k)) := by
  induction k with
  | zero =>
    rw [loopState_zero, specState_zero]
    refine ⟨⟨rfl, ?_, fun j hj => by omega, fun j hj => by omega, rfl⟩, ?_⟩
    · intro j
      show (List.replicate numOfInsts (0 : Int)).getD j 0
        = (((List.replicate numOfInsts (0 : Nat)).getD j 0 : Nat) : Int)
      rw [getD_replicate_self, getD_replicate_self]
      rfl
    · intro _ r hr
      show (List.replicate REG_COUNT INVALID_DEP).getD r 0
        = depCode ((List.replicate REG_COUNT (none : Option Nat)).getD r none)
      rw [getD_replicate_of_lt _ _ _ _ hr, getD_replicate_self]
      rfl
  | succ k ih =>
    have hk2 : k < numOfInsts := hk
    have hcastk : CastsExact progTrace k := hcast
    have hsumk : (∑ j ∈ Finset.range k, opsLatency (progTrace j).opcode) < 2147483648 :=
      lt_of_le_of_lt (latencySum_mono opsLatency progTrace k (k + 1) (Nat.le_succ k)) hsum
    obtain ⟨henc, hw⟩ := ih (by omega)
      (castsExact_mono progTrace (k - 1) k (Nat.sub_le k 1) hcastk) hsumk
    obtain ⟨-, sl, sd, s1, s2, sw⟩ := loopState_lengths outside opsLatency progTrace numOfInsts k
    obtain ⟨⟨-, td, t1, t2, tw⟩, hE, -, hF, -⟩ :=
      specState_inv opsLatency progTrace numOfInsts k (by omega)
    obtain ⟨-, -, -, hF2, -⟩ := specState_inv opsLatency progTrace numOfInsts (k + 1) hk
    have hexit := hF2 k (Nat.lt_succ_self k)
    rw [specState_succ] at hexit
    obtain ⟨e1, e2⟩ := loopBody_encodes outside opsLatency progTrace numOfInsts k
      (loopState outside opsLatency progTrace numOfInsts k)
          (specState opsLatency progTrace numOfInsts k) hk2 henc (hw hcastk) sl sd s1 s2 sw td t1
          t2 tw hE
      (fun u hu => lt_of_le_of_lt
        (le_trans (hF u hu) (latencySum_mono opsLatency progTrace (u + 1) k hu)) hsumk)
      (lt_of_le_of_lt hexit hsum)
    rw [loopState_succ, specState_succ]
    exact ⟨e1, fun hc => e2 (fun hdst => hc k (Nat.lt_succ_self k) hdst)⟩

/-! ## A late producer in the pass in unbounded integers -/

theorem SpecState_ext (a b : SpecState) (h1 : a.latency = b.latency)
    (h2 : a.depth = b.depth) (h3 : a.dep1 = b.dep1) (h4 : a.dep2 = b.dep2)
    (h5 : a.last_writer = b.last_writer) (h6 : a.max_program_exit = b.max_program_exit) :
    a = b := by
  cases a
  cases b
  simp_all

/-- Before the first instruction no register has a writer. -/
theorem specDep_init (numOfInsts src : Nat) : specDep (specInit numOfInsts) src = none := by
  unfold specDep
  split
  · exact getD_replicate_self _ _ _
  · rfl

/-- An instruction of latency 0 and depth 0 that writes no register, taken
from the initial state, leaves the state as it is. -/
theorem specStep_idle (opsLatency : Nat → Nat) (progTrace : Nat → InstInfo)
    (numOfInsts k : Nat) (hlat : opsLatency (progTrace k).opcode = 0)
    (hdst : ¬ (progTrace k).dstIdx < REG_COUNT) :
    specStep opsLatency progTrace (specInit numOfInsts) k = specInit numOfInsts := by
  have e1 : (specStep opsLatency progTrace (specInit numOfInsts) k).latency
      = List.replicate numOfInsts 0 := by
    rw [specStep_latency, hlat]
    exact set_replicate_self _ _ _
  have e2 : (specStep opsLatency progTrace (specInit numOfInsts) k).depth
      = List.replicate numOfInsts 0 := by
    rw [specStep_depth, specDep_init, specDep_init]
    exact set_replicate_self _ _ _
  apply SpecState_ext
  · exact e1
  · exact e2
  · rw [specStep_dep1, specDep_init]
    exact set_replicate_self _ _ _
  · rw [specStep_dep2, specDep_init]
    exact set_replicate_self _ _ _
  · rw [specStep_last_writer, if_neg hdst]
  · rw [specStep_max_program_exit, e1, e2, getD_replicate_self]
    rfl

/-- In the pass in unbounded integers over `w + 2` instructions, of which
the first `w` have latency 0 and write no register, instruction `w` has
latency 5, reads no register and writes register 0, and instruction `w + 1`
reads register 0 and no other register, the depth of instruction `w + 1` is
5. -/
theorem specState_late_producer (opsLatency : Nat → Nat) (progTrace : Nat → InstInfo)
    (numOfInsts w w1 : Nat) (hw1 : w1 = w + 1) (hn : numOfInsts = w1 + 1)
    (hidle : ∀ j, j < w → opsLatency (progTrace j).opcode = 0
      ∧ ¬ (progTrace j).dstIdx < REG_COUNT)
    (hlat : opsLatency (progTrace w).opcode = 5)
    (hwsrc1 : ¬ (progTrace w).src1Idx < REG_COUNT)
    (hwsrc2 : ¬ (progTrace w).src2Idx < REG_COUNT)
    (hwdst : (progTrace w).dstIdx = 0)
    (hrsrc1 : (progTrace w1).src1Idx = 0)
    (hrsrc2 : ¬ (progTrace w1).src2Idx < REG_COUNT) :
    (specResult opsLatency progTrace numOfInsts).depth[w1]? = some 5 := by
  subst hw1
  subst hn
  have hinit : ∀ k, k ≤ w →
      specState opsLatency progTrace (w + 1 + 1) k = specInit (w + 1 + 1) := by
    intro k hk
    induction k with
    | zero => rfl
    | succ k ih =>
      rw [specState_succ, ih (by omega)]
      exact specStep_idle opsLatency progTrace _ k (hidle k hk).1 (hidle k hk).2
  have hnone : ∀ (s : SpecState) (src : Nat), ¬ src < REG_COUNT → specDep s src = none := by
    intro s src h
    unfold specDep
    rw [if_neg h]
  unfold specResult
  rw [specState_succ, specState_succ, hinit w (le_refl _)]
  have d1 : (specStep opsLatency progTrace (specInit (w + 1 + 1)) w).depth
      = List.replicate (w + 1 + 1) 0 := by
    rw [specStep_depth, hnone _ _ hwsrc1, hnone _ _ hwsrc2]
    exact set_replicate_self _ _ _
  have l1 : (specStep opsLatency progTrace (specInit (w + 1 + 1)) w).latency.getD w 0 = 5 := by
    rw [specStep_latency, hlat]
    exact getD_set_self _ _ _ _ (by rw [show (specInit (w + 1 + 1)).latency
      = List.replicate (w + 1 + 1) 0 from rfl, List.length_replicate]; omega)
  have w1 : specDep (specStep opsLatency progTrace (specInit (w + 1 + 1)) w) 0 = some w := by
    unfold specDep
    rw [if_pos (by decide), specStep_last_writer, hwdst, if_pos (by decide)]
    exact getD_set_self _ _ _ _ (by rw [show (specInit (w + 1 + 1)).last_writer
      = List.replicate REG_COUNT none from rfl, List.length_replicate]; decide)
  rw [specStep_depth, getElem?_set_self_of_lt _ _ _ (by rw [d1, List.length_replicate]; omega),
    hrsrc1, w1, hnone _ _ hrsrc2]
  show some (max ((specStep opsLatency progTrace (specInit (w + 1 + 1)) w).depth.getD w 0
      + (specStep opsLatency progTrace
          (specStep opsLatency progTrace (specInit (w + 1 + 1)) w) (w + 1)).latency.getD w 0) 0)
    = some 5
  rw [specStep_latency, getD_set_ne _ _ _ _ _ (by omega), l1, d1, getD_replicate_self]
  rfl

/-! ## Basic facts about the sanity checks -/

theorem analyzeProg_null_trace (outside : Outside) (heapOk : Bool) (opsLatency : Option (Nat → Nat))
    (numOfInsts : Nat) : analyzeProg outside heapOk opsLatency none numOfInsts = none := by
  cases opsLatency <;> rfl

theorem analyzeProg_null_table (outside : Outside) (heapOk : Bool)
    (progTrace : Option (Nat → InstInfo))
    (numOfInsts : Nat) : analyzeProg outside heapOk none progTrace numOfInsts = none := by
  cases progTrace <;> rfl

theorem analyzeProg_zero_insts (outside : Outside) (heapOk : Bool) (opsLatency : Option (Nat → Nat))
    (progTrace : Option (Nat → InstInfo)) : analyzeProg outside heapOk opsLatency progTrace 0 =
        none := by
  cases opsLatency <;> cases progTrace <;> rfl

/-! ## Basic facts about query calls on a memory -/

/-- A store through an out-parameter leaves the context alone. -/
theorem storeOut_ctx (m : QueryMem) (p : Option Nat) (v : Int) :
    (storeOut m p v).ctx = m.ctx := by
  cases p <;> rfl

/-- A store through a pointer to the caller cell `a` sets that cell. -/
theorem storeOut_caller_self (m : QueryMem) (a : Nat) (v : Int) :
    (storeOut m (some a) v).caller a = v := by
  unfold storeOut
  exact if_pos rfl

/-- A store through an out-parameter that does not point to the caller cell
`a` leaves that cell alone. -/
theorem storeOut_caller_other (m : QueryMem) (p : Option Nat) (v : Int) (a : Nat)
    (h : p ≠ some a) : (storeOut m p v).caller a = m.caller a := by
  cases p with
  | none => rfl
  | some b =>
    have hne : a ≠ b := fun e => h (by rw [e])
    unfold storeOut
    exact if_neg hne

/-- The call `getInstDeps` on a non-null handle and an index in range: the
status 0 and the memory after the two stores. -/
theorem getInstDepsMem_in_range (m : QueryMem) (i : Nat) (out1 out2 : Option Nat)
    (h : i < m.ctx.num_insts) :
    getInstDepsMem m true i out1 out2
      = (0, storeOut (storeOut m out1 (m.ctx.src1_dep.getD i 0)) out2
              ((storeOut m out1 (m.ctx.src1_dep.getD i 0)).ctx.src2_dep.getD i 0)) := by
  unfold getInstDepsMem
  rw [if_neg (by simp; omega)]

/-- A query call leaves the context alone. -/
theorem runQuery_ctx (m : QueryMem) (valid : Bool) (q : Query) :
    (runQuery m valid q).2.ctx = m.ctx := by
  cases q with
  | instDepth i =>
    show (getInstDepthMem m valid i).2.ctx = m.ctx
    unfold getInstDepthMem
    split <;> rfl
  | instDeps i out1 out2 =>
    show (getInstDepsMem m valid i out1 out2).2.ctx = m.ctx
    unfold getInstDepsMem
    split
    · rfl
    · show (storeOut (storeOut m out1 _) out2 _).ctx = m.ctx
      rw [storeOut_ctx, storeOut_ctx]
  | progDepth =>
    show (getProgDepthMem m valid).2.ctx = m.ctx
    unfold getProgDepthMem
    split <;> rfl

/-- A sequence of query calls leaves the context alone. -/
theorem runQueries_ctx (valid : Bool) (qs : List Query) :
    ∀ m : QueryMem, (runQueries m valid qs).2.ctx = m.ctx := by
  induction qs with
  | nil => intro m; rfl
  | cons q qs ih =>
    intro m
    show (runQueries (runQuery m valid q).2 valid qs).2.ctx = m.ctx
    rw [ih, runQuery_ctx]

/-- The value a query call returns is the one the query function computes
from the context, whatever the caller cells hold. -/
theorem runQuery_value (m : QueryMem) (q : Query) :
    (runQuery m true q).1
      = match q with
        | .instDepth i => getInstDepth (some m.ctx) i
        | .instDeps i _ _ => (getInstDeps (some m.ctx) i none none).1
        | .progDepth => getProgDepth (some m.ctx) := by
  cases q with
  | instDepth i =>
    show (getInstDepthMem m true i).1 = getInstDepth (some m.ctx) i
    unfold getInstDepthMem getInstDepth
    by_cases h : i ≥ m.ctx.num_insts
    · rw [if_pos (Or.inr h)]
      exact (if_pos h).symm
    · rw [if_neg (by simp; omega)]
      exact (if_neg h).symm
  | instDeps i out1 out2 =>
    show (getInstDepsMem m true i out1 out2).1 = (getInstDeps (some m.ctx) i none none).1
    unfold getInstDepsMem getInstDeps
    by_cases h : i ≥ m.ctx.num_insts
    · simp only [if_pos (Or.inr h), if_pos h]
    · have h2 : ¬ (true = false ∨ i ≥ m.ctx.num_insts) := by simp; omega
      simp only [if_neg h2, if_neg h]
  | progDepth =>
    show (getProgDepthMem m true).1 = getProgDepth (some m.ctx)
    unfold getProgDepthMem getProgDepth
    rw [if_pos rfl]

/-- The value a query call returns depends on the context only. -/
theorem runQuery_value_congr (m m2 : QueryMem) (h : m2.ctx = m.ctx) (q : Query) :
    (runQuery m2 true q).1 = (runQuery m true q).1 := by
  rw [runQuery_value m2, runQuery_value m, h]

/-- The values a sequence of query calls returns are those each call returns
on any memory holding the same context. -/
theorem runQueries_values (m : QueryMem) (qs : List Query) :
    ∀ m2 : QueryMem, m2.ctx = m.ctx →
      (runQueries m2 true qs).1 = qs.map (fun q => (runQuery m true q).1) := by
  induction qs with
  | nil => intro m2 _; rfl
  | cons q qs ih =>
    intro m2 h
    show (runQuery m2 true q).1 :: (runQueries (runQuery m2 true q).2 true qs).1
      = (runQuery m true q).1 :: qs.map (fun q => (runQuery m true q).1)
    rw [runQuery_value_congr m m2 h q, ih _ (by rw [runQuery_ctx, h])]

/-! ## Dependencies are the most recent writers -/

/-- Claim C1, as amended: for every non-empty trace of at most `2^31 + 1`
instructions and every instruction `i` whose `src1Idx` (respectively
`src2Idx`) is a register `r < 32`, the analysis succeeds and `src1_dep[i]`
(respectively `src2_dep[i]`) is `-1` exactly when no instruction before `i`
has `dstIdx = r`, and is otherwise the greatest `j < i` with `dstIdx = r`
(an earlier writer shadowed by a later one is not reported). -/
theorem analyzeProg_deps_most_recent_writer
    (outside : Outside) (opsLatency : Nat → Nat) (progTrace : Nat → InstInfo) (numOfInsts : Nat)
    (hn : 0 < numOfInsts) (hsmall : numOfInsts ≤ 2147483649) :
    ∃ ctx, analyzeProg outside true (some opsLatency) (some progTrace) numOfInsts = some ctx
      ∧ ∀ i, i < numOfInsts →
        ((progTrace i).src1Idx < REG_COUNT →
          (ctx.src1_dep[i]? = some INVALID_DEP
              ↔ ∀ j, j < i → (progTrace j).dstIdx ≠ (progTrace i).src1Idx)
          ∧ ∀ j, j < i → (progTrace j).dstIdx = (progTrace i).src1Idx
              → (∀ m, j < m → m < i → (progTrace m).dstIdx ≠ (progTrace i).src1Idx)
              → ctx.src1_dep[i]? = some (j : Int))
        ∧ ((progTrace i).src2Idx < REG_COUNT →
          (ctx.src2_dep[i]? = some INVALID_DEP
              ↔ ∀ j, j < i → (progTrace j).dstIdx ≠ (progTrace i).src2Idx)
          ∧ ∀ j, j < i → (progTrace j).dstIdx = (progTrace i).src2Idx
              → (∀ m, j < m → m < i → (progTrace m).dstIdx ≠ (progTrace i).src2Idx)
              → ctx.src2_dep[i]? = some (j : Int)) := by
  refine ⟨finalCtx outside opsLatency progTrace numOfInsts,
    analyzeProg_eq outside opsLatency progTrace numOfInsts hn, ?_⟩
  intro i hi
  obtain ⟨-, c1, c2⟩ := finalCtx_cells outside opsLatency progTrace numOfInsts i hi
  rw [c1, c2]
  constructor
  · intro hsrc
    obtain ⟨a, b⟩ := depOf_spec outside opsLatency progTrace numOfInsts i _ hsrc (by omega)
    exact ⟨⟨fun h => a.mp (Option.some.inj h), fun h => congrArg some (a.mpr h)⟩,
      fun j hj hd hl => congrArg some (b j hj hd hl)⟩
  · intro hsrc
    obtain ⟨a, b⟩ := depOf_spec outside opsLatency progTrace numOfInsts i _ hsrc (by omega)
    exact ⟨⟨fun h => a.mp (Option.some.inj h), fun h => congrArg some (a.mpr h)⟩,
      fun j hj hd hl => congrArg some (b j hj hd hl)⟩

/-- Scenario C as an instance of claim C1: instructions 0 and 1 both write
register 3 and instruction 2 reads it, so the dependency recorded for
instruction 2 is instruction 1, not instruction 0. -/
theorem analyzeProg_deps_most_recent_writer_witness :
    (0 < 3 ∧ 3 ≤ 2147483649)
    ∧ ∃ ctx, analyzeProg quietOutside true (some (tableOf [1] 0)) (some scenarioC) 3 = some ctx
        ∧ ctx.src1_dep[2]? = some 1
        ∧ ctx = ⟨3, [1, 1, 1], [0, 0, 1], [-1, -1, 1], [-1, -1, -1], 2⟩ := by
  obtain ⟨ctx, h, H⟩ :=
    analyzeProg_deps_most_recent_writer quietOutside (tableOf [1] 0) scenarioC 3 (by decide)
        (by decide)
  refine ⟨⟨by decide, by decide⟩, ctx, h, ?_, ?_⟩
  · have := ((H 2 (by decide)).1 (by decide)).2 1 (by decide) (by decide)
      (fun m h1 h2 => by omega)
    simpa using this
  · have e : analyzeProg quietOutside true (some (tableOf [1] 0)) (some scenarioC) 3
        = some ⟨3, [1, 1, 1], [0, 0, 1], [-1, -1, 1], [-1, -1, -1], 2⟩ := by decide
    rw [e] at h
    exact (Option.some.inj h).symm

/-- Counterexample to claim C1 as stated: in a trace of `2^31 + 2`
instructions whose instruction `2^31` is the only writer of register 0,
instruction `2^31 + 1` reads register 0, and the dependency recorded for it
is `(int)2^31 = -2^31`, not the index `2^31` of that writer. -/
theorem analyzeProg_deps_most_recent_writer_counterexample :
    ∃ ctx, analyzeProg quietOutside true (some (tableOf [1] 0)) (some lateWriterTrace) 2147483650
        = some ctx
      ∧ (lateWriterTrace 2147483649).src1Idx = 0
      ∧ (lateWriterTrace 2147483648).dstIdx = 0
      ∧ (∀ m, 2147483648 < m → m < 2147483649 → (lateWriterTrace m).dstIdx ≠ 0)
      ∧ ctx.src1_dep[2147483649]? = some (-2147483648)
      ∧ ctx.src1_dep[2147483649]? ≠ some 2147483648 := by
  refine ⟨_, analyzeProg_eq quietOutside (tableOf [1] 0) lateWriterTrace 2147483650 (by decide), ?_⟩
  have hw : ∀ m, (lateWriterTrace m).dstIdx = 0 ↔ m = 2147483648 := by
    intro m
    unfold lateWriterTrace
    split
    · next h => simp [h]
    · next h => simp [h]
  have hcell : (finalCtx quietOutside (tableOf [1] 0) lateWriterTrace
      2147483650).src1_dep[2147483649]?
      = some (-2147483648) := by
    obtain ⟨-, c1, -⟩ := finalCtx_cells quietOutside (tableOf [1] 0) lateWriterTrace 2147483650
      2147483649 (by decide)
    rw [c1]
    have hsrc : (lateWriterTrace 2147483649).src1Idx = 0 := by decide
    rw [hsrc]
    unfold depOf
    rw [if_pos (by decide)]
    rcases loopState_last_writer quietOutside (tableOf [1] 0) lateWriterTrace 2147483650
        2147483649 0
      (by decide) with ⟨hnone, -⟩ | ⟨m, -, hdm, -, hv⟩
    · exact absurd ((hw 2147483648).mpr rfl) (hnone 2147483648 (by decide))
    · rw [hv, (hw m).mp hdm]
      have : castInt 2147483648 = -2147483648 := by decide
      rw [this]
  refine ⟨by decide, by decide, fun m h1 h2 => by omega, hcell, ?_⟩
  rw [hcell]
  decide

/-! ## The depth recurrence -/

/-- Claim C2, as amended: for every non-empty trace the analysis succeeds
and, for every instruction `i`, `latency[i] = opsLatency[opcode[i]]` and
`depth[i] = max(ready1, ready2)`, where `ready_k` is the value the code
computes for the recorded dependency `dep_k[i]` (`readyOf`): 0 for `-1`, and
for an index `u` of the arrays the `int` sum `depth[u] + (int)latency[u]`,
which wraps modulo `2^32` and is the integer `depth[u] + latency[u]` exactly
when that one lies in the range of `int`.  When the index casts of the
iterations before `i` keep their values, each dependency of `i` is `-1` or
such an index `u < i`. -/
theorem analyzeProg_depth_recurrence
    (outside : Outside) (opsLatency : Nat → Nat) (progTrace : Nat → InstInfo)
    (numOfInsts : Nat) (hn : 0 < numOfInsts) :
    ∃ ctx, analyzeProg outside true (some opsLatency) (some progTrace) numOfInsts = some ctx
      ∧ (∀ i, i < numOfInsts →
          ∃ d1 d2, ctx.src1_dep[i]? = some d1 ∧ ctx.src2_dep[i]? = some d2
            ∧ ctx.latency[i]? = some (opsLatency (progTrace i).opcode)
            ∧ ctx.depth[i]? = some (max (readyOf outside i ctx.depth ctx.latency d1)
                                        (readyOf outside i ctx.depth ctx.latency d2))
            ∧ (CastsExact progTrace i →
                (d1 = INVALID_DEP ∨ ∃ u : Nat, u < i ∧ d1 = (u : Int))
                ∧ (d2 = INVALID_DEP ∨ ∃ u : Nat, u < i ∧ d2 = (u : Int))))
      ∧ (∀ i, readyOf outside i ctx.depth ctx.latency INVALID_DEP = 0)
      ∧ (∀ i u, u < numOfInsts →
          readyOf outside i ctx.depth ctx.latency (u : Int)
            = addInt (ctx.depth.getD u 0) (castInt (ctx.latency.getD u 0)))
      ∧ (∀ i u, u < numOfInsts
            → -2147483648 ≤ ctx.depth.getD u 0 + (ctx.latency.getD u 0 : Int)
            → ctx.depth.getD u 0 + (ctx.latency.getD u 0 : Int) < 2147483648
            → readyOf outside i ctx.depth ctx.latency (u : Int)
                = ctx.depth.getD u 0 + (ctx.latency.getD u 0 : Int)) := by
  obtain ⟨-, hl, hd, -, -⟩ := finalCtx_lengths outside opsLatency progTrace numOfInsts
  refine ⟨(finalCtx outside opsLatency progTrace numOfInsts), analyzeProg_eq outside opsLatency
      progTrace numOfInsts hn, ?_, fun i => readyOf_invalid outside i _ _, ?_, ?_⟩
  · intro i hi
    obtain ⟨c0, c1, c2⟩ := finalCtx_cells outside opsLatency progTrace numOfInsts i hi
    have c3 := finalCtx_depth outside opsLatency progTrace numOfInsts i hi
    rw [MAX_eq_max] at c3
    exact ⟨_, _, c1, c2, c0, c3, fun hcast =>
      ⟨depOf_cases_exact outside opsLatency progTrace numOfInsts i _ hcast, depOf_cases_exact
          outside opsLatency progTrace numOfInsts i _ hcast⟩⟩
  · intro i u hu
    exact readyOf_index_wrapped outside i _ _ u (by rw [hd]; exact hu) (by rw [hl]; exact hu)
  · intro i u hu h1 h2
    rw [readyOf_index_wrapped outside i _ _ u (by rw [hd]; exact hu) (by rw [hl]; exact hu)]
    exact addInt_castInt_exact _ _ h1 h2

/-- Scenario B as an instance of claim C2: instruction 0 writes register 3
with latency 2, instruction 1 reads it with latency 1; then `dep1[1] = 0`,
`depth[1] = max(0 + 2, 0) = 2` and the program depth is 3. -/
theorem analyzeProg_depth_recurrence_witness :
    0 < 2
    ∧ ∃ ctx, analyzeProg quietOutside true (some (tableOf [2, 1] 0)) (some scenarioB) 2
          = some ctx
        ∧ ctx.depth[1]? = some (max (readyOf quietOutside 1 ctx.depth ctx.latency 0)
                                    (readyOf quietOutside 1 ctx.depth ctx.latency (-1)))
        ∧ readyOf quietOutside 1 ctx.depth ctx.latency 0
            = ctx.depth.getD 0 0 + (ctx.latency.getD 0 0 : Int)
        ∧ ctx.depth[1]? = some 2 ∧ ctx.src1_dep[1]? = some 0
        ∧ getProgDepth (some ctx) = 3 := by
  obtain ⟨ctx, h, H, -, -, X⟩ :=
    analyzeProg_depth_recurrence quietOutside (tableOf [2, 1] 0) scenarioB 2 (by decide)
  have e : analyzeProg quietOutside true (some (tableOf [2, 1] 0)) (some scenarioB) 2
      = some ⟨2, [2, 1], [0, 2], [-1, 0], [-1, -1], 3⟩ := by decide
  have hctx : ctx = ⟨2, [2, 1], [0, 2], [-1, 0], [-1, -1], 3⟩ := by
    rw [e] at h
    exact (Option.some.inj h).symm
  obtain ⟨d1, d2, h1, h2, -, h4, -⟩ := H 1 (by decide)
  have x := X 1 0 (by decide)
  subst hctx
  have e1 : d1 = 0 := by simpa using h1.symm
  have e2 : d2 = -1 := by simpa using h2.symm
  subst e1 e2
  exact ⟨by decide, _, e, h4, x (by decide) (by decide), by decide, by decide, by decide⟩

/-- Counterexample to claim C2 as stated: with the 32-bit latency
`2^32 - 1` for opcode 0, instruction 0 writes register 3 and instruction 1
reads it through both sources; both recorded dependencies of instruction 1
are instruction 0, `depth[0] + latency[0]` is `2^32 - 1`, and the depth
stored for instruction 1 is `-1`, not `max(2^32 - 1, 2^32 - 1)`. -/
theorem analyzeProg_depth_recurrence_counterexample :
    analyzeProg quietOutside true (some (tableOf [4294967295] 0)) (some bothSourcesTrace) 2
        = some ⟨2, [4294967295, 4294967295], [0, -1], [-1, 0], [-1, 0], 0⟩
    ∧ (⟨2, [4294967295, 4294967295], [0, -1], [-1, 0], [-1, 0], 0⟩ : ProgCtxImpl).src1_dep[1]?
        = some 0
    ∧ (⟨2, [4294967295, 4294967295], [0, -1], [-1, 0], [-1, 0], 0⟩ : ProgCtxImpl).src2_dep[1]?
        = some 0
    ∧ (⟨2, [4294967295, 4294967295], [0, -1], [-1, 0], [-1, 0], 0⟩ : ProgCtxImpl).depth.getD 0 0
        + (((⟨2, [4294967295, 4294967295], [0, -1], [-1, 0], [-1, 0], 0⟩ :
            ProgCtxImpl).latency.getD 0 0 : Nat) : Int) = 4294967295
    ∧ (⟨2, [4294967295, 4294967295], [0, -1], [-1, 0], [-1, 0], 0⟩ : ProgCtxImpl).depth[1]?
        = some (-1)
    ∧ (⟨2, [4294967295, 4294967295], [0, -1], [-1, 0], [-1, 0], 0⟩ : ProgCtxImpl).depth[1]?
        ≠ some (max (4294967295 : Int) 4294967295) := by
  refine ⟨by decide, by decide, by decide, by decide, by decide, by decide⟩

/-! ## The program depth -/

/-- Claim C3, as amended: for every non-empty trace the analysis succeeds and
the value `getProgDepth` returns is `max(0, max_i e_i)`, where `e_i` is the
`int` value `depth[i] + (int)latency[i]` of the code (`exitOf`): it is
non-negative, it is `≥ e_i` for every `i < num_insts`, it is 0 or one of
the `e_i`, and it equals `e_i` for at least one `i` whenever some `e_i` is
non-negative.  Each `e_i` is the integer `depth[i] + latency[i]` whenever
that sum lies in the range of `int`. -/
theorem analyzeProg_prog_depth_is_max_exit
    (outside : Outside) (opsLatency : Nat → Nat) (progTrace : Nat → InstInfo) (numOfInsts : Nat)
    (hn : 0 < numOfInsts) :
    ∃ ctx, analyzeProg outside true (some opsLatency) (some progTrace) numOfInsts = some ctx
      ∧ getProgDepth (some ctx) = ctx.prog_depth
      ∧ 0 ≤ ctx.prog_depth
      ∧ (∀ i, i < numOfInsts → exitOf ctx i ≤ ctx.prog_depth)
      ∧ (ctx.prog_depth = 0 ∨ ∃ i, i < numOfInsts ∧ ctx.prog_depth = exitOf ctx i)
      ∧ ((∃ i, i < numOfInsts ∧ 0 ≤ exitOf ctx i)
          → ∃ i, i < numOfInsts ∧ ctx.prog_depth = exitOf ctx i)
      ∧ (∀ i, -2147483648 ≤ ctx.depth.getD i 0 + (ctx.latency.getD i 0 : Int)
          → ctx.depth.getD i 0 + (ctx.latency.getD i 0 : Int) < 2147483648
          → exitOf ctx i = ctx.depth.getD i 0 + (ctx.latency.getD i 0 : Int)) := by
  obtain ⟨h0, hle, hmax⟩ :=
    loopState_max_exit_depth outside opsLatency progTrace numOfInsts numOfInsts
  refine ⟨finalCtx outside opsLatency progTrace numOfInsts,
    analyzeProg_eq outside opsLatency progTrace numOfInsts hn, rfl, h0, hle, hmax, ?_, ?_⟩
  · rintro ⟨i, hi, hpos⟩
    rcases hmax with hz | hex
    · refine ⟨i, hi, ?_⟩
      have := hle i hi
      have hz2 : (finalCtx outside opsLatency progTrace numOfInsts).prog_depth = 0 := hz
      have hle2 : exitOf (finalCtx outside opsLatency progTrace numOfInsts) i
          ≤ (finalCtx outside opsLatency progTrace numOfInsts).prog_depth := this
      omega
    · exact hex
  · intro i h1 h2
    exact addInt_castInt_exact _ _ h1 h2

/-- Scenario A as an instance of claim C3: one instruction of latency 5, so
the program depth 5 is the exit value of instruction 0. -/
theorem analyzeProg_prog_depth_is_max_exit_witness :
    0 < 1
    ∧ ∃ ctx, analyzeProg quietOutside true (some (tableOf [5] 0)) (some scenarioA) 1 = some ctx
        ∧ getProgDepth (some ctx) = 5
        ∧ exitOf ctx 0 = 5
        ∧ (∀ i, i < 1 → exitOf ctx i ≤ ctx.prog_depth) := by
  obtain ⟨ctx, h, -, -, hle, -⟩ :=
    analyzeProg_prog_depth_is_max_exit quietOutside (tableOf [5] 0) scenarioA 1 (by decide)
  have e : analyzeProg quietOutside true (some (tableOf [5] 0)) (some scenarioA) 1
      = some ⟨1, [5], [0], [-1], [-1], 5⟩ := by decide
  have hctx : ctx = ⟨1, [5], [0], [-1], [-1], 5⟩ := by
    rw [e] at h
    exact (Option.some.inj h).symm
  subst hctx
  exact ⟨by decide, _, e, by decide, by decide, hle⟩

/-- Counterexample to claim C3 as stated: for the single instruction of
latency `2^32 - 1` the analysis gives `depth[0] = 0` and exit value
`0 + (int)(2^32 - 1) = -1`, and the program depth is 0: it equals
`depth[i] + latency[i]` for no `i`, be the sum the `int` value `-1` or the
integer `2^32 - 1`, and it is below the latter. -/
theorem analyzeProg_prog_depth_is_max_exit_counterexample :
    analyzeProg quietOutside true (some (tableOf [4294967295] 0)) (some scenarioA) 1
        = some ⟨1, [4294967295], [0], [-1], [-1], 0⟩
    ∧ getProgDepth (analyzeProg quietOutside true (some (tableOf [4294967295] 0)) (some scenarioA)
        1) = 0
    ∧ exitOf ⟨1, [4294967295], [0], [-1], [-1], 0⟩ 0 = -1
    ∧ ¬ (∃ i, i < 1 ∧ (0 : Int) = exitOf ⟨1, [4294967295], [0], [-1], [-1], 0⟩ i)
    ∧ ¬ (∃ i, i < 1 ∧ (0 : Int) = [(0 : Int)].getD i 0 + ([4294967295].getD i 0 : Nat))
    ∧ (0 : Int) < [(0 : Int)].getD 0 0 + ([4294967295].getD 0 0 : Nat) := by
  refine ⟨by decide, by decide, by decide, ?_, ?_, by decide⟩
  · rintro ⟨i, hi, h⟩
    have : i = 0 := by omega
    subst this
    revert h
    decide
  · rintro ⟨i, hi, h⟩
    have : i = 0 := by omega
    subst this
    revert h
    decide

/-! ## Depths are non-negative when nothing wraps -/

/-- Claim C4, as amended: for every latency table and every non-empty trace
the analysis succeeds, and `depth[i]` is `≥ 0` for every instruction `i`
before which no cast and no addition overflowed, so that `getInstDepth`
returns `depth[i]` and not the failure value `-1` there; this is so for
every instruction when the index casts keep their values and the latencies
of the trace sum to less than `2^31`. -/
theorem analyzeProg_depth_nonneg
    (outside : Outside) (opsLatency : Nat → Nat) (progTrace : Nat → InstInfo)
    (numOfInsts : Nat) (hn : 0 < numOfInsts) :
    ∃ ctx, analyzeProg outside true (some opsLatency) (some progTrace) numOfInsts = some ctx
      ∧ (∀ i, i < numOfInsts → NoOverflowBefore progTrace ctx i →
          ∃ d, ctx.depth[i]? = some d ∧ 0 ≤ d
            ∧ getInstDepth (some ctx) i = d ∧ getInstDepth (some ctx) i ≠ -1)
      ∧ (CastsExact progTrace numOfInsts
          → (∑ j ∈ Finset.range numOfInsts, opsLatency (progTrace j).opcode) < 2147483648
          → ∀ i, i < numOfInsts → NoOverflowBefore progTrace ctx i) := by
  refine ⟨(finalCtx outside opsLatency progTrace numOfInsts), analyzeProg_eq outside opsLatency
      progTrace numOfInsts hn, ?_, ?_⟩
  · intro i hi hno
    obtain ⟨hnum, -, hlen, -, -⟩ := finalCtx_lengths outside opsLatency progTrace numOfInsts
    have b0 := finalCtx_depth_nonneg_before outside opsLatency progTrace numOfInsts i hi hno
    have hget : getInstDepth (some (finalCtx outside opsLatency progTrace numOfInsts)) i =
        (finalCtx outside opsLatency progTrace numOfInsts).depth.getD i 0 := by
      unfold getInstDepth
      simp only [hnum, ge_iff_le]
      rw [if_neg (by omega)]
    refine ⟨_, getElem?_eq_some_getD _ i 0 (by rw [hlen]; exact hi), b0, hget, ?_⟩
    rw [hget]
    omega
  · intro hcast hsum i hi
    exact noOverflow_before outside opsLatency progTrace numOfInsts
        (noOverflow_of_latencySum outside opsLatency progTrace numOfInsts hcast hsum) i
        (le_of_lt hi)

/-- Claim C4 on scenario B: nothing overflows before instruction 1, whose
depth 2 is non-negative and is what `getInstDepth` returns. -/
theorem analyzeProg_depth_nonneg_witness :
    0 < 2
    ∧ ∃ ctx, analyzeProg quietOutside true (some (tableOf [2, 1] 0)) (some scenarioB) 2
          = some ctx
        ∧ NoOverflowBefore scenarioB ctx 1
        ∧ (∃ d, ctx.depth[1]? = some d ∧ 0 ≤ d
              ∧ getInstDepth (some ctx) 1 = d ∧ getInstDepth (some ctx) 1 ≠ -1)
        ∧ getInstDepth (some ctx) 1 = 2 := by
  obtain ⟨ctx, h, H, -⟩ :=
    analyzeProg_depth_nonneg quietOutside (tableOf [2, 1] 0) scenarioB 2 (by decide)
  have e : analyzeProg quietOutside true (some (tableOf [2, 1] 0)) (some scenarioB) 2
      = some ⟨2, [2, 1], [0, 2], [-1, 0], [-1, -1], 3⟩ := by decide
  have hctx : ctx = ⟨2, [2, 1], [0, 2], [-1, 0], [-1, -1], 3⟩ := by
    rw [e] at h
    exact (Option.some.inj h).symm
  subst hctx
  have hno : NoOverflowBefore scenarioB ⟨2, [2, 1], [0, 2], [-1, 0], [-1, -1], 3⟩ 1 := by
    refine ⟨fun j hj _ => by omega, fun j hj => ?_⟩
    have : j = 0 := by omega
    subst this
    decide
  exact ⟨by decide, _, e, hno, H 1 (by decide) hno, by decide⟩

/-- Counterexample to claim C4 as stated: with the 32-bit latency
`2^32 - 1` for opcode 0, instruction 0 writing register 3 and instruction 1
reading register 3 through both sources, both readiness values are
`0 + (int)(2^32 - 1) = -1`, so `depth[1] = -1` and `getInstDepth` returns
`-1` for the valid index 1. -/
theorem analyzeProg_depth_nonneg_counterexample :
    tableOf [4294967295] 0 0 < 4294967296
    ∧ analyzeProg quietOutside true (some (tableOf [4294967295] 0)) (some bothSourcesTrace) 2
        = some ⟨2, [4294967295, 4294967295], [0, -1], [-1, 0], [-1, 0], 0⟩
    ∧ getInstDepth
        (analyzeProg quietOutside true (some (tableOf [4294967295] 0))
          (some bothSourcesTrace) 2) 1 = -1 := by
  refine ⟨by decide, by decide, by decide⟩

/-! ## Instructions without dependencies -/

/-- Claim C5: for every non-empty trace the analysis succeeds and an
instruction whose two recorded dependencies are both `-1` has depth 0; in
particular an instruction whose `src1Idx` and `src2Idx` are both `≥ 32` has
both dependencies `-1` and depth 0, and so has instruction 0 of every
trace. -/
theorem analyzeProg_depth_zero_without_deps
    (outside : Outside) (opsLatency : Nat → Nat) (progTrace : Nat → InstInfo) (numOfInsts : Nat)
    (hn : 0 < numOfInsts) :
    ∃ ctx, analyzeProg outside true (some opsLatency) (some progTrace) numOfInsts = some ctx
      ∧ (∀ i, i < numOfInsts →
          ctx.src1_dep[i]? = some INVALID_DEP → ctx.src2_dep[i]? = some INVALID_DEP →
          ctx.depth[i]? = some 0)
      ∧ (∀ i, i < numOfInsts →
          REG_COUNT ≤ (progTrace i).src1Idx → REG_COUNT ≤ (progTrace i).src2Idx →
          ctx.src1_dep[i]? = some INVALID_DEP ∧ ctx.src2_dep[i]? = some INVALID_DEP
            ∧ ctx.depth[i]? = some 0)
      ∧ (ctx.src1_dep[0]? = some INVALID_DEP ∧ ctx.src2_dep[0]? = some INVALID_DEP
            ∧ ctx.depth[0]? = some 0) := by
  have key : ∀ i, i < numOfInsts →
      depOf (loopState outside opsLatency progTrace numOfInsts i) (progTrace i).src1Idx =
          INVALID_DEP →
      depOf (loopState outside opsLatency progTrace numOfInsts i) (progTrace i).src2Idx =
          INVALID_DEP →
      (finalCtx outside opsLatency progTrace numOfInsts).depth[i]? = some 0 := by
    intro i hi h1 h2
    have hd := finalCtx_depth outside opsLatency progTrace numOfInsts i hi
    rw [h1, h2, readyOf_invalid] at hd
    rw [hd]
    rfl
  refine ⟨finalCtx outside opsLatency progTrace numOfInsts,
    analyzeProg_eq outside opsLatency progTrace numOfInsts hn, ?_, ?_, ?_⟩
  · intro i hi h1 h2
    obtain ⟨-, c1, c2⟩ := finalCtx_cells outside opsLatency progTrace numOfInsts i hi
    rw [c1] at h1
    rw [c2] at h2
    exact key i hi (Option.some.inj h1) (Option.some.inj h2)
  · intro i hi h1 h2
    obtain ⟨-, c1, c2⟩ := finalCtx_cells outside opsLatency progTrace numOfInsts i hi
    have e1 := depOf_of_ge (loopState outside opsLatency progTrace numOfInsts i) _ h1
    have e2 := depOf_of_ge (loopState outside opsLatency progTrace numOfInsts i) _ h2
    exact ⟨by rw [c1, e1], by rw [c2, e2], key i hi e1 e2⟩
  · obtain ⟨-, c1, c2⟩ := finalCtx_cells outside opsLatency progTrace numOfInsts 0 hn
    have e1 := depOf_zero outside opsLatency progTrace numOfInsts (progTrace 0).src1Idx
    have e2 := depOf_zero outside opsLatency progTrace numOfInsts (progTrace 0).src2Idx
    exact ⟨by rw [c1, e1], by rw [c2, e2], key 0 hn e1 e2⟩

/-- Scenario A as an instance of claim C5: a single instruction of latency
5 without valid registers has `depth[0] = 0`, both dependencies `-1`, and
the program depth is 5. -/
theorem analyzeProg_depth_zero_without_deps_witness :
    0 < 1
    ∧ ∃ ctx, analyzeProg quietOutside true (some (tableOf [5] 0)) (some scenarioA) 1 = some ctx
        ∧ (ctx.src1_dep[0]? = some INVALID_DEP ∧ ctx.src2_dep[0]? = some INVALID_DEP
            ∧ ctx.depth[0]? = some 0)
        ∧ getInstDepth (some ctx) 0 = 0
        ∧ getInstDeps (some ctx) 0 (some 7) (some 7) = (0, some (-1), some (-1))
        ∧ getProgDepth (some ctx) = 5 := by
  obtain ⟨ctx, h, -, -, H⟩ :=
    analyzeProg_depth_zero_without_deps quietOutside (tableOf [5] 0) scenarioA 1 (by decide)
  have e : analyzeProg quietOutside true (some (tableOf [5] 0)) (some scenarioA) 1
      = some ⟨1, [5], [0], [-1], [-1], 5⟩ := by decide
  have hctx : ctx = ⟨1, [5], [0], [-1], [-1], 5⟩ := by
    rw [e] at h
    exact (Option.some.inj h).symm
  subst hctx
  exact ⟨by decide, _, e, H, by decide, by decide, by decide⟩

/-! ## Dependencies point backward -/

/-- Claim C6, as amended: for every non-empty trace of at most `2^31 + 1`
instructions the analysis succeeds and, for every instruction `i`, each of
`src1_dep[i]` and `src2_dep[i]` is `-1` or an index `j` with `0 ≤ j < i`
(also when a source and the destination of `i` name the same register). -/
theorem analyzeProg_deps_point_backward
    (outside : Outside) (opsLatency : Nat → Nat) (progTrace : Nat → InstInfo) (numOfInsts : Nat)
    (hn : 0 < numOfInsts) (hsmall : numOfInsts ≤ 2147483649) :
    ∃ ctx, analyzeProg outside true (some opsLatency) (some progTrace) numOfInsts = some ctx
      ∧ ∀ i, i < numOfInsts →
          ∃ d1 d2, ctx.src1_dep[i]? = some d1 ∧ ctx.src2_dep[i]? = some d2
            ∧ (d1 = -1 ∨ (0 ≤ d1 ∧ d1 < (i : Int)))
            ∧ (d2 = -1 ∨ (0 ≤ d2 ∧ d2 < (i : Int))) := by
  have key : ∀ i src, i < numOfInsts →
      depOf (loopState outside opsLatency progTrace numOfInsts i) src = -1
      ∨ (0 ≤ depOf (loopState outside opsLatency progTrace numOfInsts i) src
          ∧ depOf (loopState outside opsLatency progTrace numOfInsts i) src < (i : Int)) := by
    intro i src hi
    rcases depOf_range outside opsLatency progTrace numOfInsts i src with h | ⟨m, hm, hv⟩
    · exact Or.inl h
    · right
      rw [hv, castInt_of_lt m (by omega)]
      omega
  refine ⟨finalCtx outside opsLatency progTrace numOfInsts,
    analyzeProg_eq outside opsLatency progTrace numOfInsts hn, ?_⟩
  intro i hi
  obtain ⟨-, c1, c2⟩ := finalCtx_cells outside opsLatency progTrace numOfInsts i hi
  exact ⟨_, _, c1, c2, key i _ hi, key i _ hi⟩

/-- Claim C6 on a trace whose instruction 1 reads and writes the register
that instruction 0 wrote: its dependency is instruction 0, not itself. -/
theorem analyzeProg_deps_point_backward_witness :
    (0 < 2 ∧ 2 ≤ 2147483649)
    ∧ ∃ ctx, analyzeProg quietOutside true (some (tableOf [1] 0)) (some selfChainTrace) 2 = some ctx
        ∧ (∀ i : Nat, i < 2 →
            ∃ d1 d2, ctx.src1_dep[i]? = some d1 ∧ ctx.src2_dep[i]? = some d2
              ∧ (d1 = -1 ∨ (0 ≤ d1 ∧ d1 < (i : Int)))
              ∧ (d2 = -1 ∨ (0 ≤ d2 ∧ d2 < (i : Int))))
        ∧ ctx.src1_dep = [-1, 0] ∧ ctx.src2_dep = [-1, -1] := by
  obtain ⟨ctx, h, H⟩ :=
    analyzeProg_deps_point_backward quietOutside (tableOf [1] 0) selfChainTrace 2 (by decide)
        (by decide)
  have e : analyzeProg quietOutside true (some (tableOf [1] 0)) (some selfChainTrace) 2
      = some ⟨2, [1, 1], [0, 1], [-1, 0], [-1, -1], 2⟩ := by decide
  have hctx : ctx = ⟨2, [1, 1], [0, 1], [-1, 0], [-1, -1], 2⟩ := by
    rw [e] at h
    exact (Option.some.inj h).symm
  subst hctx
  exact ⟨⟨by decide, by decide⟩, _, e, H, rfl, rfl⟩

/-- Counterexample to claim C6 as stated: in a trace of `2^31 + 2`
instructions that all read and write register 5, the dependency recorded for
instruction `2^31 + 1` is `(int)2^31 = -2^31`, which is neither `-1` nor an
index in `[0, 2^31 + 1)`. -/
theorem analyzeProg_deps_point_backward_counterexample :
    ∃ ctx, analyzeProg quietOutside true (some (tableOf [1] 0)) (some selfChainTrace) 2147483650 =
        some ctx
      ∧ ctx.src1_dep[2147483649]? = some (-2147483648)
      ∧ ¬ ((-2147483648 : Int) = -1
            ∨ (0 ≤ (-2147483648 : Int) ∧ (-2147483648 : Int) < ((2147483649 : Nat) : Int))) := by
  refine ⟨_, analyzeProg_eq quietOutside (tableOf [1] 0) selfChainTrace 2147483650 (by decide),
      ?_, by decide⟩
  obtain ⟨-, c1, -⟩ := finalCtx_cells quietOutside (tableOf [1] 0) selfChainTrace 2147483650
    2147483649 (by decide)
  rw [c1]
  have hsrc : (selfChainTrace 2147483649).src1Idx = 5 := rfl
  rw [hsrc]
  unfold depOf
  rw [if_pos (by decide)]
  rcases loopState_last_writer quietOutside (tableOf [1] 0) selfChainTrace 2147483650 2147483649 5
    (by decide) with ⟨hnone, -⟩ | ⟨m, hm, -, hlater, hv⟩
  · exact absurd rfl (hnone 0 (by decide))
  · have hm2 : m = 2147483648 := by
      by_contra hne
      exact hlater (m + 1) (by omega) (by omega) rfl
    rw [hv, hm2]
    have : castInt 2147483648 = -2147483648 := by decide
    rw [this]

/-! ## Opcodes outside the latency table -/

/-- Claim C7 at a failing input: the table has the single entry 3 and the
only instruction has opcode 1.  The loop reads `opsLatency[1]`, one cell
past the table; with the word 9 in that cell the recorded latency and the
program depth are 9, not the 0 the claim and the comment in the source
announce. -/
theorem analyzeProg_opcode_outside_table :
    [3].length ≤ (opcodeOneTrace 0).opcode
    ∧ analyzeProg quietOutside true (some (tableOf [3] 9)) (some opcodeOneTrace) 1
        = some ⟨1, [9], [0], [-1], [-1], 9⟩
    ∧ analyzeProg quietOutside true (some (tableOf [3] 9)) (some opcodeOneTrace) 1
        ≠ some ⟨1, [0], [0], [-1], [-1], 0⟩ := by
  refine ⟨by decide, by decide, by decide⟩

/-! ## Invalid input and the shape of the result -/

/-- Claim C8: `analyzeProg` returns the null handle when the trace is
absent, when the latency table is absent and when `numOfInsts = 0`; when
both are present, `numOfInsts ≥ 1` and the allocations succeed, it returns a
context whose `num_insts` is `numOfInsts` and whose arrays `latency`,
`depth`, `src1_dep`, `src2_dep` have exactly `numOfInsts` cells, each
holding an entry. -/
theorem analyzeProg_null_or_valid (outside : Outside) :
    (∀ heapOk opsLatency numOfInsts, analyzeProg outside heapOk opsLatency none numOfInsts = none)
    ∧ (∀ heapOk progTrace numOfInsts, analyzeProg outside heapOk none progTrace numOfInsts = none)
    ∧ (∀ heapOk opsLatency progTrace, analyzeProg outside heapOk opsLatency progTrace 0 = none)
    ∧ (∀ (opsLatency : Nat → Nat) (progTrace : Nat → InstInfo) (numOfInsts : Nat),
        1 ≤ numOfInsts →
        ∃ ctx, analyzeProg outside true (some opsLatency) (some progTrace) numOfInsts = some ctx
          ∧ ctx.num_insts = numOfInsts
          ∧ ctx.latency.length = numOfInsts ∧ ctx.depth.length = numOfInsts
          ∧ ctx.src1_dep.length = numOfInsts ∧ ctx.src2_dep.length = numOfInsts
          ∧ ∀ i, i < numOfInsts →
              ctx.latency[i]? = some (opsLatency (progTrace i).opcode)
              ∧ (∃ d, ctx.depth[i]? = some d)
              ∧ (∃ d1, ctx.src1_dep[i]? = some d1)
              ∧ (∃ d2, ctx.src2_dep[i]? = some d2)) := by
  refine ⟨analyzeProg_null_trace outside, analyzeProg_null_table outside,
    analyzeProg_zero_insts outside, ?_⟩
  intro opsLatency progTrace numOfInsts hn
  obtain ⟨h0, h1, h2, h3, h4⟩ := finalCtx_lengths outside opsLatency progTrace numOfInsts
  refine ⟨finalCtx outside opsLatency progTrace numOfInsts,
    analyzeProg_eq outside opsLatency progTrace numOfInsts hn, h0, h1, h2, h3, h4, ?_⟩
  intro i hi
  obtain ⟨c0, c1, c2⟩ := finalCtx_cells outside opsLatency progTrace numOfInsts i hi
  exact ⟨c0, ⟨_, finalCtx_depth outside opsLatency progTrace numOfInsts i hi⟩, ⟨_, c1⟩, ⟨_, c2⟩⟩

/-- Claim C8 on scenario B: two instructions give a context with
`num_insts = 2` and four arrays of two cells. -/
theorem analyzeProg_null_or_valid_witness :
    1 ≤ 2
    ∧ ∃ ctx, analyzeProg quietOutside true (some (tableOf [2, 1] 0)) (some scenarioB) 2 = some ctx
        ∧ ctx.num_insts = 2
        ∧ ctx.latency.length = 2 ∧ ctx.depth.length = 2
        ∧ ctx.src1_dep.length = 2 ∧ ctx.src2_dep.length = 2 := by
  obtain ⟨ctx, h, h0, h1, h2, h3, h4, -⟩ :=
    (analyzeProg_null_or_valid quietOutside).2.2.2 (tableOf [2, 1] 0) scenarioB 2 (by decide)
  exact ⟨by decide, ctx, h, h0, h1, h2, h3, h4⟩

/-! ## Queries out of range and on the null handle -/

/-- Claim C9: on a valid context and an index `i ≥ num_insts`,
`getInstDepth` returns `-1` and `getInstDeps` returns `-1` and leaves both
out-parameters as they were; the outcome is the same for every context with
that `num_insts`, whatever its arrays hold, so no array is consulted. -/
theorem queries_out_of_range (p : ProgCtxImpl) (i : Nat) (h : p.num_insts ≤ i) :
    getInstDepth (some p) i = -1
    ∧ (∀ out1 out2, getInstDeps (some p) i out1 out2 = (-1, out1, out2))
    ∧ (∀ q : ProgCtxImpl, q.num_insts = p.num_insts →
        getInstDepth (some q) i = getInstDepth (some p) i
        ∧ ∀ out1 out2, getInstDeps (some q) i out1 out2 = getInstDeps (some p) i out1 out2) := by
  have hd : ∀ q : ProgCtxImpl, q.num_insts ≤ i → getInstDepth (some q) i = -1 := by
    intro q hq
    unfold getInstDepth
    exact if_pos hq
  have hs : ∀ q : ProgCtxImpl, q.num_insts ≤ i →
      ∀ out1 out2, getInstDeps (some q) i out1 out2 = (-1, out1, out2) := by
    intro q hq out1 out2
    unfold getInstDeps
    exact if_pos hq
  refine ⟨hd p h, hs p h, ?_⟩
  intro q hq
  have hq2 : q.num_insts ≤ i := by omega
  refine ⟨by rw [hd q hq2, hd p h], fun out1 out2 => ?_⟩
  rw [hs q hq2, hs p h]

/-- Claim C9 on the context of scenario B, at the indices `num_insts` and
`num_insts + 1`. -/
theorem queries_out_of_range_witness :
    ((⟨2, [2, 1], [0, 2], [-1, 0], [-1, -1], 3⟩ : ProgCtxImpl).num_insts ≤ 2
      ∧ getInstDepth (some ⟨2, [2, 1], [0, 2], [-1, 0], [-1, -1], 3⟩) 2 = -1
      ∧ getInstDeps (some ⟨2, [2, 1], [0, 2], [-1, 0], [-1, -1], 3⟩) 2 (some 7) none
          = (-1, some 7, none))
    ∧ ((⟨2, [2, 1], [0, 2], [-1, 0], [-1, -1], 3⟩ : ProgCtxImpl).num_insts ≤ 3
      ∧ getInstDepth (some ⟨2, [2, 1], [0, 2], [-1, 0], [-1, -1], 3⟩) 3 = -1
      ∧ getInstDeps (some ⟨2, [2, 1], [0, 2], [-1, 0], [-1, -1], 3⟩) 3 (some 7) (some 8)
          = (-1, some 7, some 8)) :=
  ⟨⟨by decide,
    (queries_out_of_range ⟨2, [2, 1], [0, 2], [-1, 0], [-1, -1], 3⟩ 2 (by decide)).1,
    (queries_out_of_range ⟨2, [2, 1], [0, 2], [-1, 0], [-1, -1], 3⟩ 2 (by decide)).2.1 _ _⟩,
   ⟨by decide,
    (queries_out_of_range ⟨2, [2, 1], [0, 2], [-1, 0], [-1, -1], 3⟩ 3 (by decide)).1,
    (queries_out_of_range ⟨2, [2, 1], [0, 2], [-1, 0], [-1, -1], 3⟩ 3 (by decide)).2.1 _ _⟩⟩

/-- Claim C10: on the null handle `getInstDepth` returns `-1` for every
index, `getInstDeps` returns `-1` for every index and leaves both
out-parameters as they were, and `getProgDepth` returns `-1`; this is in
particular so for the handle `analyzeProg` returns for an empty trace, an
absent trace or an absent latency table. -/
theorem queries_on_null_handle (outside : Outside) :
    (∀ i, getInstDepth none i = -1)
    ∧ (∀ i out1 out2, getInstDeps none i out1 out2 = (-1, out1, out2))
    ∧ getProgDepth none = -1
    ∧ (∀ heapOk opsLatency progTrace numOfInsts,
        (numOfInsts = 0 ∨ opsLatency = none ∨ progTrace = none) →
        analyzeProg outside heapOk opsLatency progTrace numOfInsts = none
        ∧ (∀ i, getInstDepth (analyzeProg outside heapOk opsLatency progTrace numOfInsts) i = -1)
        ∧ (∀ i out1 out2,
            getInstDeps (analyzeProg outside heapOk opsLatency progTrace numOfInsts) i out1 out2
              = (-1, out1, out2))
        ∧ getProgDepth (analyzeProg outside heapOk opsLatency progTrace numOfInsts) = -1) := by
  refine ⟨fun _ => rfl, fun _ _ _ => rfl, rfl, ?_⟩
  intro heapOk opsLatency progTrace numOfInsts h
  have hnull : analyzeProg outside heapOk opsLatency progTrace numOfInsts = none := by
    rcases h with h | h | h
    · rw [h]; exact analyzeProg_zero_insts outside heapOk opsLatency progTrace
    · rw [h]; exact analyzeProg_null_table outside heapOk progTrace numOfInsts
    · rw [h]; exact analyzeProg_null_trace outside heapOk opsLatency numOfInsts
  rw [hnull]
  exact ⟨rfl, fun _ => rfl, fun _ _ _ => rfl, rfl⟩

/-- Claim C10 on scenario E: the handle returned for an empty trace fails
every query. -/
theorem queries_on_null_handle_witness :
    ((0 : Nat) = 0 ∨ some (tableOf [1] 0) = none ∨ some scenarioA = none)
    ∧ analyzeProg quietOutside true (some (tableOf [1] 0)) (some scenarioA) 0 = none
    ∧ getInstDepth (analyzeProg quietOutside true (some (tableOf [1] 0)) (some scenarioA) 0) 0 = -1
    ∧ getInstDeps (analyzeProg quietOutside true (some (tableOf [1] 0)) (some scenarioA) 0) 0
        (some 7) (some 8)
        = (-1, some 7, some 8)
    ∧ getProgDepth (analyzeProg quietOutside true (some (tableOf [1] 0)) (some scenarioA) 0) = -1 :=
  ⟨Or.inl rfl,
   ((queries_on_null_handle quietOutside).2.2.2 true (some (tableOf [1] 0)) (some scenarioA) 0
       (Or.inl rfl)).1,
   ((queries_on_null_handle quietOutside).2.2.2 true (some (tableOf [1] 0)) (some scenarioA) 0
      (Or.inl rfl)).2.1 0,
   ((queries_on_null_handle quietOutside).2.2.2 true (some (tableOf [1] 0)) (some scenarioA) 0
      (Or.inl rfl)).2.2.1 0 _ _,
   ((queries_on_null_handle quietOutside).2.2.2 true (some (tableOf [1] 0)) (some scenarioA) 0
      (Or.inl rfl)).2.2.2⟩

/-! ## Successful dependency queries -/

/-- Claim C11: on a valid context and an index `i < num_insts`,
`getInstDeps` returns 0 and stores `src1_dep[i]` in the first out-parameter
and `src2_dep[i]` in the second when they are provided; an omitted (null)
out-parameter stays omitted, the status is still 0 and the other
out-parameter still receives its value; on a memory holding the context and
the cells of the caller, the call leaves the context as it was, stores the
two dependencies in the cells the out-parameters point to (the second store
last when both point to one cell) and leaves every other cell of the caller
as it was. -/
theorem getInstDeps_in_range (p : ProgCtxImpl) (i : Nat) (h : i < p.num_insts) :
    (∀ v1 v2, getInstDeps (some p) i (some v1) (some v2)
        = (0, some (p.src1_dep.getD i 0), some (p.src2_dep.getD i 0)))
    ∧ (∀ v2, getInstDeps (some p) i none (some v2) = (0, none, some (p.src2_dep.getD i 0)))
    ∧ (∀ v1, getInstDeps (some p) i (some v1) none = (0, some (p.src1_dep.getD i 0), none))
    ∧ getInstDeps (some p) i none none = (0, none, none)
    ∧ (∀ d1, p.src1_dep[i]? = some d1 → p.src1_dep.getD i 0 = d1)
    ∧ (∀ d2, p.src2_dep[i]? = some d2 → p.src2_dep.getD i 0 = d2)
    ∧ (∀ (caller : Nat → Int) (out1 out2 : Option Nat),
        (getInstDepsMem ⟨p, caller⟩ true i out1 out2).1 = 0
        ∧ (getInstDepsMem ⟨p, caller⟩ true i out1 out2).2.ctx = p
        ∧ (∀ a, out1 = some a → out2 ≠ some a →
            (getInstDepsMem ⟨p, caller⟩ true i out1 out2).2.caller a = p.src1_dep.getD i 0)
        ∧ (∀ a, out2 = some a →
            (getInstDepsMem ⟨p, caller⟩ true i out1 out2).2.caller a = p.src2_dep.getD i 0)
        ∧ (∀ a, out1 ≠ some a → out2 ≠ some a →
            (getInstDepsMem ⟨p, caller⟩ true i out1 out2).2.caller a = caller a)) := by
  have hlt : ¬ i ≥ p.num_insts := by omega
  have key : ∀ out1 out2, getInstDeps (some p) i out1 out2
      = (0, out1.map (fun _ => p.src1_dep.getD i 0),
            out2.map (fun _ => p.src2_dep.getD i 0)) := by
    intro out1 out2
    unfold getInstDeps
    exact if_neg hlt
  refine ⟨fun v1 v2 => key _ _, fun v2 => key _ _, fun v1 => key _ _, key _ _, ?_, ?_, ?_⟩
  · intro d1 hd
    rw [List.getD_eq_getElem?_getD, hd, Option.getD_some]
  · intro d2 hd
    rw [List.getD_eq_getElem?_getD, hd, Option.getD_some]
  · intro caller out1 out2
    rw [getInstDepsMem_in_range ⟨p, caller⟩ i out1 out2 h]
    refine ⟨rfl, ?_, ?_, ?_, ?_⟩
    · rw [storeOut_ctx, storeOut_ctx]
    · intro a h1 h2
      rw [storeOut_caller_other _ _ _ _ h2, h1, storeOut_caller_self]
    · intro a h2
      rw [h2, storeOut_caller_self, storeOut_ctx]
    · intro a h1 h2
      rw [storeOut_caller_other _ _ _ _ h2, storeOut_caller_other _ _ _ _ h1]

/-- Claim C11 on the context of scenario B at index 1, whose dependencies
are `0` and `-1`. -/
theorem getInstDeps_in_range_witness :
    (1 < (⟨2, [2, 1], [0, 2], [-1, 0], [-1, -1], 3⟩ : ProgCtxImpl).num_insts)
    ∧ getInstDeps (some ⟨2, [2, 1], [0, 2], [-1, 0], [-1, -1], 3⟩) 1 (some 7) (some 8)
        = (0, some 0, some (-1))
    ∧ getInstDeps (some ⟨2, [2, 1], [0, 2], [-1, 0], [-1, -1], 3⟩) 1 none (some 8)
        = (0, none, some (-1))
    ∧ getInstDeps (some ⟨2, [2, 1], [0, 2], [-1, 0], [-1, -1], 3⟩) 1 (some 7) none
        = (0, some 0, none) :=
  ⟨by decide,
   (getInstDeps_in_range ⟨2, [2, 1], [0, 2], [-1, 0], [-1, -1], 3⟩ 1 (by decide)).1 7 8,
   (getInstDeps_in_range ⟨2, [2, 1], [0, 2], [-1, 0], [-1, -1], 3⟩ 1 (by decide)).2.1 8,
   (getInstDeps_in_range ⟨2, [2, 1], [0, 2], [-1, 0], [-1, -1], 3⟩ 1 (by decide)).2.2.1 7⟩

/-! ## The program depth is never the failure value -/

/-- Claim C12: for every latency table and every non-empty trace the
analysis succeeds and `getProgDepth` on its result returns a value `≥ 0`,
hence never `-1`. -/
theorem getProgDepth_nonneg
    (outside : Outside) (opsLatency : Nat → Nat) (progTrace : Nat → InstInfo) (numOfInsts : Nat)
    (hn : 0 < numOfInsts) :
    ∃ ctx, analyzeProg outside true (some opsLatency) (some progTrace) numOfInsts = some ctx
      ∧ 0 ≤ getProgDepth (some ctx) ∧ getProgDepth (some ctx) ≠ -1 := by
  obtain ⟨h0, -, -⟩ := loopState_max_exit_depth outside opsLatency progTrace numOfInsts numOfInsts
  have h1 : 0 ≤ getProgDepth (some (finalCtx outside opsLatency progTrace numOfInsts)) := h0
  refine ⟨finalCtx outside opsLatency progTrace numOfInsts,
    analyzeProg_eq outside opsLatency progTrace numOfInsts hn, h1, ?_⟩
  omega

/-- Claim C12 on a table holding the latency `2^32 - 1`: the depth of
instruction 1 is negative there, the program depth is 0. -/
theorem getProgDepth_nonneg_witness :
    0 < 2
    ∧ ∃ ctx, analyzeProg quietOutside true (some (tableOf [4294967295] 0)) (some bothSourcesTrace)
        2 = some ctx
        ∧ 0 ≤ getProgDepth (some ctx) ∧ getProgDepth (some ctx) ≠ -1
        ∧ getProgDepth (some ctx) = 0 := by
  obtain ⟨ctx, h, h1, h2⟩ :=
    getProgDepth_nonneg quietOutside (tableOf [4294967295] 0) bothSourcesTrace 2 (by decide)
  have e : analyzeProg quietOutside true (some (tableOf [4294967295] 0)) (some bothSourcesTrace) 2
      = some ⟨2, [4294967295, 4294967295], [0, -1], [-1, 0], [-1, 0], 0⟩ := by decide
  have hctx : ctx = ⟨2, [4294967295, 4294967295], [0, -1], [-1, 0], [-1, 0], 0⟩ := by
    rw [e] at h
    exact (Option.some.inj h).symm
  subst hctx
  exact ⟨by decide, _, e, h1, h2, rfl⟩

/-! ## Source indices that name no register -/

/-- Claim C13: for every non-empty trace the analysis succeeds and an
instruction `i` whose `src1Idx` is `≥ 32` has `src1_dep[i] = -1`, that
operand's readiness is 0 and `depth[i]` is the maximum of 0 and the
readiness the code computes for the second operand (`readyOf`), whatever
the earlier instructions wrote; likewise with the two sources exchanged. -/
theorem analyzeProg_invalid_source
    (outside : Outside) (opsLatency : Nat → Nat) (progTrace : Nat → InstInfo)
    (numOfInsts : Nat) (hn : 0 < numOfInsts) :
    ∃ ctx, analyzeProg outside true (some opsLatency) (some progTrace) numOfInsts = some ctx
      ∧ (∀ i, readyOf outside i ctx.depth ctx.latency INVALID_DEP = 0)
      ∧ ∀ i, i < numOfInsts →
        (REG_COUNT ≤ (progTrace i).src1Idx →
          ctx.src1_dep[i]? = some INVALID_DEP
          ∧ ∃ d2, ctx.src2_dep[i]? = some d2
              ∧ ctx.depth[i]? = some (max 0 (readyOf outside i ctx.depth ctx.latency d2)))
        ∧ (REG_COUNT ≤ (progTrace i).src2Idx →
          ctx.src2_dep[i]? = some INVALID_DEP
          ∧ ∃ d1, ctx.src1_dep[i]? = some d1
              ∧ ctx.depth[i]? = some (max (readyOf outside i ctx.depth ctx.latency d1) 0)) := by
  refine ⟨(finalCtx outside opsLatency progTrace numOfInsts), analyzeProg_eq outside opsLatency
      progTrace numOfInsts hn, fun i => readyOf_invalid outside i _ _, ?_⟩
  intro i hi
  obtain ⟨-, c1, c2⟩ := finalCtx_cells outside opsLatency progTrace numOfInsts i hi
  have hd := finalCtx_depth outside opsLatency progTrace numOfInsts i hi
  rw [MAX_eq_max] at hd
  constructor
  · intro hsrc
    have e := depOf_of_ge (loopState outside opsLatency progTrace numOfInsts i) _ hsrc
    rw [e] at c1 hd
    rw [readyOf_invalid] at hd
    exact ⟨c1, _, c2, hd⟩
  · intro hsrc
    have e := depOf_of_ge (loopState outside opsLatency progTrace numOfInsts i) _ hsrc
    rw [e] at c2 hd
    rw [readyOf_invalid] at hd
    exact ⟨c2, _, c1, hd⟩

/-- Scenario D as an instance of claim C13: instruction 1 names register
index 40 as its first source after instruction 0 wrote register 3; its
first dependency is `-1` and its depth comes from the second source
alone. -/
theorem analyzeProg_invalid_source_witness :
    0 < 2
    ∧ ∃ ctx, analyzeProg quietOutside true (some (tableOf [4] 0)) (some scenarioD) 2 = some ctx
        ∧ REG_COUNT ≤ (scenarioD 1).src1Idx
        ∧ ctx.src1_dep[1]? = some INVALID_DEP
        ∧ ctx.src2_dep[1]? = some 0
        ∧ ctx.depth[1]? = some 4 := by
  obtain ⟨ctx, h, -, H⟩ :=
    analyzeProg_invalid_source quietOutside (tableOf [4] 0) scenarioD 2 (by decide)
  have e : analyzeProg quietOutside true (some (tableOf [4] 0)) (some scenarioD) 2
      = some ⟨2, [4, 4], [0, 4], [-1, -1], [-1, 0], 8⟩ := by decide
  have hctx : ctx = ⟨2, [4, 4], [0, 4], [-1, -1], [-1, 0], 8⟩ := by
    rw [e] at h
    exact (Option.some.inj h).symm
  have h1 := ((H 1 (by decide)).1 (by decide)).1
  subst hctx
  exact ⟨by decide, _, e, by decide, h1, by decide, by decide⟩

/-! ## Destinations that name no register -/

/-- Claim C14: for every non-empty trace (the instruction count being an
`unsigned int`) the analysis succeeds, every recorded dependency that is an
instruction `j` is an earlier instruction whose destination is a register
`< 32` equal to the corresponding source register of `i`, and hence an
instruction `j` whose `dstIdx` is `≥ 32` is the dependency of no
instruction. -/
theorem analyzeProg_invalid_destination
    (outside : Outside) (opsLatency : Nat → Nat) (progTrace : Nat → InstInfo) (numOfInsts : Nat)
    (hn : 0 < numOfInsts) (hu32 : numOfInsts < 4294967296) :
    ∃ ctx, analyzeProg outside true (some opsLatency) (some progTrace) numOfInsts = some ctx
      ∧ (∀ i j : Nat, i < numOfInsts →
          (ctx.src1_dep[i]? = some (j : Int) →
            j < i ∧ (progTrace j).dstIdx < REG_COUNT
              ∧ (progTrace j).dstIdx = (progTrace i).src1Idx)
          ∧ (ctx.src2_dep[i]? = some (j : Int) →
            j < i ∧ (progTrace j).dstIdx < REG_COUNT
              ∧ (progTrace j).dstIdx = (progTrace i).src2Idx))
      ∧ (∀ j : Nat, REG_COUNT ≤ (progTrace j).dstIdx →
          ∀ i : Nat, i < numOfInsts →
            ctx.src1_dep[i]? ≠ some (j : Int) ∧ ctx.src2_dep[i]? ≠ some (j : Int)) := by
  have key : ∀ i j : Nat, i < numOfInsts →
      (((finalCtx outside opsLatency progTrace numOfInsts).src1_dep[i]? = some (j : Int) →
        j < i ∧ (progTrace j).dstIdx < REG_COUNT
          ∧ (progTrace j).dstIdx = (progTrace i).src1Idx)
      ∧ ((finalCtx outside opsLatency progTrace numOfInsts).src2_dep[i]? = some (j : Int) →
        j < i ∧ (progTrace j).dstIdx < REG_COUNT
          ∧ (progTrace j).dstIdx = (progTrace i).src2Idx)) := by
    intro i j hi
    obtain ⟨-, c1, c2⟩ := finalCtx_cells outside opsLatency progTrace numOfInsts i hi
    rw [c1, c2]
    constructor
    · intro h
      obtain ⟨a, b, c⟩ := depOf_eq_index outside opsLatency progTrace numOfInsts i _ j (by omega)
        (Option.some.inj h)
      exact ⟨a, by rw [b]; exact c, b⟩
    · intro h
      obtain ⟨a, b, c⟩ := depOf_eq_index outside opsLatency progTrace numOfInsts i _ j (by omega)
        (Option.some.inj h)
      exact ⟨a, by rw [b]; exact c, b⟩
  refine ⟨finalCtx outside opsLatency progTrace numOfInsts,
    analyzeProg_eq outside opsLatency progTrace numOfInsts hn, key, ?_⟩
  intro j hj i hi
  constructor
  · intro h
    have := ((key i j hi).1 h).2.1
    omega
  · intro h
    have := ((key i j hi).2 h).2.1
    omega

/-- Claim C14 on a trace whose instruction 0 has destination index 40:
instruction 2 depends on instruction 1, the writer of register 3, and
nothing depends on instruction 0. -/
theorem analyzeProg_invalid_destination_witness :
    (0 < 3 ∧ 3 < 4294967296)
    ∧ ∃ ctx, analyzeProg quietOutside true (some (tableOf [1] 0)) (some invisibleWriteTrace) 3 =
        some ctx
        ∧ REG_COUNT ≤ (invisibleWriteTrace 0).dstIdx
        ∧ (∀ i : Nat, i < 3 →
            ctx.src1_dep[i]? ≠ some ((0 : Nat) : Int) ∧ ctx.src2_dep[i]? ≠ some ((0 : Nat) : Int))
        ∧ ctx.src1_dep = [-1, -1, 1] ∧ ctx.src2_dep = [-1, -1, -1] := by
  obtain ⟨ctx, h, -, H⟩ :=
    analyzeProg_invalid_destination quietOutside (tableOf [1] 0) invisibleWriteTrace 3 (by decide)
        (by decide)
  have e : analyzeProg quietOutside true (some (tableOf [1] 0)) (some invisibleWriteTrace) 3
      = some ⟨3, [1, 1, 1], [0, 0, 1], [-1, -1, 1], [-1, -1, -1], 2⟩ := by decide
  have hctx : ctx = ⟨3, [1, 1, 1], [0, 0, 1], [-1, -1, 1], [-1, -1, -1], 2⟩ := by
    rw [e] at h
    exact (Option.some.inj h).symm
  have h0 := H 0 (by decide)
  subst hctx
  exact ⟨⟨by decide, by decide⟩, _, e, by decide, h0, rfl, rfl⟩

/-! ## Later instructions do not matter -/

/-- Claim C16: on a valid handle, whose context lives in a memory `m`
together with the cells of the caller, a call of `getInstDepth`,
`getInstDeps` or `getProgDepth` with any arguments leaves the context
(`num_insts`, `depth`, `src1_dep`, `src2_dep`, `latency`, `prog_depth`) as it
was, and so does any sequence of calls; every call of a sequence returns
the value it returns on the initial memory, a query repeated any number of
times returns the same value each time, and `getInstDeps` stores the same
two dependencies after any sequence of calls. -/
theorem queries_read_only (m : QueryMem) :
    (∀ q, (runQuery m true q).2.ctx = m.ctx)
    ∧ (∀ qs, (runQueries m true qs).2.ctx = m.ctx)
    ∧ (∀ qs q, (runQuery (runQueries m true qs).2 true q).1 = (runQuery m true q).1)
    ∧ (∀ qs, (runQueries m true qs).1 = qs.map (fun q => (runQuery m true q).1))
    ∧ (∀ n q, (runQueries m true (List.replicate n q)).1
          = List.replicate n (runQuery m true q).1)
    ∧ (∀ qs i a b, i < m.ctx.num_insts → a ≠ b →
        (runQuery (runQueries m true qs).2 true (Query.instDeps i (some a) (some b))).2.caller a
            = m.ctx.src1_dep.getD i 0
        ∧ (runQuery (runQueries m true qs).2 true
              (Query.instDeps i (some a) (some b))).2.caller b
            = m.ctx.src2_dep.getD i 0) := by
  refine ⟨fun q => runQuery_ctx m true q, fun qs => runQueries_ctx true qs m, ?_, ?_, ?_, ?_⟩
  · intro qs q
    exact runQuery_value_congr m _ (runQueries_ctx true qs m) q
  · intro qs
    exact runQueries_values m qs m rfl
  · intro n q
    rw [runQueries_values m _ m rfl, List.map_replicate]
  · intro qs i a b hi hab
    have hctx := runQueries_ctx true qs m
    have hi2 : i < (runQueries m true qs).2.ctx.num_insts := by rw [hctx]; exact hi
    show (getInstDepsMem (runQueries m true qs).2 true i (some a) (some b)).2.caller a = _
      ∧ (getInstDepsMem (runQueries m true qs).2 true i (some a) (some b)).2.caller b = _
    rw [getInstDepsMem_in_range _ i (some a) (some b) hi2]
    constructor
    · show (storeOut (storeOut _ (some a) _) (some b) _).caller a = _
      rw [storeOut_caller_other _ _ _ a (fun e => hab (Option.some.inj e).symm),
        storeOut_caller_self, hctx]
    · show (storeOut (storeOut _ (some a) _) (some b) _).caller b = _
      rw [storeOut_caller_self, storeOut_ctx, hctx]

/-- Claim C16 on the context of scenario B, with caller cells holding 9: a
sequence of five calls returns the depth 2 of instruction 1 twice, the
status 0, the program depth 3 and the failure value for index 5; the call of
`getInstDeps` sets the caller cells 0 and 1 and no other; the context is
unchanged. -/
theorem queries_read_only_witness :
    (runQueries ⟨⟨2, [2, 1], [0, 2], [-1, 0], [-1, -1], 3⟩, fun _ => 9⟩ true
        [Query.instDepth 1, Query.instDeps 1 (some 0) (some 1), Query.progDepth,
          Query.instDepth 1, Query.instDepth 5]).2.ctx
      = ⟨2, [2, 1], [0, 2], [-1, 0], [-1, -1], 3⟩
    ∧ (runQueries ⟨⟨2, [2, 1], [0, 2], [-1, 0], [-1, -1], 3⟩, fun _ => 9⟩ true
        [Query.instDepth 1, Query.instDeps 1 (some 0) (some 1), Query.progDepth,
          Query.instDepth 1, Query.instDepth 5]).1
      = [2, 0, 3, 2, -1]
    ∧ (runQueries ⟨⟨2, [2, 1], [0, 2], [-1, 0], [-1, -1], 3⟩, fun _ => 9⟩ true
        [Query.instDepth 1, Query.instDeps 1 (some 0) (some 1), Query.progDepth,
          Query.instDepth 1, Query.instDepth 5]).2.caller 0 = 0
    ∧ (runQueries ⟨⟨2, [2, 1], [0, 2], [-1, 0], [-1, -1], 3⟩, fun _ => 9⟩ true
        [Query.instDepth 1, Query.instDeps 1 (some 0) (some 1), Query.progDepth,
          Query.instDepth 1, Query.instDepth 5]).2.caller 1 = -1
    ∧ (runQueries ⟨⟨2, [2, 1], [0, 2], [-1, 0], [-1, -1], 3⟩, fun _ => 9⟩ true
        [Query.instDepth 1, Query.instDeps 1 (some 0) (some 1), Query.progDepth,
          Query.instDepth 1, Query.instDepth 5]).2.caller 2 = 9 :=
  ⟨(queries_read_only ⟨⟨2, [2, 1], [0, 2], [-1, 0], [-1, -1], 3⟩, fun _ => 9⟩).2.1 _,
   by decide, by decide, by decide, by decide⟩

/-! ## Depth as the longest dependency chain -/

/-- Claim C17: for every non-empty trace the analysis succeeds and, when no
cast and no addition of the run overflowed, `depth[i]` is the maximum over
all dependency chains `i = j0, j1, ..., jk` (each `j(m+1)` recorded as
`src1_dep` or `src2_dep` of `j(m)`) of `latency[j1] + ... + latency[jk]`:
every chain sums to at most `depth[i]` and some chain sums to it; and the
program depth is the maximum over all instructions `i` and chains from `i` of
that sum plus `latency[i]`. -/
theorem analyzeProg_depth_is_longest_chain
    (outside : Outside) (opsLatency : Nat → Nat) (progTrace : Nat → InstInfo)
    (numOfInsts : Nat) (hn : 0 < numOfInsts) :
    ∃ ctx, analyzeProg outside true (some opsLatency) (some progTrace) numOfInsts = some ctx
      ∧ (NoOverflow progTrace ctx →
          (∀ i, i < numOfInsts →
            (∀ js, IsDepChain ctx i js → (chainLatency ctx js : Int) ≤ ctx.depth.getD i 0)
            ∧ ∃ js, IsDepChain ctx i js ∧ (chainLatency ctx js : Int) = ctx.depth.getD i 0)
          ∧ (∀ i, i < numOfInsts → ∀ js, IsDepChain ctx i js →
              (chainLatency ctx js : Int) + (ctx.latency.getD i 0 : Int)
                ≤ getProgDepth (some ctx))
          ∧ ∃ i, i < numOfInsts ∧ ∃ js, IsDepChain ctx i js
              ∧ (chainLatency ctx js : Int) + (ctx.latency.getD i 0 : Int)
                  = getProgDepth (some ctx)) := by
  refine ⟨(finalCtx outside opsLatency progTrace numOfInsts), analyzeProg_eq outside opsLatency
      progTrace numOfInsts hn, ?_⟩
  intro hno
  refine ⟨fun i hi =>
    ⟨fun js hc => finalCtx_chain_le_depth outside opsLatency progTrace numOfInsts hno js i hi hc,
     finalCtx_chain_attains_depth outside opsLatency progTrace numOfInsts hno i hi⟩, ?_, ?_⟩
  · intro i hi js hc
    have h0 := finalCtx_chain_le_depth outside opsLatency progTrace numOfInsts hno js i hi hc
    have h1 := finalCtx_exit_le_prog_depth outside opsLatency progTrace numOfInsts hno i hi
    show _ ≤ (finalCtx outside opsLatency progTrace numOfInsts).prog_depth
    omega
  · obtain ⟨i, hi, he⟩ := finalCtx_prog_depth_attained outside opsLatency progTrace numOfInsts hn
      hno
    obtain ⟨js, hjs, hsum⟩ := finalCtx_chain_attains_depth outside opsLatency progTrace numOfInsts
        hno i hi
    refine ⟨i, hi, js, hjs, ?_⟩
    show _ = (finalCtx outside opsLatency progTrace numOfInsts).prog_depth
    rw [he, hsum]

/-- Claim C17 on scenario B: the chain `1, 0` has latency 2, the depth of
instruction 1, and with the latency 1 of instruction 1 it gives the program
depth 3. -/
theorem analyzeProg_depth_is_longest_chain_witness :
    0 < 2
    ∧ ∃ ctx, analyzeProg quietOutside true (some (tableOf [2, 1] 0)) (some scenarioB) 2
          = some ctx
        ∧ NoOverflow scenarioB ctx
        ∧ (∀ js, IsDepChain ctx 1 js → (chainLatency ctx js : Int) ≤ ctx.depth.getD 1 0)
        ∧ IsDepChain ctx 1 [0]
        ∧ (chainLatency ctx [0] : Int) = ctx.depth.getD 1 0
        ∧ (chainLatency ctx [0] : Int) + (ctx.latency.getD 1 0 : Int) = getProgDepth (some ctx)
        ∧ getProgDepth (some ctx) = 3 := by
  obtain ⟨ctx, h, H⟩ :=
    analyzeProg_depth_is_longest_chain quietOutside (tableOf [2, 1] 0) scenarioB 2 (by decide)
  have e : analyzeProg quietOutside true (some (tableOf [2, 1] 0)) (some scenarioB) 2
      = some ⟨2, [2, 1], [0, 2], [-1, 0], [-1, -1], 3⟩ := by decide
  have hctx : ctx = ⟨2, [2, 1], [0, 2], [-1, 0], [-1, -1], 3⟩ := by
    rw [e] at h
    exact (Option.some.inj h).symm
  subst hctx
  have hno : NoOverflow scenarioB ⟨2, [2, 1], [0, 2], [-1, 0], [-1, -1], 3⟩ :=
    ⟨fun j hj _ => lt_trans hj (by decide), by decide⟩
  refine ⟨by decide, _, e, hno, ((H hno).1 1 (by decide)).1, ?_, by decide, by decide, rfl⟩
  exact ⟨Or.inl (by decide), trivial⟩

/-! ## The critical path against serial execution -/

/-- Claim C18: for every non-empty trace the analysis succeeds and, when no
cast and no addition of the run overflowed, `depth[i]` is at most the sum of
`latency[j]` over `j < i` for every `i`, and the program depth is at most the
sum of `latency[j]` over all instructions. -/
theorem analyzeProg_depth_le_serial
    (outside : Outside) (opsLatency : Nat → Nat) (progTrace : Nat → InstInfo)
    (numOfInsts : Nat) (hn : 0 < numOfInsts) :
    ∃ ctx, analyzeProg outside true (some opsLatency) (some progTrace) numOfInsts = some ctx
      ∧ (NoOverflow progTrace ctx →
          (∀ i, i < numOfInsts →
            ctx.depth.getD i 0
              ≤ ((∑ j ∈ Finset.range i, ctx.latency.getD j 0 : Nat) : Int))
          ∧ getProgDepth (some ctx)
              ≤ ((∑ j ∈ Finset.range numOfInsts, ctx.latency.getD j 0 : Nat) : Int)) := by
  refine ⟨(finalCtx outside opsLatency progTrace numOfInsts), analyzeProg_eq outside opsLatency
      progTrace numOfInsts hn, ?_⟩
  intro hno
  refine ⟨fun i hi => finalCtx_depth_le_serial outside opsLatency progTrace numOfInsts hno i hi, ?_⟩
  obtain ⟨j, hj, he⟩ := finalCtx_prog_depth_attained outside opsLatency progTrace numOfInsts hn hno
  have h0 := finalCtx_depth_le_serial outside opsLatency progTrace numOfInsts hno j hj
  have hs : (∑ t ∈ Finset.range (j + 1), (finalCtx outside opsLatency progTrace
      numOfInsts).latency.getD t 0)
      ≤ ∑ t ∈ Finset.range numOfInsts, (finalCtx outside opsLatency progTrace
          numOfInsts).latency.getD t 0 :=
    Finset.sum_le_sum_of_subset (Finset.range_mono hj)
  rw [Finset.sum_range_succ] at hs
  have hs2 : ((∑ t ∈ Finset.range j, (finalCtx outside opsLatency progTrace
      numOfInsts).latency.getD t 0 : Nat) : Int)
      + ((finalCtx outside opsLatency progTrace numOfInsts).latency.getD j 0 : Int)
      ≤ ((∑ t ∈ Finset.range numOfInsts, (finalCtx outside opsLatency progTrace
          numOfInsts).latency.getD t 0 : Nat) : Int) := by
    exact_mod_cast hs
  show (finalCtx outside opsLatency progTrace numOfInsts).prog_depth ≤ _
  rw [he]
  exact le_trans (Int.add_le_add_right h0 _) hs2

/-- Claim C18 on scenario B, whose run has no overflow: the depths are
`0 ≤ 0` and `2 ≤ 2`, the program depth is `3 ≤ 2 + 1`. -/
theorem analyzeProg_depth_le_serial_witness :
    0 < 2
    ∧ ∃ ctx, analyzeProg quietOutside true (some (tableOf [2, 1] 0)) (some scenarioB) 2
          = some ctx
        ∧ NoOverflow scenarioB ctx
        ∧ (∀ i, i < 2 →
            ctx.depth.getD i 0
              ≤ ((∑ j ∈ Finset.range i, ctx.latency.getD j 0 : Nat) : Int))
        ∧ getProgDepth (some ctx)
              ≤ ((∑ j ∈ Finset.range 2, ctx.latency.getD j 0 : Nat) : Int)
        ∧ getProgDepth (some ctx) = 3 := by
  obtain ⟨ctx, h, H⟩ :=
    analyzeProg_depth_le_serial quietOutside (tableOf [2, 1] 0) scenarioB 2 (by decide)
  have e : analyzeProg quietOutside true (some (tableOf [2, 1] 0)) (some scenarioB) 2
      = some ⟨2, [2, 1], [0, 2], [-1, 0], [-1, -1], 3⟩ := by decide
  have hctx : ctx = ⟨2, [2, 1], [0, 2], [-1, 0], [-1, -1], 3⟩ := by
    rw [e] at h
    exact (Option.some.inj h).symm
  subst hctx
  have hno : NoOverflow scenarioB ⟨2, [2, 1], [0, 2], [-1, 0], [-1, -1], 3⟩ :=
    ⟨fun j hj _ => lt_trans hj (by decide), by decide⟩
  exact ⟨by decide, _, e, hno, (H hno).1, (H hno).2, rfl⟩

/-! ## Monotonicity in the latency table -/

/-- Claim C19: for one trace and two latency tables, the second pointwise at
least the first, both analyses succeed and record identical `src1_dep` and
`src2_dep` arrays; when no cast and no addition overflowed in either run,
every depth and the program depth under the first table are at most those
under the second. -/
theorem analyzeProg_mono_in_latency
    (outside outside2 : Outside) (opsLatency opsLatency2 : Nat → Nat)
    (progTrace : Nat → InstInfo) (numOfInsts : Nat)
    (hn : 0 < numOfInsts) (hle : ∀ op, opsLatency op ≤ opsLatency2 op) :
    ∃ ctx ctx2,
      analyzeProg outside true (some opsLatency) (some progTrace) numOfInsts = some ctx
      ∧ analyzeProg outside2 true (some opsLatency2) (some progTrace) numOfInsts = some ctx2
      ∧ ctx.src1_dep = ctx2.src1_dep ∧ ctx.src2_dep = ctx2.src2_dep
      ∧ (NoOverflow progTrace ctx → NoOverflow progTrace ctx2 →
          (∀ i, i < numOfInsts → ctx.depth.getD i 0 ≤ ctx2.depth.getD i 0)
          ∧ getProgDepth (some ctx) ≤ getProgDepth (some ctx2)) := by
  obtain ⟨e1, e2⟩ := finalCtx_deps_table_free outside outside2 opsLatency opsLatency2
    progTrace numOfInsts
  refine ⟨(finalCtx outside opsLatency progTrace numOfInsts),
      (finalCtx outside2 opsLatency2 progTrace numOfInsts), analyzeProg_eq outside opsLatency
      progTrace numOfInsts hn, analyzeProg_eq outside2 opsLatency2 progTrace numOfInsts hn, e1,
      e2, ?_⟩
  intro hno hno2
  refine ⟨fun i hi => finalCtx_depth_mono outside outside2 opsLatency opsLatency2 progTrace
    numOfInsts hle hno hno2 i hi, ?_⟩
  obtain ⟨j, hj, he⟩ := finalCtx_prog_depth_attained outside opsLatency progTrace numOfInsts hn hno
  have h0 := finalCtx_depth_mono outside outside2 opsLatency opsLatency2 progTrace
    numOfInsts hle hno hno2 j hj
  have h1 := finalCtx_exit_le_prog_depth outside2 opsLatency2 progTrace numOfInsts hno2 j hj
  rw [finalCtx_latency_getD outside2 opsLatency2 progTrace numOfInsts j hj] at h1
  rw [finalCtx_latency_getD outside opsLatency progTrace numOfInsts j hj] at he
  have hl : ((opsLatency (progTrace j).opcode : Nat) : Int)
      ≤ ((opsLatency2 (progTrace j).opcode : Nat) : Int) :=
    Int.ofNat_le.mpr (hle _)
  show (finalCtx outside opsLatency progTrace numOfInsts).prog_depth ≤
      (finalCtx outside2 opsLatency2 progTrace numOfInsts).prog_depth
  rw [he]
  exact le_trans (Int.add_le_add h0 hl) h1

/-- Claim C19 on scenario B with the tables `[2, 1]` and `[5, 1]`: the
dependencies are the same, the depths go from `[0, 2]` to `[0, 5]` and the
program depth from 3 to 6. -/
theorem analyzeProg_mono_in_latency_witness :
    (0 < 2 ∧ ∀ op, tableOf [2, 1] 0 op ≤ tableOf [5, 1] 0 op)
    ∧ ∃ ctx ctx2,
        analyzeProg quietOutside true (some (tableOf [2, 1] 0)) (some scenarioB) 2 = some ctx
        ∧ analyzeProg noisyOutside true (some (tableOf [5, 1] 0)) (some scenarioB) 2
            = some ctx2
        ∧ ctx.src1_dep = ctx2.src1_dep ∧ ctx.src2_dep = ctx2.src2_dep
        ∧ NoOverflow scenarioB ctx ∧ NoOverflow scenarioB ctx2
        ∧ (∀ i, i < 2 → ctx.depth.getD i 0 ≤ ctx2.depth.getD i 0)
        ∧ getProgDepth (some ctx) ≤ getProgDepth (some ctx2)
        ∧ getProgDepth (some ctx) = 3 ∧ getProgDepth (some ctx2) = 6 := by
  have hle : ∀ op, tableOf [2, 1] 0 op ≤ tableOf [5, 1] 0 op := by
    intro op
    match op with
    | 0 => decide
    | 1 => decide
    | _ + 2 => exact le_refl _
  obtain ⟨ctx, ctx2, h, h2, d1, d2, H⟩ :=
    analyzeProg_mono_in_latency quietOutside noisyOutside (tableOf [2, 1] 0)
      (tableOf [5, 1] 0) scenarioB 2 (by decide) hle
  have e : analyzeProg quietOutside true (some (tableOf [2, 1] 0)) (some scenarioB) 2
      = some ⟨2, [2, 1], [0, 2], [-1, 0], [-1, -1], 3⟩ := by decide
  have e2 : analyzeProg noisyOutside true (some (tableOf [5, 1] 0)) (some scenarioB) 2
      = some ⟨2, [5, 1], [0, 5], [-1, 0], [-1, -1], 6⟩ := by decide
  have hctx : ctx = ⟨2, [2, 1], [0, 2], [-1, 0], [-1, -1], 3⟩ := by
    rw [e] at h
    exact (Option.some.inj h).symm
  have hctx2 : ctx2 = ⟨2, [5, 1], [0, 5], [-1, 0], [-1, -1], 6⟩ := by
    rw [e2] at h2
    exact (Option.some.inj h2).symm
  subst hctx hctx2
  have hno : NoOverflow scenarioB ⟨2, [2, 1], [0, 2], [-1, 0], [-1, -1], 3⟩ :=
    ⟨fun j hj _ => lt_trans hj (by decide), by decide⟩
  have hno2 : NoOverflow scenarioB ⟨2, [5, 1], [0, 5], [-1, 0], [-1, -1], 6⟩ :=
    ⟨fun j hj _ => lt_trans hj (by decide), by decide⟩
  exact ⟨⟨by decide, hle⟩, _, _, e, e2, d1, d2, hno, hno2, (H hno hno2).1, (H hno hno2).2,
    rfl, rfl⟩

/-! ## Exactness of the 32-bit arithmetic -/

/-- Claim C20, as amended: for every non-empty trace in which the index
casts of all iterations but the last keep their values (as in every trace of
at most `2^31 + 1` instructions) and whose instruction latencies sum to less
than `2^31`, the analysis succeeds, every cast `(int)latency[j]` keeps the
value of `latency[j]`, every sum `depth[j] + (int)latency[j]` formed in
`int` is the integer sum, and the latencies, every `depth[i]`, the recorded
dependencies and the program depth are those of the pass of the
specification computed in unbounded integers. -/
theorem analyzeProg_exact_when_small
    (outside : Outside) (opsLatency : Nat → Nat) (progTrace : Nat → InstInfo)
    (numOfInsts : Nat) (hn : 0 < numOfInsts)
    (hcast : CastsExact progTrace (numOfInsts - 1))
    (hsum : (∑ j ∈ Finset.range numOfInsts, opsLatency (progTrace j).opcode) < 2147483648) :
    ∃ ctx, analyzeProg outside true (some opsLatency) (some progTrace) numOfInsts = some ctx
      ∧ (∀ j, j < numOfInsts →
          castInt (ctx.latency.getD j 0) = (ctx.latency.getD j 0 : Int))
      ∧ (∀ j, j < numOfInsts →
          addInt (ctx.depth.getD j 0) (castInt (ctx.latency.getD j 0))
            = ctx.depth.getD j 0 + (ctx.latency.getD j 0 : Int))
      ∧ ctx.latency = (specResult opsLatency progTrace numOfInsts).latency
      ∧ (∀ i, i < numOfInsts →
          ∃ d : Nat, (specResult opsLatency progTrace numOfInsts).depth[i]? = some d
            ∧ ctx.depth[i]? = some (d : Int))
      ∧ (∀ i, i < numOfInsts →
          ∃ d1 d2, (specResult opsLatency progTrace numOfInsts).dep1[i]? = some d1
            ∧ (specResult opsLatency progTrace numOfInsts).dep2[i]? = some d2
            ∧ ctx.src1_dep[i]? = some (depCode d1) ∧ ctx.src2_dep[i]? = some (depCode d2))
      ∧ getProgDepth (some ctx)
          = ((specResult opsLatency progTrace numOfInsts).max_program_exit : Int) := by
  unfold specResult
  obtain ⟨⟨hA, hB, hH1, hH2, hD⟩, -⟩ := loopState_encodes outside opsLatency progTrace
    numOfInsts numOfInsts (le_refl _) hcast hsum
  obtain ⟨-, sl, sd, s1, s2, -⟩ := loopState_lengths outside opsLatency progTrace numOfInsts
      numOfInsts
  obtain ⟨⟨-, td, t1, t2, -⟩, -, -, hF, -⟩ :=
    specState_inv opsLatency progTrace numOfInsts numOfInsts (le_refl _)
  have hbound : ∀ j, j < numOfInsts →
      ((specState opsLatency progTrace numOfInsts numOfInsts).depth.getD j 0 : Int) +
          ((specState opsLatency progTrace numOfInsts numOfInsts).latency.getD j 0 : Int)
        < 2147483648 := by
    intro j hj
    have h1 := le_trans (hF j hj) (latencySum_mono opsLatency progTrace (j + 1) numOfInsts hj)
    have h2 : (specState opsLatency progTrace numOfInsts numOfInsts).depth.getD j 0 +
        (specState opsLatency progTrace numOfInsts numOfInsts).latency.getD j 0
        < 2147483648 := lt_of_le_of_lt h1 hsum
    exact_mod_cast h2
  refine ⟨(finalCtx outside opsLatency progTrace numOfInsts), analyzeProg_eq outside opsLatency
      progTrace numOfInsts hn, ?_, ?_, hA, ?_, ?_, hD⟩
  · intro j hj
    have hb := hbound j hj
    show castInt ((loopState outside opsLatency progTrace numOfInsts numOfInsts).ctx.latency.getD
        j 0)
      = ((loopState outside opsLatency progTrace numOfInsts numOfInsts).ctx.latency.getD j 0 : Int)
    rw [hA]
    exact castInt_of_lt _ (by omega)
  · intro j hj
    have hb := hbound j hj
    show addInt ((loopState outside opsLatency progTrace numOfInsts numOfInsts).ctx.depth.getD j 0)
        (castInt ((loopState outside opsLatency progTrace numOfInsts numOfInsts).ctx.latency.getD
            j 0))
      = (loopState outside opsLatency progTrace numOfInsts numOfInsts).ctx.depth.getD j 0 +
          ((loopState outside opsLatency progTrace numOfInsts numOfInsts).ctx.latency.getD j 0 :
          Int)
    rw [hA, hB j]
    exact addInt_castInt_exact _ _ (by omega) hb
  · intro i hi
    refine ⟨(specState opsLatency progTrace numOfInsts numOfInsts).depth.getD i 0,
      getElem?_eq_some_getD _ i 0 (by rw [td]; exact hi), ?_⟩
    show (loopState outside opsLatency progTrace numOfInsts numOfInsts).ctx.depth[i]? = _
    rw [← hB i]
    exact getElem?_eq_some_getD _ i 0 (by rw [sd]; exact hi)
  · intro i hi
    refine ⟨(specState opsLatency progTrace numOfInsts numOfInsts).dep1.getD i none,
        (specState opsLatency progTrace numOfInsts numOfInsts).dep2.getD i none,
      getElem?_eq_some_getD _ i none (by rw [t1]; exact hi),
      getElem?_eq_some_getD _ i none (by rw [t2]; exact hi), ?_, ?_⟩
    · show (loopState outside opsLatency progTrace numOfInsts numOfInsts).ctx.src1_dep[i]? = _
      rw [← hH1 i hi]
      exact getElem?_eq_some_getD _ i 0 (by rw [s1]; exact hi)
    · show (loopState outside opsLatency progTrace numOfInsts numOfInsts).ctx.src2_dep[i]? = _
      rw [← hH2 i hi]
      exact getElem?_eq_some_getD _ i 0 (by rw [s2]; exact hi)

/-- Claim C20 on scenario B, whose latencies sum to 3: the pass in unbounded
integers gives the depths 0 and 2 and the program depth 3, as the analysis
does. -/
theorem analyzeProg_exact_when_small_witness :
    (0 < 2 ∧ CastsExact scenarioB (2 - 1)
      ∧ (∑ j ∈ Finset.range 2, tableOf [2, 1] 0 (scenarioB j).opcode) < 2147483648)
    ∧ ∃ ctx, analyzeProg quietOutside true (some (tableOf [2, 1] 0)) (some scenarioB) 2
          = some ctx
        ∧ (specResult (tableOf [2, 1] 0) scenarioB 2).depth = [0, 2]
        ∧ ctx.depth = [0, 2]
        ∧ (specResult (tableOf [2, 1] 0) scenarioB 2).max_program_exit = 3
        ∧ getProgDepth (some ctx) = 3 := by
  have hs : (∑ j ∈ Finset.range 2, tableOf [2, 1] 0 (scenarioB j).opcode) < 2147483648 := by
    decide
  have hc : CastsExact scenarioB (2 - 1) := castsExact_of_le scenarioB _ (by decide)
  obtain ⟨ctx, h, -, -, -, -, -, hp⟩ :=
    analyzeProg_exact_when_small quietOutside (tableOf [2, 1] 0) scenarioB 2 (by decide) hc hs
  have e : analyzeProg quietOutside true (some (tableOf [2, 1] 0)) (some scenarioB) 2
      = some ⟨2, [2, 1], [0, 2], [-1, 0], [-1, -1], 3⟩ := by decide
  have hctx : ctx = ⟨2, [2, 1], [0, 2], [-1, 0], [-1, -1], 3⟩ := by
    rw [e] at h
    exact (Option.some.inj h).symm
  have hm : (specResult (tableOf [2, 1] 0) scenarioB 2).max_program_exit = 3 := by decide
  rw [hm] at hp
  subst hctx
  exact ⟨⟨by decide, hc, hs⟩, _, e, by decide, rfl, hm, hp⟩

/-- Counterexample to claim C20 as stated: a trace of `2^31 + 2`
instructions whose latencies sum to 5, in which instruction `2^31`, of
latency 5, is the only writer of register 0 and instruction `2^31 + 1` reads
register 0.  The pass in unbounded integers gives instruction `2^31 + 1` the
depth `0 + 5 = 5`; the code records for it the dependency
`(int)2^31 = -2^31`, reads its depth from the memory before the arrays and,
in a memory holding 0 there, stores the depth 0. -/
theorem analyzeProg_exact_when_small_counterexample :
    (∑ j ∈ Finset.range 2147483650, tableOf [0, 5] 0 (lateProducerTrace j).opcode)
        < 2147483648
    ∧ ∃ ctx, analyzeProg quietOutside true (some (tableOf [0, 5] 0)) (some lateProducerTrace)
          2147483650 = some ctx
        ∧ (specResult (tableOf [0, 5] 0) lateProducerTrace 2147483650).depth[2147483649]?
            = some 5
        ∧ ctx.src1_dep[2147483649]? = some (-2147483648)
        ∧ ctx.depth[2147483649]? = some 0 := by
  have hidle : ∀ j, j ≠ 2147483648 → lateProducerTrace j = ⟨0, 40, 0, 40⟩ := by
    intro j hj
    unfold lateProducerTrace
    rw [if_neg hj]
  have hprod : lateProducerTrace 2147483648 = ⟨1, 0, 40, 40⟩ := by
    unfold lateProducerTrace
    rw [if_pos rfl]
  have hw : ∀ m, (lateProducerTrace m).dstIdx = 0 ↔ m = 2147483648 := by
    intro m
    by_cases h : m = 2147483648
    · rw [h, hprod]
      simp
    · rw [hidle m h]
      simp [h]
  have hsum : (∑ j ∈ Finset.range 2147483650, tableOf [0, 5] 0 (lateProducerTrace j).opcode)
      = 5 := by
    rw [Finset.sum_eq_single 2147483648]
    · rw [hprod]
      rfl
    · intro b _ hb
      rw [hidle b hb]
      rfl
    · intro h
      exact absurd (Finset.mem_range.mpr (by decide)) h
  have hspec := specState_late_producer (tableOf [0, 5] 0) lateProducerTrace 2147483650
    2147483648 2147483649 (by decide) (by decide)
    (fun j hj => by rw [hidle j (by omega)]; exact ⟨rfl, by decide⟩)
    (by rw [hprod]; rfl) (by rw [hprod]; decide) (by rw [hprod]; decide) (by rw [hprod])
    (by rw [hidle _ (by decide)]) (by rw [hidle _ (by decide)]; decide)
  obtain ⟨a1, a2⟩ := finalCtx_depth_after_late_writer quietOutside (tableOf [0, 5] 0)
    lateProducerTrace 2147483650 (by decide) (by rw [hidle _ (by decide)])
    (by rw [hidle _ (by decide)]; decide) hw
  have q : max (addInt (quietOutside.depthAt 2147483649 (-2147483648))
      (castInt (quietOutside.latencyAt 2147483649 (-2147483648)))) 0 = 0 := by decide
  rw [q] at a2
  refine ⟨by rw [hsum]; decide, _,
    analyzeProg_eq quietOutside (tableOf [0, 5] 0) lateProducerTrace 2147483650 (by decide),
    hspec, a1, a2⟩

end DflowCalc
